import Mathlib

/-!
# flashprog (Terasic DE2-115 Flash ROM programmer): bus emulation and flash commands

A shallow embedding of `src/host/flashprog.c`.

* The nine global shadow variables `lastAddr_0 .. lastCtrl` form the `Mirror`.
* The rest of the observable state is the `World`: the bytes the serial line has
  accepted so far, the bytes received, the outcomes of the coming `write()`
  attempts, the content of the destination file, and a call log of the bus
  cycles (`writeData`, `readData`, `waitReady`) that were entered.
* The board at the other end of the line is a `Device`: its reply to a request is
  a function of every byte it has been sent so far.
* C integers are natural numbers; `unsigned int` arithmetic is reduced with `u32`,
  values stored in an `unsigned char` are reduced modulo 256 where the C code
  converts.
-/

namespace Flashprog

/-! ## Machine integers -/

/-- Value of an expression of C type `unsigned int` (32 bits). -/
def u32 (n : Nat) : Nat := n % 2 ^ 32

/-! ## Selector codes (`#define SET_ADDR_0 .. IGNORE_F`) -/

/-- Selector code of address nibble 0. -/
def SET_ADDR_0 : Nat := 0x00
/-- Selector code of address nibble 1. -/
def SET_ADDR_1 : Nat := 0x10
/-- Selector code of address nibble 2. -/
def SET_ADDR_2 : Nat := 0x20
/-- Selector code of address nibble 3. -/
def SET_ADDR_3 : Nat := 0x30
/-- Selector code of address nibble 4. -/
def SET_ADDR_4 : Nat := 0x40
/-- Selector code of address nibble 5. -/
def SET_ADDR_5 : Nat := 0x50
/-- Selector code of data nibble 0. -/
def SET_DATA_0 : Nat := 0x60
/-- Selector code of data nibble 1. -/
def SET_DATA_1 : Nat := 0x70
/-- Selector code of the control nibble. -/
def SET_CTRL : Nat := 0x80
/-- Request code for the data byte. -/
def GET_DATA : Nat := 0x90
/-- Request code for the ready status. -/
def GET_READY : Nat := 0xA0

/-! ## State -/

/-- The nine shadow variables `lastAddr_0 .. lastCtrl` (each an `unsigned char`). -/
structure Mirror where
  lastAddr_0 : Nat
  lastAddr_1 : Nat
  lastAddr_2 : Nat
  lastAddr_3 : Nat
  lastAddr_4 : Nat
  lastAddr_5 : Nat
  lastData_0 : Nat
  lastData_1 : Nat
  lastCtrl : Nat
deriving DecidableEq, Repr

/-- One entry of the call log: a bus cycle that was entered, with the arguments
it was called with. -/
inductive BusCall where
  | write (addr data : Nat)
  | read (addr : Nat)
  | wait
deriving DecidableEq, Repr

/-- Everything the program can change or observe.

* `mirror`: the shadow variables;
* `sent`: the bytes the serial line accepted, oldest first;
* `rcvd`: the bytes received from the line, oldest first;
* `sndOutcomes`: the results of the coming `write(sfd, &b, 1)` attempts
  (`true`: one byte written); once the list is used up every attempt succeeds;
* `outFile`: the content of the destination file of a read command;
* `calls`: log of the calls of `writeData`, `readData` and `waitReady`
  (bookkeeping only, no operation reads it). -/
structure World where
  mirror : Mirror
  sent : List Nat
  rcvd : List Nat
  sndOutcomes : List Bool
  outFile : List Nat
  calls : List BusCall
deriving DecidableEq, Repr

/-- The board and flash chip as seen through the serial line: the byte it returns
for a request, given all bytes it has accepted so far (the request included). -/
abbrev Device := List Nat → Nat

/-! ## Serial line -/

/-- Source function `serialSnd`: one attempt to write the byte `b` (an
`unsigned char`);
returns whether one byte was written. -/
def serialSnd (b : Nat) (w : World) : Bool × World :=
  match w.sndOutcomes with
  | [] => (true, { w with sent := w.sent ++ [b % 256] })
  | true :: rest => (true, { w with sent := w.sent ++ [b % 256], sndOutcomes := rest })
  | false :: rest => (false, { w with sndOutcomes := rest })

/-- The loop `while (!serialSnd(b)) ;`, at most `n` attempts. -/
def sndLoop (b : Nat) : Nat → World → World
  | 0, w => w
  | n + 1, w =>
    match serialSnd b w with
    | (true, w1) => w1
    | (false, w1) => sndLoop b n w1

/-- The statement `while (!serialSnd(b)) ;`. The scripted failures are finitely
many, so `sndOutcomes.length + 1` attempts always reach a success. -/
def sendByte (b : Nat) (w : World) : World :=
  sndLoop b (w.sndOutcomes.length + 1) w

/-- The statement `while (!serialRcv(&b)) ;`: read attempts fail until the reply
of the device has arrived; the byte is stored in an `unsigned char`. -/
def recvByte (dev : Device) (w : World) : Nat × World :=
  let b := dev w.sent % 256
  (b, { w with rcvd := w.rcvd ++ [b] })

/-! ## Bus registers -/

/-- Statements 1 and 2 of `initBoard`: `lastAddr_0 = 0x00;` and
`while (!serialSnd(SET_ADDR_0 | lastAddr_0)) ;`. -/
def initBoard_0 (w : World) : World :=
  let w := { w with mirror := { w.mirror with lastAddr_0 := 0x00 } }
  sendByte (SET_ADDR_0 ||| w.mirror.lastAddr_0) w

/-- Statements 3 and 4 of `initBoard`: `lastAddr_1 = 0x00;` and
`while (!serialSnd(SET_ADDR_1 | lastAddr_1)) ;`. -/
def initBoard_1 (w : World) : World :=
  let w := { w with mirror := { w.mirror with lastAddr_1 := 0x00 } }
  sendByte (SET_ADDR_1 ||| w.mirror.lastAddr_1) w

/-- Statements 5 and 6 of `initBoard`: `lastAddr_2 = 0x00;` and
`while (!serialSnd(SET_ADDR_2 | lastAddr_2)) ;`. -/
def initBoard_2 (w : World) : World :=
  let w := { w with mirror := { w.mirror with lastAddr_2 := 0x00 } }
  sendByte (SET_ADDR_2 ||| w.mirror.lastAddr_2) w

/-- Statements 7 and 8 of `initBoard`: `lastAddr_3 = 0x00;` and
`while (!serialSnd(SET_ADDR_3 | lastAddr_3)) ;`. -/
def initBoard_3 (w : World) : World :=
  let w := { w with mirror := { w.mirror with lastAddr_3 := 0x00 } }
  sendByte (SET_ADDR_3 ||| w.mirror.lastAddr_3) w

/-- Statements 9 and 10 of `initBoard`: `lastAddr_4 = 0x00;` and
`while (!serialSnd(SET_ADDR_4 | lastAddr_4)) ;`. -/
def initBoard_4 (w : World) : World :=
  let w := { w with mirror := { w.mirror with lastAddr_4 := 0x00 } }
  sendByte (SET_ADDR_4 ||| w.mirror.lastAddr_4) w

/-- Statements 11 and 12 of `initBoard`: `lastAddr_5 = 0x00;` and
`while (!serialSnd(SET_ADDR_5 | lastAddr_5)) ;`. -/
def initBoard_5 (w : World) : World :=
  let w := { w with mirror := { w.mirror with lastAddr_5 := 0x00 } }
  sendByte (SET_ADDR_5 ||| w.mirror.lastAddr_5) w

/-- Statements 13 and 14 of `initBoard`: `lastData_0 = 0x00;` and
`while (!serialSnd(SET_DATA_0 | lastData_0)) ;`. -/
def initBoard_6 (w : World) : World :=
  let w := { w with mirror := { w.mirror with lastData_0 := 0x00 } }
  sendByte (SET_DATA_0 ||| w.mirror.lastData_0) w

/-- Statements 15 and 16 of `initBoard`: `lastData_1 = 0x00;` and
`while (!serialSnd(SET_DATA_1 | lastData_1)) ;`. -/
def initBoard_7 (w : World) : World :=
  let w := { w with mirror := { w.mirror with lastData_1 := 0x00 } }
  sendByte (SET_DATA_1 ||| w.mirror.lastData_1) w

/-- Statements 17 and 18 of `initBoard`: `lastCtrl = 0x0F;` and
`while (!serialSnd(SET_CTRL | lastCtrl)) ;`. -/
def initBoard_8 (w : World) : World :=
  let w := { w with mirror := { w.mirror with lastCtrl := 0x0F } }
  sendByte (SET_CTRL ||| w.mirror.lastCtrl) w

/-- Source function `initBoard`: its nine assign-and-send pairs in source order. -/
def initBoard (w : World) : World :=
  let w := initBoard_0 w
  let w := initBoard_1 w
  let w := initBoard_2 w
  let w := initBoard_3 w
  let w := initBoard_4 w
  let w := initBoard_5 w
  let w := initBoard_6 w
  let w := initBoard_7 w
  let w := initBoard_8 w
  w

/-- Block 1 of `setAddr`: the nibble at bit 0 goes to `lastAddr_0`. -/
def setAddr_0 (addr : Nat) (w : World) : World :=
  let b := (addr >>> 0) &&& 0x0F
  if w.mirror.lastAddr_0 ≠ b then
    let w1 := sendByte (SET_ADDR_0 ||| b) w
    { w1 with mirror := { w1.mirror with lastAddr_0 := b } }
  else w

/-- Block 2 of `setAddr`: the nibble at bit 4 goes to `lastAddr_1`. -/
def setAddr_1 (addr : Nat) (w : World) : World :=
  let b := (addr >>> 4) &&& 0x0F
  if w.mirror.lastAddr_1 ≠ b then
    let w1 := sendByte (SET_ADDR_1 ||| b) w
    { w1 with mirror := { w1.mirror with lastAddr_1 := b } }
  else w

/-- Block 3 of `setAddr`: the nibble at bit 8 goes to `lastAddr_2`. -/
def setAddr_2 (addr : Nat) (w : World) : World :=
  let b := (addr >>> 8) &&& 0x0F
  if w.mirror.lastAddr_2 ≠ b then
    let w1 := sendByte (SET_ADDR_2 ||| b) w
    { w1 with mirror := { w1.mirror with lastAddr_2 := b } }
  else w

/-- Block 4 of `setAddr`: the nibble at bit 12 goes to `lastAddr_3`. -/
def setAddr_3 (addr : Nat) (w : World) : World :=
  let b := (addr >>> 12) &&& 0x0F
  if w.mirror.lastAddr_3 ≠ b then
    let w1 := sendByte (SET_ADDR_3 ||| b) w
    { w1 with mirror := { w1.mirror with lastAddr_3 := b } }
  else w

/-- Block 5 of `setAddr`: the nibble at bit 16 goes to `lastAddr_4`. -/
def setAddr_4 (addr : Nat) (w : World) : World :=
  let b := (addr >>> 16) &&& 0x0F
  if w.mirror.lastAddr_4 ≠ b then
    let w1 := sendByte (SET_ADDR_4 ||| b) w
    { w1 with mirror := { w1.mirror with lastAddr_4 := b } }
  else w

/-- Block 6 of `setAddr`: the nibble at bit 20 goes to `lastAddr_5`. -/
def setAddr_5 (addr : Nat) (w : World) : World :=
  let b := (addr >>> 20) &&& 0x0F
  if w.mirror.lastAddr_5 ≠ b then
    let w1 := sendByte (SET_ADDR_5 ||| b) w
    { w1 with mirror := { w1.mirror with lastAddr_5 := b } }
  else w

/-- Source function `setAddr`: its six blocks in source order. -/
def setAddr (addr : Nat) (w : World) : World :=
  let w := setAddr_0 addr w
  let w := setAddr_1 addr w
  let w := setAddr_2 addr w
  let w := setAddr_3 addr w
  let w := setAddr_4 addr w
  let w := setAddr_5 addr w
  w

/-- Block 1 of `setData`: the nibble at bit 0 goes to `lastData_0`. -/
def setData_0 (data : Nat) (w : World) : World :=
  let b := (data >>> 0) &&& 0x0F
  if w.mirror.lastData_0 ≠ b then
    let w1 := sendByte (SET_DATA_0 ||| b) w
    { w1 with mirror := { w1.mirror with lastData_0 := b } }
  else w

/-- Block 2 of `setData`: the nibble at bit 4 goes to `lastData_1`. -/
def setData_1 (data : Nat) (w : World) : World :=
  let b := (data >>> 4) &&& 0x0F
  if w.mirror.lastData_1 ≠ b then
    let w1 := sendByte (SET_DATA_1 ||| b) w
    { w1 with mirror := { w1.mirror with lastData_1 := b } }
  else w

/-- Source function `setData`: its two blocks in source order. -/
def setData (data : Nat) (w : World) : World :=
  let w := setData_0 data w
  let w := setData_1 data w
  w

/-- Source function `setCtrl`. -/
def setCtrl (ctrl : Nat) (w : World) : World :=
  let b := ctrl &&& 0x0F
  if w.mirror.lastCtrl ≠ b then
    let w1 := sendByte (SET_CTRL ||| b) w
    { w1 with mirror := { w1.mirror with lastCtrl := b } }
  else w

/-- Source function `getData`. -/
def getData (dev : Device) (w : World) : Nat × World :=
  recvByte dev (sendByte GET_DATA w)

/-- Source function `getReady`. -/
def getReady (dev : Device) (w : World) : Nat × World :=
  recvByte dev (sendByte GET_READY w)

/-! ## Bus cycles -/

/-- Append an entry to the call log. -/
def logCall (c : BusCall) (w : World) : World :=
  { w with calls := w.calls ++ [c] }

/-- Source function `reset`. -/
def reset (w : World) : World :=
  setCtrl 0x03 (setCtrl 0x0E w)

/-- Source function `standby`. -/
def standby (w : World) : World :=
  setCtrl 0x0F w

/-- Source function `readData`. -/
def readData (dev : Device) (addr : Nat) (w : World) : Nat × World :=
  let w := logCall (.read addr) w
  let w := setAddr addr w
  let w := setCtrl 0x03 w
  getData dev w

/-- Source function `writeData`. -/
def writeData (addr data : Nat) (w : World) : World :=
  let w := logCall (.write addr data) w
  let w := setAddr addr w
  let w := setData data w
  let w := setCtrl 0x05 w
  setCtrl 0x03 w

/-! ## Results of operations that can fail or wait -/

/-- The calls of `error(...)` in the flash operations, by message. -/
inductive Failure where
  /-- Message "cannot open input file". -/
  | cannotOpenInput
  /-- Message "size of file is bigger than the capacity of the Flash ROM". -/
  | oversize
  /-- Message "cannot read from input file". -/
  | cannotRead
  /-- Message "addr 0x%06X, file = 0x%02X, ROM = 0x%02X". -/
  | mismatch (addr file rom : Nat)
  /-- Message "addr 0x%06X not empty, data is 0x%02X". -/
  | notEmpty (addr data : Nat)
  /-- Message "cannot open output file". -/
  | cannotOpenOutput
  /-- Message "cannot write to output file". -/
  | cannotWrite
  /-- Message "this command would take 2:30h to complete, and thus is not implemented". -/
  | notImplemented
deriving DecidableEq, Repr

/-- How a call ends: it returns (`ok`), it ends the process through `error`
(`fatal`, with the world `error` leaves behind), or it is still polling for
ready when the fuel is used up (`spin`, with the world reached by then). -/
inductive Res (α : Type) where
  | ok (a : α) (w : World)
  | fatal (e : Failure) (w : World)
  | spin (w : World)
deriving DecidableEq, Repr

/-- The world a call has reached when it ends or the fuel is used up. -/
def Res.world {α : Type} : Res α → World
  | .ok _ w => w
  | .fatal _ w => w
  | .spin w => w

/-- Continue with `k` after a call that returned. -/
def Res.bind {α β : Type} (r : Res α) (k : α → World → Res β) : Res β :=
  match r with
  | .ok a w => k a w
  | .fatal e w => .fatal e w
  | .spin w => .spin w

/-- Source function `error`, called while the serial port is open (`sfd != 0`):
it prints the message, runs `standby()`, drains and closes the line and exits. -/
def error {α : Type} (e : Failure) (w : World) : Res α :=
  .fatal e (standby w)

/-- The loop of `waitReady`, `while ((getReady() & 0x01) == 0) ;`, with at most
`fuel` polls; `spin` when the fuel is used up before the device reports ready. -/
def pollReady (dev : Device) : Nat → World → Res Unit
  | 0, w => .spin w
  | fuel + 1, w =>
    let r := getReady dev w
    if r.1 &&& 0x01 = 0 then pollReady dev fuel r.2 else .ok () r.2

/-- Source function `waitReady`. -/
def waitReady (dev : Device) (fuel : Nat) (w : World) : Res Unit :=
  pollReady dev fuel (logCall .wait w)

/-! ## Flash commands -/

/-- Source function `showIdentifiers`; returns the four bytes it prints. -/
def showIdentifiers (dev : Device) (w : World) : Res (List Nat) :=
  let w := writeData 0xAAA 0xAA w
  let w := writeData 0x555 0x55 w
  let w := writeData 0xAAA 0x90 w
  let r0 := readData dev 0x00 w
  let r1 := readData dev 0x02 r0.2
  let r2 := readData dev 0x1C r1.2
  let r3 := readData dev 0x1E r2.2
  let w := writeData 0xAAA 0xF0 r3.2
  .ok [r0.1, r1.1, r2.1, r3.1] w

/-- Source function `eraseChip`. -/
def eraseChip (dev : Device) (fuel : Nat) (w : World) : Res Unit :=
  let w := writeData 0xAAA 0xAA w
  let w := writeData 0x555 0x55 w
  let w := writeData 0xAAA 0x80 w
  let w := writeData 0xAAA 0xAA w
  let w := writeData 0x555 0x55 w
  let w := writeData 0xAAA 0x10 w
  waitReady dev fuel w

/-- Source function `eraseSector`. -/
def eraseSector (dev : Device) (fuel : Nat) (sector : Nat) (w : World) : Res Unit :=
  let w := writeData 0xAAA 0xAA w
  let w := writeData 0x555 0x55 w
  let w := writeData 0xAAA 0x80 w
  let w := writeData 0xAAA 0xAA w
  let w := writeData 0x555 0x55 w
  let w := writeData (u32 (sector <<< 16)) 0x30 w
  waitReady dev fuel w

/-- Source function `eraseBootSector`. -/
def eraseBootSector (dev : Device) (fuel : Nat) (sector : Nat) (w : World) : Res Unit :=
  let w := writeData 0xAAA 0xAA w
  let w := writeData 0x555 0x55 w
  let w := writeData 0xAAA 0x80 w
  let w := writeData 0xAAA 0xAA w
  let w := writeData 0x555 0x55 w
  let w := writeData (u32 (sector <<< 13)) 0x30 w
  waitReady dev fuel w

/-- Source function `checkChip`. -/
def checkChip (w : World) : Res Unit :=
  error .notImplemented w

/-- The loop shared by `checkSector` (`shift = 16`) and `checkBootSector`
(`shift = 13`): `n` iterations are left, the next one has index `i`. -/
def checkLoop (dev : Device) (shift sector : Nat) : Nat → Nat → World → Res Unit
  | 0, _, w => .ok () w
  | n + 1, i, w =>
    let addr := u32 (u32 (sector <<< shift) + i)
    let r := readData dev addr w
    if r.1 ≠ 0xFF then error (.notEmpty addr r.1) r.2
    else checkLoop dev shift sector n (i + 1) r.2

/-- Source function `checkSector`. -/
def checkSector (dev : Device) (sector : Nat) (w : World) : Res Unit :=
  checkLoop dev 16 sector (64 * 1024) 0 w

/-- Source function `checkBootSector`. -/
def checkBootSector (dev : Device) (sector : Nat) (w : World) : Res Unit :=
  checkLoop dev 13 sector (8 * 1024) 0 w

/-! ## Files -/

/-- An input file as `programFile` and `verifyFile` see it.

* `length`: the offset `ftell` reports after `fseek(inFile, 0, SEEK_END)`;
* `byte i`: the byte the `fread` number `i` (from 0) stores, `none` when that
  `fread` does not return 1. -/
structure InFile where
  length : Nat
  byte : Nat → Option Nat

/-- A file that holds the bytes `bs` and reads without error. -/
def InFile.ofBytes (bs : List Nat) : InFile :=
  { length := bs.length, byte := fun i => bs[i]? }

/-- How the file system treats the destination file of a read command.

* `canOpen`: whether `fopen` returns a stream;
* `canWrite i`: whether the `fwrite` number `i` (from 0) of the call writes its
  byte. -/
structure OutFile where
  canOpen : Bool
  canWrite : Nat → Bool

/-- Source function `readChip`. -/
def readChip (w : World) : Res Unit :=
  error .notImplemented w

/-- The loop shared by `readSector` (`shift = 16`) and `readBootSector`
(`shift = 13`): `n` iterations are left, the next one has index `i`. -/
def readLoop (dev : Device) (shift sector : Nat) (dst : OutFile) :
    Nat → Nat → World → Res Unit
  | 0, _, w => .ok () w
  | n + 1, i, w =>
    let addr := u32 (u32 (sector <<< shift) + i)
    let r := readData dev addr w
    if dst.canWrite i then
      readLoop dev shift sector dst n (i + 1) { r.2 with outFile := r.2.outFile ++ [r.1] }
    else error .cannotWrite r.2

/-- Source function `readSector`; mode "wb" empties the destination file. -/
def readSector (dev : Device) (sector : Nat) (dst : OutFile) (w : World) : Res Unit :=
  if dst.canOpen then
    readLoop dev 16 sector dst (64 * 1024) 0 { w with outFile := [] }
  else error .cannotOpenOutput w

/-- Source function `readBootSector`; mode "ab" keeps the content of the
destination file, mode "wb" empties it. -/
def readBootSector (dev : Device) (sector : Nat) (dst : OutFile) (append : Bool)
    (w : World) : Res Unit :=
  if dst.canOpen then
    readLoop dev 13 sector dst (8 * 1024) 0
      { w with outFile := if append then w.outFile else [] }
  else error .cannotOpenOutput w

/-- Source function `programByte`. -/
def programByte (dev : Device) (fuel : Nat) (addr data : Nat) (w : World) : Res Unit :=
  let w := writeData 0xAAA 0xAA w
  let w := writeData 0x555 0x55 w
  let w := writeData 0xAAA 0xA0 w
  let w := writeData addr data w
  waitReady dev fuel w

/-- The `for` loop of `programFile`: `n` iterations are left, the next one has
index `i`, `addr` is the current value of the local variable; returns the value
of `addr` after the loop. -/
def programLoop (start : Nat) (f : InFile) : Nat → Nat → Nat → World → Res Nat
  | 0, _, addr, w => .ok addr w
  | n + 1, i, addr, w =>
    match f.byte i with
    | none => error .cannotRead w
    | some b =>
      let w := writeData addr 0xA0 w
      let addr := u32 (start + i)
      let w := writeData addr b w
      programLoop start f n (i + 1) addr w

/-- Source function `programFile`; `file` is `none` when `fopen` fails. The
variable `size` is an `unsigned int` that receives the `long` result of `ftell`. -/
def programFile (dev : Device) (fuel : Nat) (start : Nat) (file : Option InFile)
    (w : World) : Res Unit :=
  match file with
  | none => error .cannotOpenInput w
  | some f =>
    let size := u32 f.length
    if size > 8 * 1024 * 1024 then error .oversize w
    else
      let w := writeData 0xAAA 0xAA w
      let w := writeData 0x555 0x55 w
      let w := writeData 0xAAA 0x20 w
      (programLoop start f size 0 0xAAA w).bind fun addr w =>
      (waitReady dev fuel w).bind fun _ w =>
      let w := writeData addr 0x90 w
      let w := writeData addr 0x00 w
      .ok () w

/-- The `for` loop of `verifyFile`: `n` iterations are left, the next one has
index `i`. -/
def verifyLoop (dev : Device) (start : Nat) (f : InFile) : Nat → Nat → World → Res Unit
  | 0, _, w => .ok () w
  | n + 1, i, w =>
    match f.byte i with
    | none => error .cannotRead w
    | some b =>
      let addr := u32 (start + i)
      let r := readData dev addr w
      if b ≠ r.1 then error (.mismatch addr b r.1) r.2
      else verifyLoop dev start f n (i + 1) r.2

/-- Source function `verifyFile`; `file` is `none` when `fopen` fails. -/
def verifyFile (dev : Device) (start : Nat) (file : Option InFile) (w : World) :
    Res Unit :=
  match file with
  | none => error .cannotOpenInput w
  | some f =>
    let size := u32 f.length
    if size > 8 * 1024 * 1024 then error .oversize w
    else verifyLoop dev start f size 0 w

/-! ## The operations as data -/

/-- A call of one of the bus or flash operations, with its arguments. -/
inductive Op where
  | setAddr (addr : Nat)
  | setData (data : Nat)
  | setCtrl (ctrl : Nat)
  | getData
  | getReady
  | reset
  | standby
  | readData (addr : Nat)
  | writeData (addr data : Nat)
  | waitReady
  | showIdentifiers
  | eraseChip
  | eraseSector (sector : Nat)
  | eraseBootSector (sector : Nat)
  | checkChip
  | checkSector (sector : Nat)
  | checkBootSector (sector : Nat)
  | readChip
  | readSector (sector : Nat) (dst : OutFile)
  | readBootSector (sector : Nat) (dst : OutFile) (append : Bool)
  | programByte (addr data : Nat)
  | programFile (start : Nat) (file : Option InFile)
  | verifyFile (start : Nat) (file : Option InFile)

/-- Perform one operation; a value it returns is dropped. -/
def Op.run (dev : Device) (fuel : Nat) : Op → World → Res Unit
  | .setAddr a, w => .ok () (Flashprog.setAddr a w)
  | .setData d, w => .ok () (Flashprog.setData d w)
  | .setCtrl c, w => .ok () (Flashprog.setCtrl c w)
  | .getData, w => .ok () (Flashprog.getData dev w).2
  | .getReady, w => .ok () (Flashprog.getReady dev w).2
  | .reset, w => .ok () (Flashprog.reset w)
  | .standby, w => .ok () (Flashprog.standby w)
  | .readData a, w => .ok () (Flashprog.readData dev a w).2
  | .writeData a d, w => .ok () (Flashprog.writeData a d w)
  | .waitReady, w => Flashprog.waitReady dev fuel w
  | .showIdentifiers, w => (Flashprog.showIdentifiers dev w).bind fun _ w => .ok () w
  | .eraseChip, w => Flashprog.eraseChip dev fuel w
  | .eraseSector n, w => Flashprog.eraseSector dev fuel n w
  | .eraseBootSector n, w => Flashprog.eraseBootSector dev fuel n w
  | .checkChip, w => Flashprog.checkChip w
  | .checkSector n, w => Flashprog.checkSector dev n w
  | .checkBootSector n, w => Flashprog.checkBootSector dev n w
  | .readChip, w => Flashprog.readChip w
  | .readSector n dst, w => Flashprog.readSector dev n dst w
  | .readBootSector n dst app, w => Flashprog.readBootSector dev n dst app w
  | .programByte a d, w => Flashprog.programByte dev fuel a d w
  | .programFile start file, w => Flashprog.programFile dev fuel start file w
  | .verifyFile start file, w => Flashprog.verifyFile dev start file w

/-- Perform operations one after the other, each with `fuel` polls at its
disposal; nothing runs after one that ended the process or is still polling. -/
def runOps (dev : Device) (fuel : Nat) : List Op → World → Res Unit
  | [], w => .ok () w
  | op :: ops, w => (op.run dev fuel w).bind fun _ w1 => runOps dev fuel ops w1

/-! ## The dispatcher -/

/-- The command `main` has read from the command line, with its arguments as
they stand after parsing: a sector number, an address or data value, the
destination or input file. -/
inductive Cmd where
  | id
  | et
  | es (n : Nat)
  | eb (n : Nat)
  | ct
  | cs (n : Nat)
  | cb (n : Nat)
  | rt
  | rs (n : Nat) (dst : OutFile)
  | rb (n : Nat) (dst : OutFile)
  | pb (addr data : Nat)
  | pf (addr : Nat) (file : Option InFile)
  | vf (addr : Nat) (file : Option InFile)

/-- The loop `for (i = 0; i < 8; i++) eraseBootSector(i);` of `main`: `n`
iterations are left, the next one has index `i`. -/
def eraseBootLoop (dev : Device) (fuel : Nat) : Nat → Nat → World → Res Unit
  | 0, _, w => .ok () w
  | n + 1, i, w =>
    (eraseBootSector dev fuel i w).bind fun _ w1 => eraseBootLoop dev fuel n (i + 1) w1

/-- The loop `for (i = 0; i < 8; i++) checkBootSector(i);` of `main`. -/
def checkBootLoop (dev : Device) : Nat → Nat → World → Res Unit
  | 0, _, w => .ok () w
  | n + 1, i, w =>
    (checkBootSector dev i w).bind fun _ w1 => checkBootLoop dev n (i + 1) w1

/-- The loop `for (i = 0; i < 8; i++) readBootSector(i, fileName, i != 0);` of
`main`. -/
def readBootLoop (dev : Device) (dst : OutFile) : Nat → Nat → World → Res Unit
  | 0, _, w => .ok () w
  | n + 1, i, w =>
    (readBootSector dev i dst (decide (i ≠ 0)) w).bind fun _ w1 =>
      readBootLoop dev dst n (i + 1) w1

/-- The `switch (cmd)` of source function `main`. -/
def dispatch (dev : Device) (fuel : Nat) : Cmd → World → Res Unit
  | .id, w => (showIdentifiers dev w).bind fun _ w1 => .ok () w1
  | .et, w => eraseChip dev fuel w
  | .es n, w => if n = 0 then eraseBootLoop dev fuel 8 0 w else eraseSector dev fuel n w
  | .eb n, w => eraseBootSector dev fuel n w
  | .ct, w => checkChip w
  | .cs n, w => if n = 0 then checkBootLoop dev 8 0 w else checkSector dev n w
  | .cb n, w => checkBootSector dev n w
  | .rt, w => readChip w
  | .rs n dst, w => if n = 0 then readBootLoop dev dst 8 0 w else readSector dev n dst w
  | .rb n dst, w => readBootSector dev n dst false w
  | .pb addr data, w => programByte dev fuel addr data w
  | .pf addr file, w => programFile dev fuel addr file w
  | .vf addr file, w => verifyFile dev addr file w

/-- Source function `main` from `initBoard()` on, the serial port being open:
`initBoard`, `reset`, the `switch`, and `standby` before the port is closed. -/
def session (dev : Device) (fuel : Nat) (cmd : Cmd) (w : World) : Res Unit :=
  let w := initBoard w
  let w := reset w
  (dispatch dev fuel cmd w).bind fun _ w1 => .ok () (standby w1)

/-! ## Start of the program -/

/-- The initialisers of the shadow variables (`lastAddr_0 = 0x00`, ...,
`lastCtrl = 0x0F`). -/
def Mirror.initial : Mirror :=
  { lastAddr_0 := 0x00, lastAddr_1 := 0x00, lastAddr_2 := 0x00, lastAddr_3 := 0x00,
    lastAddr_4 := 0x00, lastAddr_5 := 0x00, lastData_0 := 0x00, lastData_1 := 0x00,
    lastCtrl := 0x0F }

/-- The world when the program starts: nothing sent or received yet, an empty
call log, a line that accepts every byte at the first attempt. -/
def World.initial : World :=
  { mirror := Mirror.initial, sent := [], rcvd := [], sndOutcomes := [], outFile := [],
    calls := [] }

/-! ## Vocabulary of the properties -/

/-- Field `k` of the mirror: `0..5` the address nibbles, `6, 7` the data nibbles,
`8` the control nibble. The number of a field is also its selector. -/
def Mirror.field (m : Mirror) (k : Nat) : Nat :=
  match k with
  | 0 => m.lastAddr_0
  | 1 => m.lastAddr_1
  | 2 => m.lastAddr_2
  | 3 => m.lastAddr_3
  | 4 => m.lastAddr_4
  | 5 => m.lastAddr_5
  | 6 => m.lastData_0
  | 7 => m.lastData_1
  | 8 => m.lastCtrl
  | _ => 0

/-- Assign field `k` of the mirror. -/
def Mirror.setField (m : Mirror) (k v : Nat) : Mirror :=
  match k with
  | 0 => { m with lastAddr_0 := v }
  | 1 => { m with lastAddr_1 := v }
  | 2 => { m with lastAddr_2 := v }
  | 3 => { m with lastAddr_3 := v }
  | 4 => { m with lastAddr_4 := v }
  | 5 => { m with lastAddr_5 := v }
  | 6 => { m with lastData_0 := v }
  | 7 => { m with lastData_1 := v }
  | 8 => { m with lastCtrl := v }
  | _ => m

/-- The common shape of the nine blocks of `setAddr`, `setData` and `setCtrl`:
`if (last != b) { while (!serialSnd(SEL | b)) ; last = b; }` for field `k`,
whose selector code is `16 * k`. -/
def putField (k v : Nat) (w : World) : World :=
  if w.mirror.field k ≠ v then
    let w1 := sendByte (16 * k ||| v) w
    { w1 with mirror := w1.mirror.setField k v }
  else w

/-- Nibble `k` of `x`: bits `4k .. 4k+3`. -/
def nib (x k : Nat) : Nat := (x >>> (4 * k)) &&& 0x0F

/-- What is left of the scripted send outcomes after one `while (!serialSnd(b)) ;`:
the failures in front and the first success are used up. -/
def afterSend : List Bool → List Bool
  | [] => []
  | true :: rest => rest
  | false :: rest => afterSend rest

/-- The bytes the line accepted between the worlds `w` and `w1`. -/
def emitted (w w1 : World) : List Nat :=
  w1.sent.drop w.sent.length

/-- The selector of a byte on the wire: its high nibble. -/
def selector (b : Nat) : Nat := b >>> 4

/-- The address the six address fields of a mirror stand for. -/
def Mirror.addr (m : Mirror) : Nat :=
  m.lastAddr_0 ||| m.lastAddr_1 <<< 4 ||| m.lastAddr_2 <<< 8 ||| m.lastAddr_3 <<< 12 |||
    m.lastAddr_4 <<< 16 ||| m.lastAddr_5 <<< 20

/-- Modelled from the spec: the board's nine latches (not part of the host
program). A byte whose high nibble `s` is in `0..8` stores its low nibble in
latch `s`; every other byte (the requests `0x90` and `0xA0` among them) changes
no latch. The latches are kept in a `Mirror` record, latch `s` in field `s`. -/
def latchStep (l : Mirror) (b : Nat) : Mirror :=
  if selector b < 9 then l.setField (selector b) (b &&& 0x0F) else l

/-- Modelled from the spec: the latches after the board, starting with the
latches `l0`, has taken in the bytes `tr`. -/
def replay (l0 : Mirror) (tr : List Nat) : Mirror :=
  tr.foldl latchStep l0

/-- The mirror of `w` agrees with the latches of a board that held `l0` at the
start and has taken in every byte sent so far. -/
def consistent (l0 : Mirror) (w : World) : Prop :=
  w.mirror = replay l0 w.sent

/-- Going from `w` to `w1` only appends bytes with a selector up to `0xA` to the
line and keeps the mirror in step with the latches. -/
def Good (w w1 : World) : Prop :=
  (∃ bs, w1.sent = w.sent ++ bs ∧ ∀ b ∈ bs, selector b ≤ 0xA) ∧
    ∀ l0, consistent l0 w → consistent l0 w1

/-- Whether a call-log entry is a write cycle. -/
def BusCall.isWrite : BusCall → Bool
  | .write _ _ => true
  | _ => false

/-- The bus cycles the specification lists for `programFile`, for a file with the
bytes `bs` whose byte `i` goes to address `addrOf i`: the three unlock writes;
for `i = 0 .. L-1` the re-arm write `write(prev_i, 0xA0)` and the data write
`write(addrOf i, b_i)`, where `prev_0 = 0xAAA` and `prev_i = addrOf (i-1)`; one
`waitReady`; the writes of `0x90` and `0x00` at the last address, which is
`addrOf (L-1)`, or `0xAAA` when the file is empty. -/
def programCycles (addrOf : Nat → Nat) (bs : List Nat) : List BusCall :=
  [.write 0xAAA 0xAA, .write 0x555 0x55, .write 0xAAA 0x20] ++
    (List.range bs.length).flatMap (fun i =>
      [.write (if i = 0 then 0xAAA else addrOf (i - 1)) 0xA0,
       .write (addrOf i) (bs.getD i 0)]) ++
    [.wait,
     .write (if 0 < bs.length then addrOf (bs.length - 1) else 0xAAA) 0x90,
     .write (if 0 < bs.length then addrOf (bs.length - 1) else 0xAAA) 0x00]

/-- The device reports ready within `fuel` polls, whatever it has been sent
before: after any history `tr`, one of the first `fuel` ready requests in a row is
answered with bit 0 set. -/
def readyWithin (dev : Device) (fuel : Nat) : Prop :=
  ∀ tr : List Nat, ∃ k, k < fuel ∧
    (dev (tr ++ List.replicate (k + 1) GET_READY) % 256) &&& 0x01 ≠ 0

/-- The entries the call log gained between the worlds `w` and `w1`. -/
def newCalls (w w1 : World) : List BusCall :=
  w1.calls.drop w.calls.length

/-- The address of a call-log entry, if it has one, lies below `B`. -/
def BusCall.addrBelow (B : Nat) : BusCall → Prop
  | .write a _ => a < B
  | .read a => a < B
  | .wait => True

/-- Going from `w` to `w1` only appends bus cycles with an address below `B` to
the call log. -/
def CallsBelow (B : Nat) (w w1 : World) : Prop :=
  ∃ cs, w1.calls = w.calls ++ cs ∧ ∀ c ∈ cs, c.addrBelow B

/-- Modelled from the spec: a board whose latches held `l0` at the start, wired
to a flash chip whose memory is `M` (the board and the chip are not part of the
host program). A data request is answered with the byte of `M` at the address
that stands in the six address latches; a ready request is answered by `rdy`. -/
def romDevice (l0 : Mirror) (M : Nat → Nat) (rdy : List Nat → Nat) : Device :=
  fun tr => if tr.getLast? = some GET_READY then rdy tr else M (replay l0 tr).addr

/-- Modelled from the spec: the idealised flash chip at the level of bus cycles
(the chip is not part of the host program). A write of `0xA0`, the program-select
command, arms the chip; the write cycle that follows an arming write is a data
write and stores its byte at its address; every other write is a command that
stores nothing. `stored` lists the data writes in order. -/
structure Chip where
  mem : Nat → Nat
  armed : Bool
  stored : List (Nat × Nat)

/-- Modelled from the spec: the effect of one bus cycle on the idealised chip. -/
def Chip.cycle (c : Chip) : BusCall → Chip
  | .write a d =>
    if c.armed then
      { mem := (fun x => if x = a then d else c.mem x), armed := false,
        stored := c.stored ++ [(a, d)] }
    else { c with armed := decide (d = 0xA0) }
  | .read _ => c
  | .wait => c

/-- Modelled from the spec: the idealised chip after a sequence of bus cycles. -/
def Chip.run (c : Chip) (cs : List BusCall) : Chip :=
  cs.foldl Chip.cycle c

/-- The addresses of the read cycles of a call log, in order. -/
def readAddrs (cs : List BusCall) : List Nat :=
  cs.filterMap fun c =>
    match c with
    | .read a => some a
    | _ => none

/-- A call of one of the three register setters. -/
inductive RegCall where
  | setAddr (addr : Nat)
  | setData (data : Nat)
  | setCtrl (ctrl : Nat)
deriving DecidableEq, Repr

/-- Perform a register call. -/
def RegCall.run : RegCall → World → World
  | .setAddr a, w => Flashprog.setAddr a w
  | .setData d, w => Flashprog.setData d w
  | .setCtrl c, w => Flashprog.setCtrl c w

/-- Perform register calls one after the other. -/
def runCalls : List RegCall → World → World
  | [], w => w
  | c :: cs, w => runCalls cs (c.run w)

/-- The nibble a register call holds for field `k`, if it has one: `setAddr`
for the fields `0..5`, `setData` for `6` and `7`, `setCtrl` for `8`. -/
def RegCall.nibble : RegCall → Nat → Option Nat
  | .setAddr a, k => if k < 6 then some ((a >>> (4 * k)) &&& 0x0F) else none
  | .setData d, k => if k = 6 then some (d &&& 0x0F)
      else if k = 7 then some ((d >>> 4) &&& 0x0F) else none
  | .setCtrl c, k => if k = 8 then some (c &&& 0x0F) else none

/-- Whether the call has a nibble for field `k` that differs from what the mirror
`m` holds for that field. -/
def RegCall.differs (c : RegCall) (k : Nat) (m : Mirror) : Bool :=
  match c.nibble k with
  | some v => decide (m.field k ≠ v)
  | none => false

/-- The number of calls in the sequence whose nibble for field `k` differs from
the value the mirror holds for that field immediately before the call. -/
def changes (k : Nat) : List RegCall → World → Nat
  | [], _ => 0
  | c :: cs, w => (if c.differs k w.mirror then 1 else 0) + changes k cs (c.run w)

/-- Perform the bus cycle of a call-log entry: `writeData`, `readData` (its
value dropped) or `waitReady`. -/
def BusCall.run (dev : Device) (fuel : Nat) : BusCall → World → Res Unit
  | .write a d, w => .ok () (writeData a d w)
  | .read a, w => .ok () (readData dev a w).2
  | .wait, w => waitReady dev fuel w

/-- Perform bus cycles one after the other; nothing runs after a `waitReady` that
is still polling. -/
def runCycles (dev : Device) (fuel : Nat) : List BusCall → World → Res Unit
  | [], w => .ok () w
  | c :: cs, w => (c.run dev fuel w).bind fun _ w1 => runCycles dev fuel cs w1

/-- The address bytes `setAddr a` sends from a world with mirror `m`. -/
def addrBytes (a : Nat) (m : Mirror) : List Nat :=
  (if m.field 0 ≠ nib a 0 then [(16 * 0 ||| nib a 0) % 256] else []) ++
  (if m.field 1 ≠ nib a 1 then [(16 * 1 ||| nib a 1) % 256] else []) ++
  (if m.field 2 ≠ nib a 2 then [(16 * 2 ||| nib a 2) % 256] else []) ++
  (if m.field 3 ≠ nib a 3 then [(16 * 3 ||| nib a 3) % 256] else []) ++
  (if m.field 4 ≠ nib a 4 then [(16 * 4 ||| nib a 4) % 256] else []) ++
  (if m.field 5 ≠ nib a 5 then [(16 * 5 ||| nib a 5) % 256] else [])

/-- The data bytes `setData d` sends from a world with mirror `m`. -/
def dataBytes (d : Nat) (m : Mirror) : List Nat :=
  (if m.field 6 ≠ nib d 0 then [(16 * 6 ||| nib d 0) % 256] else []) ++
  (if m.field 7 ≠ nib d 1 then [(16 * 7 ||| nib d 1) % 256] else [])

/-- The reply (as stored in an `unsigned char`) the device gives to ready request
number `j` (from 0) when the host, in world `w`, sends ready requests in a row. -/
def readyReply (dev : Device) (w : World) (j : Nat) : Nat :=
  dev (w.sent ++ List.replicate (j + 1) GET_READY) % 256

/-- The world `w` on a serial line that accepts every byte at the first attempt:
no scripted send outcome is left. -/
def acceptAll (w : World) : World :=
  { w with sndOutcomes := [] }

/-- Apply `f` to the world a call has reached; how the call ended and the value it
returned stay. -/
def Res.mapWorld {α : Type} (f : World → World) : Res α → Res α
  | .ok a w => .ok a (f w)
  | .fatal e w => .fatal e (f w)
  | .spin w => .spin (f w)

/-- The address variable `addr` of `programFile` at the head of iteration `i` of
its loop, when byte `j` goes to address `addrOf j`: `0xAAA` before the first
iteration, the address of the byte written last after that. With `i` the number
of bytes it is the address the two trailing writes use. -/
def prevAddr (addrOf : Nat → Nat) (i : Nat) : Nat :=
  if i = 0 then 0xAAA else addrOf (i - 1)

/-- The bus cycles of `programCycles` that come before the re-arm write number
`i` (from 0): the three unlock writes and the first `i` pairs of a re-arm write
and a data write. -/
def cyclesBefore (addrOf : Nat → Nat) (bs : List Nat) (i : Nat) : List BusCall :=
  [.write 0xAAA 0xAA, .write 0x555 0x55, .write 0xAAA 0x20] ++
    (List.range i).flatMap (fun j =>
      [.write (prevAddr addrOf j) 0xA0, .write (addrOf j) (bs.getD j 0)])

/-- The mirror holds the six nibbles of the address `a` and the control code
`0x03` of an idle bus. -/
def Mirror.holds (m : Mirror) (a : Nat) : Prop :=
  m.lastAddr_0 = nib a 0 ∧ m.lastAddr_1 = nib a 1 ∧ m.lastAddr_2 = nib a 2 ∧
    m.lastAddr_3 = nib a 3 ∧ m.lastAddr_4 = nib a 4 ∧ m.lastAddr_5 = nib a 5 ∧
    m.lastCtrl = 0x03

instance (m : Mirror) (a : Nat) : Decidable (m.holds a) := by
  unfold Mirror.holds
  infer_instance

/-- The write cycle `writeData a d`, started in the world `w`, costs no address
traffic: the mirror already holds the address `a` (its 24 bits), `setAddr` sends
nothing, and the bytes the cycle puts on the line are the data bytes (at most
two, with the selectors 6 and 7) followed by the control bytes `0x85`, `0x83`;
none of them carries an address selector `0 .. 5`. -/
def quietWrite (a d : Nat) (w : World) : Prop :=
  w.mirror.addr = a % 2 ^ 24 ∧
    addrBytes a w.mirror = [] ∧
    emitted w (writeData a d w) = dataBytes d w.mirror ++ [0x85, 0x83] ∧
    (dataBytes d w.mirror).length ≤ 2 ∧
    (∀ b ∈ dataBytes d w.mirror, selector b = 6 ∨ selector b = 7) ∧
    ∀ b ∈ emitted w (writeData a d w), ¬ selector b < 6

instance (a d : Nat) (w : World) : Decidable (quietWrite a d w) := by
  unfold quietWrite
  infer_instance

end Flashprog

/-! # Properties -/

namespace Flashprog

/-! ## The serial line -/

theorem sndLoop_eq (b : Nat) : ∀ (l : List Bool) (n : Nat) (w : World),
    w.sndOutcomes = l → l.length < n →
    sndLoop b n w = { w with sent := w.sent ++ [b % 256], sndOutcomes := afterSend l } := by
  intro l
  induction l with
  | nil =>
    intro n w hw hn
    cases n with
    | zero => simp at hn
    | succ n => simp [sndLoop, serialSnd, hw, afterSend]
  | cons o rest ih =>
    intro n w hw hn
    cases n with
    | zero => simp at hn
    | succ n =>
      cases o with
      | true => simp [sndLoop, serialSnd, hw, afterSend]
      | false =>
        simp only [sndLoop, serialSnd, hw, afterSend]
        rw [ih n { w with sndOutcomes := rest } rfl (by simpa using hn)]

theorem sendByte_eq (b : Nat) (w : World) :
    sendByte b w =
      { w with sent := w.sent ++ [b % 256], sndOutcomes := afterSend w.sndOutcomes } :=
  sndLoop_eq b w.sndOutcomes _ w rfl (Nat.lt_succ_self _)

theorem setAddr_eq (a : Nat) (w : World) :
    setAddr a w = putField 5 (nib a 5) (putField 4 (nib a 4) (putField 3 (nib a 3)
      (putField 2 (nib a 2) (putField 1 (nib a 1) (putField 0 (nib a 0) w))))) := by
  have h0 : ∀ w, setAddr_0 a w = putField 0 (nib a 0) w := fun _ => rfl
  have h1 : ∀ w, setAddr_1 a w = putField 1 (nib a 1) w := fun _ => rfl
  have h2 : ∀ w, setAddr_2 a w = putField 2 (nib a 2) w := fun _ => rfl
  have h3 : ∀ w, setAddr_3 a w = putField 3 (nib a 3) w := fun _ => rfl
  have h4 : ∀ w, setAddr_4 a w = putField 4 (nib a 4) w := fun _ => rfl
  have h5 : ∀ w, setAddr_5 a w = putField 5 (nib a 5) w := fun _ => rfl
  simp only [setAddr, h0, h1, h2, h3, h4, h5]

theorem setData_eq (d : Nat) (w : World) :
    setData d w = putField 7 (nib d 1) (putField 6 (nib d 0) w) := by
  have h0 : ∀ w, setData_0 d w = putField 6 (nib d 0) w := fun _ => rfl
  have h1 : ∀ w, setData_1 d w = putField 7 (nib d 1) w := fun _ => rfl
  simp only [setData, h0, h1]

theorem setCtrl_eq (c : Nat) (w : World) :
    setCtrl c w = putField 8 (nib c 0) w := rfl


/-! ## Projections of a send -/

@[simp] theorem sendByte_mirror (b : Nat) (w : World) : (sendByte b w).mirror = w.mirror := by
  rw [sendByte_eq]

@[simp] theorem sendByte_sent (b : Nat) (w : World) :
    (sendByte b w).sent = w.sent ++ [b % 256] := by
  rw [sendByte_eq]

@[simp] theorem sendByte_rcvd (b : Nat) (w : World) : (sendByte b w).rcvd = w.rcvd := by
  rw [sendByte_eq]

@[simp] theorem sendByte_outFile (b : Nat) (w : World) :
    (sendByte b w).outFile = w.outFile := by
  rw [sendByte_eq]

@[simp] theorem sendByte_calls (b : Nat) (w : World) : (sendByte b w).calls = w.calls := by
  rw [sendByte_eq]

@[simp] theorem sendByte_sndOutcomes (b : Nat) (w : World) :
    (sendByte b w).sndOutcomes = afterSend w.sndOutcomes := by
  rw [sendByte_eq]

/-! ## Mirror fields -/

theorem field_setField_self (m : Mirror) (k v : Nat) (hk : k < 9) :
    (m.setField k v).field k = v := by
  interval_cases k <;> rfl

theorem field_setField_ne (m : Mirror) (j k v : Nat) (h : j ≠ k) :
    (m.setField k v).field j = m.field j := by
  unfold Mirror.setField
  split <;> first
    | rfl
    | (unfold Mirror.field; split <;> first | rfl | (exfalso; exact h rfl))

theorem setField_field (m : Mirror) (k : Nat) : m.setField k (m.field k) = m := by
  unfold Mirror.setField Mirror.field
  split <;> rfl

/-! ## Wire bytes -/

theorem nib_lt (x k : Nat) : nib x k < 16 := by
  unfold nib
  exact Nat.and_lt_two_pow _ (by norm_num : (0x0F : Nat) < 2 ^ 4)

theorem nib_eq (x k : Nat) : nib x k = x / 16 ^ k % 16 := by
  unfold nib
  rw [Nat.shiftRight_eq_div_pow, pow_mul]
  exact Nat.and_pow_two_sub_one_eq_mod _ 4

theorem wire_val : ∀ k < 16, ∀ v < 16, (16 * k ||| v) % 256 = 16 * k + v := by
  decide

theorem wire_selector (k v : Nat) (hk : k < 16) (hv : v < 16) :
    selector ((16 * k ||| v) % 256) = k := by
  rw [wire_val k hk v hv, selector, Nat.shiftRight_eq_div_pow]
  omega

theorem wire_low (k v : Nat) (hk : k < 16) (hv : v < 16) :
    ((16 * k ||| v) % 256) &&& 0x0F = v := by
  rw [wire_val k hk v hv]
  have h := Nat.and_pow_two_sub_one_eq_mod (16 * k + v) 4
  norm_num at h
  rw [h]
  omega

/-! ## The generic register block -/

theorem putField_sent (k v : Nat) (w : World) :
    (putField k v w).sent =
      w.sent ++ (if w.mirror.field k ≠ v then [(16 * k ||| v) % 256] else []) := by
  unfold putField
  split <;> simp

theorem putField_mirror (k v : Nat) (w : World) :
    (putField k v w).mirror = w.mirror.setField k v := by
  unfold putField
  split
  · simp
  · rename_i h
    have h : w.mirror.field k = v := by simpa using h
    rw [← h, setField_field]

@[simp] theorem putField_rcvd (k v : Nat) (w : World) : (putField k v w).rcvd = w.rcvd := by
  unfold putField
  split <;> simp

@[simp] theorem putField_outFile (k v : Nat) (w : World) :
    (putField k v w).outFile = w.outFile := by
  unfold putField
  split <;> simp

@[simp] theorem putField_calls (k v : Nat) (w : World) :
    (putField k v w).calls = w.calls := by
  unfold putField
  split <;> simp

theorem emitted_of_sent {w w1 : World} {bs : List Nat} (h : w1.sent = w.sent ++ bs) :
    emitted w w1 = bs := by
  simp [emitted, h]


/-! ## Delta suppression -/

theorem countP_ite_single (p : Nat → Bool) (c : Prop) [Decidable c] (b : Nat) :
    List.countP p (if c then [b] else []) = if c ∧ p b = true then 1 else 0 := by
  by_cases hc : c <;> by_cases hp : p b = true <;> simp [hc, hp]

theorem wire_selector_nib (k x j : Nat) (hk : k < 16) :
    selector ((16 * k ||| nib x j) % 256) = k :=
  wire_selector k _ hk (nib_lt x j)

theorem setAddr_sent (a : Nat) (w : World) :
    (setAddr a w).sent = w.sent ++
      ((if w.mirror.field 0 ≠ nib a 0 then [(16 * 0 ||| nib a 0) % 256] else []) ++
       (if w.mirror.field 1 ≠ nib a 1 then [(16 * 1 ||| nib a 1) % 256] else []) ++
       (if w.mirror.field 2 ≠ nib a 2 then [(16 * 2 ||| nib a 2) % 256] else []) ++
       (if w.mirror.field 3 ≠ nib a 3 then [(16 * 3 ||| nib a 3) % 256] else []) ++
       (if w.mirror.field 4 ≠ nib a 4 then [(16 * 4 ||| nib a 4) % 256] else []) ++
       (if w.mirror.field 5 ≠ nib a 5 then [(16 * 5 ||| nib a 5) % 256] else [])) := by
  simp only [setAddr_eq, putField_sent, putField_mirror, List.append_assoc]
  simp only [field_setField_ne _ _ _ _ (by decide : (1 : Nat) ≠ 0),
    field_setField_ne _ _ _ _ (by decide : (2 : Nat) ≠ 0),
    field_setField_ne _ _ _ _ (by decide : (2 : Nat) ≠ 1),
    field_setField_ne _ _ _ _ (by decide : (3 : Nat) ≠ 0),
    field_setField_ne _ _ _ _ (by decide : (3 : Nat) ≠ 1),
    field_setField_ne _ _ _ _ (by decide : (3 : Nat) ≠ 2),
    field_setField_ne _ _ _ _ (by decide : (4 : Nat) ≠ 0),
    field_setField_ne _ _ _ _ (by decide : (4 : Nat) ≠ 1),
    field_setField_ne _ _ _ _ (by decide : (4 : Nat) ≠ 2),
    field_setField_ne _ _ _ _ (by decide : (4 : Nat) ≠ 3),
    field_setField_ne _ _ _ _ (by decide : (5 : Nat) ≠ 0),
    field_setField_ne _ _ _ _ (by decide : (5 : Nat) ≠ 1),
    field_setField_ne _ _ _ _ (by decide : (5 : Nat) ≠ 2),
    field_setField_ne _ _ _ _ (by decide : (5 : Nat) ≠ 3),
    field_setField_ne _ _ _ _ (by decide : (5 : Nat) ≠ 4)]

theorem setAddr_mirror (a : Nat) (w : World) :
    (setAddr a w).mirror =
      { w.mirror with
        lastAddr_0 := nib a 0, lastAddr_1 := nib a 1, lastAddr_2 := nib a 2,
        lastAddr_3 := nib a 3, lastAddr_4 := nib a 4, lastAddr_5 := nib a 5 } := by
  simp only [setAddr_eq, putField_mirror]
  rfl

theorem setData_sent (d : Nat) (w : World) :
    (setData d w).sent = w.sent ++
      ((if w.mirror.field 6 ≠ nib d 0 then [(16 * 6 ||| nib d 0) % 256] else []) ++
       (if w.mirror.field 7 ≠ nib d 1 then [(16 * 7 ||| nib d 1) % 256] else [])) := by
  simp only [setData_eq, putField_sent, putField_mirror, List.append_assoc]
  simp only [field_setField_ne _ _ _ _ (by decide : (7 : Nat) ≠ 6)]

theorem setData_mirror (d : Nat) (w : World) :
    (setData d w).mirror =
      { w.mirror with lastData_0 := nib d 0, lastData_1 := nib d 1 } := by
  simp only [setData_eq, putField_mirror]
  rfl

theorem setCtrl_sent (c : Nat) (w : World) :
    (setCtrl c w).sent = w.sent ++
      (if w.mirror.field 8 ≠ nib c 0 then [(16 * 8 ||| nib c 0) % 256] else []) := by
  simp only [setCtrl_eq, putField_sent]

theorem setCtrl_mirror (c : Nat) (w : World) :
    (setCtrl c w).mirror = { w.mirror with lastCtrl := nib c 0 } := by
  simp only [setCtrl_eq, putField_mirror]
  rfl

theorem run_sent (c : RegCall) (w : World) :
    (c.run w).sent = w.sent ++ emitted w (c.run w) := by
  cases c with
  | setAddr a => rw [RegCall.run, emitted_of_sent (setAddr_sent a w)]; exact setAddr_sent a w
  | setData d => rw [RegCall.run, emitted_of_sent (setData_sent d w)]; exact setData_sent d w
  | setCtrl c => rw [RegCall.run, emitted_of_sent (setCtrl_sent c w)]; exact setCtrl_sent c w

theorem runCalls_sent (cs : List RegCall) : ∀ w : World,
    (runCalls cs w).sent = w.sent ++ emitted w (runCalls cs w) := by
  induction cs with
  | nil => intro w; simp [runCalls, emitted]
  | cons c cs ih =>
    intro w
    have h1 := run_sent c w
    have h2 := ih (c.run w)
    rw [h1, List.append_assoc] at h2
    simp only [runCalls]
    rw [emitted_of_sent h2]
    exact h2

theorem countP_put (k j v : Nat) (hj : j < 16) (hv : v < 16) (c : Prop) [Decidable c] :
    List.countP (fun b => selector b == k) (if c then [(16 * j ||| v) % 256] else []) =
      if c ∧ j = k then 1 else 0 := by
  rw [countP_ite_single, wire_selector j v hj hv]
  simp

theorem differs_setAddr (a k : Nat) (m : Mirror) (hk : k < 6) :
    (RegCall.setAddr a).differs k m = decide (m.field k ≠ nib a k) := by
  simp [RegCall.differs, RegCall.nibble, hk, nib]

theorem differs_setAddr_ge (a k : Nat) (m : Mirror) (hk : 6 ≤ k) :
    (RegCall.setAddr a).differs k m = false := by
  simp [RegCall.differs, RegCall.nibble, Nat.not_lt.mpr hk]

theorem countP_put_nib (k j x i : Nat) (hj : j < 16) (c : Prop) [Decidable c] :
    List.countP (fun b => selector b == k) (if c then [(16 * j ||| nib x i) % 256] else []) =
      if c ∧ j = k then 1 else 0 :=
  countP_put k j _ hj (nib_lt x i) c

theorem call_count (k : Nat) (hk : k < 9) (c : RegCall) (w : World) :
    List.countP (fun b => selector b == k) (emitted w (c.run w)) =
      if c.differs k w.mirror then 1 else 0 := by
  cases c with
  | setAddr a =>
    rw [RegCall.run, emitted_of_sent (setAddr_sent a w)]
    simp only [List.countP_append, countP_put_nib k 0 a 0 (by decide),
      countP_put_nib k 1 a 1 (by decide), countP_put_nib k 2 a 2 (by decide),
      countP_put_nib k 3 a 3 (by decide), countP_put_nib k 4 a 4 (by decide),
      countP_put_nib k 5 a 5 (by decide)]
    by_cases h6 : k < 6
    · rw [differs_setAddr a k _ h6]
      interval_cases k <;> simp
    · rw [differs_setAddr_ge a k _ (Nat.not_lt.mp h6)]
      interval_cases k <;> simp
  | setData d =>
    rw [RegCall.run, emitted_of_sent (setData_sent d w)]
    simp only [List.countP_append, countP_put_nib k 6 d 0 (by decide),
      countP_put_nib k 7 d 1 (by decide)]
    interval_cases k <;> simp [RegCall.differs, RegCall.nibble, nib]
  | setCtrl c =>
    rw [RegCall.run, emitted_of_sent (setCtrl_sent c w)]
    simp only [countP_put_nib k 8 c 0 (by decide)]
    interval_cases k <;> simp [RegCall.differs, RegCall.nibble, nib]


/-- C1 (delta suppression). For each of the nine fields `k` and every sequence of
`setAddr` / `setData` / `setCtrl` calls run from any world, the number of bytes the
line accepts that carry selector `k` equals the number of calls whose nibble for
field `k` differs from the value the mirror holds for that field immediately
before the call; and a call whose nibble for the field repeats the mirror value
emits no byte for it. It holds for every starting mirror and every script of
send outcomes, in particular for nibble-valued mirrors and a line that accepts
every byte. -/
theorem delta_suppression (k : Fin 9) (cs : List RegCall) (w : World) :
    List.countP (fun b => selector b == k.val) (emitted w (runCalls cs w)) =
        changes k.val cs w ∧
      ∀ c : RegCall, c.nibble k.val = some (w.mirror.field k.val) →
        List.countP (fun b => selector b == k.val) (emitted w (c.run w)) = 0 := by
  refine ⟨?_, ?_⟩
  · induction cs generalizing w with
    | nil => simp [runCalls, emitted, changes]
    | cons c cs ih =>
      have h1 := run_sent c w
      have h2 := runCalls_sent cs (c.run w)
      rw [h1, List.append_assoc] at h2
      simp only [runCalls, changes]
      rw [emitted_of_sent h2, List.countP_append, call_count k.val k.isLt, ih]
  · intro c hc
    rw [call_count k.val k.isLt]
    simp [RegCall.differs, hc]

/-- Witness for C1: on the initial world, `setCtrl(0x0F)` repeats the control
value the mirror holds and emits nothing. -/
theorem delta_suppression_witness :
    RegCall.nibble (.setCtrl 0x0F) 8 = some (World.initial.mirror.field 8) ∧
      List.countP (fun b => selector b == 8)
        (emitted World.initial ((RegCall.setCtrl 0x0F).run World.initial)) = 0 :=
  ⟨by decide, (delta_suppression ⟨8, by decide⟩ [] World.initial).2 (.setCtrl 0x0F)
    (by decide)⟩

/-! ## Address decomposition -/

theorem or_shiftLeft_eq_add (x y i : Nat) (hx : x < 2 ^ i) :
    x ||| y <<< i = x + y * 2 ^ i := by
  rw [Nat.shiftLeft_eq, Nat.lor_comm, Nat.mul_comm y, ← Nat.mul_add_lt_is_or hx, Nat.add_comm]

theorem recombine (n0 n1 n2 n3 n4 n5 : Nat) (h0 : n0 < 16) (h1 : n1 < 16) (h2 : n2 < 16)
    (h3 : n3 < 16) (h4 : n4 < 16) :
    n0 ||| n1 <<< 4 ||| n2 <<< 8 ||| n3 <<< 12 ||| n4 <<< 16 ||| n5 <<< 20 =
      n0 + 16 * n1 + 256 * n2 + 4096 * n3 + 65536 * n4 + 1048576 * n5 := by
  rw [or_shiftLeft_eq_add n0 n1 4 (by omega)]
  rw [or_shiftLeft_eq_add _ n2 8 (by omega)]
  rw [or_shiftLeft_eq_add _ n3 12 (by omega)]
  rw [or_shiftLeft_eq_add _ n4 16 (by omega)]
  rw [or_shiftLeft_eq_add _ n5 20 (by omega)]
  omega

theorem nib_recombine (a : Nat) :
    nib a 0 ||| nib a 1 <<< 4 ||| nib a 2 <<< 8 ||| nib a 3 <<< 12 ||| nib a 4 <<< 16 |||
      nib a 5 <<< 20 = a % 2 ^ 24 := by
  rw [recombine _ _ _ _ _ _ (nib_lt a 0) (nib_lt a 1) (nib_lt a 2) (nib_lt a 3) (nib_lt a 4)]
  simp only [nib_eq]
  omega

theorem setAddr_addr (a : Nat) (w : World) : (setAddr a w).mirror.addr = a % 2 ^ 24 := by
  rw [setAddr_mirror]
  exact nib_recombine a

theorem setAddr_selectors (a : Nat) (w : World) :
    (emitted w (setAddr a w)).map selector =
      (if w.mirror.field 0 ≠ nib a 0 then [0] else []) ++
      (if w.mirror.field 1 ≠ nib a 1 then [1] else []) ++
      (if w.mirror.field 2 ≠ nib a 2 then [2] else []) ++
      (if w.mirror.field 3 ≠ nib a 3 then [3] else []) ++
      (if w.mirror.field 4 ≠ nib a 4 then [4] else []) ++
      (if w.mirror.field 5 ≠ nib a 5 then [5] else []) := by
  rw [emitted_of_sent (setAddr_sent a w)]
  simp only [List.map_append, apply_ite (List.map selector), List.map_cons, List.map_nil,
    wire_selector_nib 0 a 0 (by decide), wire_selector_nib 1 a 1 (by decide),
    wire_selector_nib 2 a 2 (by decide), wire_selector_nib 3 a 3 (by decide),
    wire_selector_nib 4 a 4 (by decide), wire_selector_nib 5 a 5 (by decide)]

/-- C2 (address decomposition round trip). For every `addr < 2^24` and every
starting world, after `setAddr addr` the six address fields of the mirror
recombine to `addr`, and the address bytes the call emits come in strictly
increasing order of their nibble index, all of them with an address selector. -/
theorem setAddr_round_trip (addr : Nat) (h : addr < 2 ^ 24) (w : World) :
    (setAddr addr w).mirror.addr = addr ∧
      List.Pairwise (fun s t => s < t) ((emitted w (setAddr addr w)).map selector) ∧
      ∀ s ∈ (emitted w (setAddr addr w)).map selector, s < 6 := by
  refine ⟨?_, ?_, ?_⟩
  · rw [setAddr_addr, Nat.mod_eq_of_lt h]
  · rw [setAddr_selectors]
    split_ifs <;> simp
  · rw [setAddr_selectors]
    intro s hs
    simp only [List.mem_append] at hs
    rcases hs with ((((h | h) | h) | h) | h) | h <;> split_ifs at h <;> simp at h <;> omega

/-- Witness for C2: `setAddr(0xABCDEF)` on the initial world. -/
theorem setAddr_round_trip_witness :
    (0xABCDEF : Nat) < 2 ^ 24 ∧ (setAddr 0xABCDEF World.initial).mirror.addr = 0xABCDEF :=
  ⟨by decide, (setAddr_round_trip 0xABCDEF (by decide) World.initial).1⟩

/-! ## Every operation keeps the line and the latches in order -/

theorem replay_append (l0 : Mirror) (tr bs : List Nat) :
    replay l0 (tr ++ bs) = replay (replay l0 tr) bs := by
  simp [replay, List.foldl_append]

theorem Good.refl (w : World) : Good w w :=
  ⟨⟨[], by simp, by simp⟩, fun _ h => h⟩

theorem Good.trans {w w1 w2 : World} (h1 : Good w w1) (h2 : Good w1 w2) : Good w w2 := by
  obtain ⟨⟨bs1, e1, p1⟩, c1⟩ := h1
  obtain ⟨⟨bs2, e2, p2⟩, c2⟩ := h2
  refine ⟨⟨bs1 ++ bs2, by rw [e2, e1, List.append_assoc], ?_⟩, fun l0 h => c2 l0 (c1 l0 h)⟩
  intro b hb
  rcases List.mem_append.mp hb with h | h
  · exact p1 b h
  · exact p2 b h

theorem Good.of_same {w w1 : World} (hm : w1.mirror = w.mirror) (hs : w1.sent = w.sent) :
    Good w w1 :=
  ⟨⟨[], by simp [hs], by simp⟩, fun l0 h => by simpa [consistent, hm, hs] using h⟩

theorem good_putField (k v : Nat) (hk : k < 9) (hv : v < 16) (w : World) :
    Good w (putField k v w) := by
  refine ⟨⟨_, putField_sent k v w, ?_⟩, ?_⟩
  · intro b hb
    split_ifs at hb
    · simp only [List.mem_singleton] at hb
      rw [hb, wire_selector k v (by omega) hv]
      omega
    · simp at hb
  · intro l0 h
    unfold consistent at *
    rw [putField_mirror, putField_sent]
    split_ifs with hne
    · rw [replay_append, ← h]
      simp only [replay, List.foldl_cons, List.foldl_nil, latchStep]
      rw [wire_selector k v (by omega) hv, wire_low k v (by omega) hv, if_pos hk]
    · have hne : w.mirror.field k = v := by simpa using hne
      rw [List.append_nil, ← hne, setField_field]
      exact h

theorem good_request (b : Nat) (hb : b = GET_DATA ∨ b = GET_READY) (w : World) :
    Good w (sendByte b w) := by
  refine ⟨⟨[b % 256], sendByte_sent b w, ?_⟩, ?_⟩
  · intro c hc
    simp only [List.mem_singleton] at hc
    rcases hb with rfl | rfl <;> (rw [hc]; decide)
  · intro l0 h
    unfold consistent at *
    rw [sendByte_mirror, sendByte_sent, replay_append, ← h]
    rcases hb with rfl | rfl <;> rfl

theorem good_setAddr (a : Nat) (w : World) : Good w (setAddr a w) := by
  rw [setAddr_eq]
  exact (((((good_putField 0 _ (by decide) (nib_lt a 0) w).trans
    (good_putField 1 _ (by decide) (nib_lt a 1) _)).trans
    (good_putField 2 _ (by decide) (nib_lt a 2) _)).trans
    (good_putField 3 _ (by decide) (nib_lt a 3) _)).trans
    (good_putField 4 _ (by decide) (nib_lt a 4) _)).trans
    (good_putField 5 _ (by decide) (nib_lt a 5) _)

theorem good_setData (d : Nat) (w : World) : Good w (setData d w) := by
  rw [setData_eq]
  exact (good_putField 6 _ (by decide) (nib_lt d 0) w).trans
    (good_putField 7 _ (by decide) (nib_lt d 1) _)

theorem good_setCtrl (c : Nat) (w : World) : Good w (setCtrl c w) := by
  rw [setCtrl_eq]
  exact good_putField 8 _ (by decide) (nib_lt c 0) w

theorem good_recvByte (dev : Device) (w : World) : Good w (recvByte dev w).2 :=
  Good.of_same rfl rfl

theorem good_getData (dev : Device) (w : World) : Good w (getData dev w).2 :=
  (good_request GET_DATA (Or.inl rfl) w).trans (good_recvByte dev _)

theorem good_getReady (dev : Device) (w : World) : Good w (getReady dev w).2 :=
  (good_request GET_READY (Or.inr rfl) w).trans (good_recvByte dev _)

theorem good_logCall (c : BusCall) (w : World) : Good w (logCall c w) :=
  Good.of_same rfl rfl

theorem good_reset (w : World) : Good w (reset w) :=
  (good_setCtrl 0x0E w).trans (good_setCtrl 0x03 _)

theorem good_standby (w : World) : Good w (standby w) :=
  good_setCtrl 0x0F w

theorem good_readData (dev : Device) (a : Nat) (w : World) :
    Good w (readData dev a w).2 := by
  show Good w (getData dev (setCtrl 0x03 (setAddr a (logCall (.read a) w)))).2
  exact (((good_logCall _ w).trans (good_setAddr a _)).trans (good_setCtrl 0x03 _)).trans
    (good_getData dev _)

theorem good_writeData (a d : Nat) (w : World) : Good w (writeData a d w) := by
  show Good w (setCtrl 0x03 (setCtrl 0x05 (setData d (setAddr a (logCall (.write a d) w)))))
  exact ((((good_logCall _ w).trans (good_setAddr a _)).trans (good_setData d _)).trans
    (good_setCtrl 0x05 _)).trans (good_setCtrl 0x03 _)

theorem good_pollReady (dev : Device) : ∀ (fuel : Nat) (w : World),
    Good w (pollReady dev fuel w).world := by
  intro fuel
  induction fuel with
  | zero => intro w; exact Good.refl w
  | succ n ih =>
    intro w
    simp only [pollReady]
    split_ifs
    · exact (good_getReady dev w).trans (ih _)
    · exact good_getReady dev w

theorem good_waitReady (dev : Device) (fuel : Nat) (w : World) :
    Good w (waitReady dev fuel w).world :=
  (good_logCall _ w).trans (good_pollReady dev fuel _)

theorem good_error {α : Type} (e : Failure) (w : World) :
    Good w (error e w : Res α).world :=
  good_standby w

theorem good_bind {α β : Type} {w : World} {r : Res α} {k : α → World → Res β}
    (hr : Good w r.world) (hk : ∀ a w1, Good w1 (k a w1).world) :
    Good w (r.bind k).world := by
  cases r with
  | ok a w1 => exact hr.trans (hk a w1)
  | fatal e w1 => exact hr
  | spin w1 => exact hr

theorem good_showIdentifiers (dev : Device) (w : World) :
    Good w (showIdentifiers dev w).world := by
  simp only [showIdentifiers, Res.world]
  exact (((((((good_writeData _ _ w).trans (good_writeData _ _ _)).trans
    (good_writeData _ _ _)).trans (good_readData dev _ _)).trans
    (good_readData dev _ _)).trans (good_readData dev _ _)).trans
    (good_readData dev _ _)).trans (good_writeData _ _ _)

theorem good_eraseChip (dev : Device) (fuel : Nat) (w : World) :
    Good w (eraseChip dev fuel w).world := by
  simp only [eraseChip]
  exact ((((((good_writeData _ _ w).trans (good_writeData _ _ _)).trans
    (good_writeData _ _ _)).trans (good_writeData _ _ _)).trans
    (good_writeData _ _ _)).trans (good_writeData _ _ _)).trans (good_waitReady dev fuel _)

theorem good_eraseSector (dev : Device) (fuel n : Nat) (w : World) :
    Good w (eraseSector dev fuel n w).world := by
  simp only [eraseSector]
  exact ((((((good_writeData _ _ w).trans (good_writeData _ _ _)).trans
    (good_writeData _ _ _)).trans (good_writeData _ _ _)).trans
    (good_writeData _ _ _)).trans (good_writeData _ _ _)).trans (good_waitReady dev fuel _)

theorem good_eraseBootSector (dev : Device) (fuel n : Nat) (w : World) :
    Good w (eraseBootSector dev fuel n w).world := by
  simp only [eraseBootSector]
  exact ((((((good_writeData _ _ w).trans (good_writeData _ _ _)).trans
    (good_writeData _ _ _)).trans (good_writeData _ _ _)).trans
    (good_writeData _ _ _)).trans (good_writeData _ _ _)).trans (good_waitReady dev fuel _)

theorem good_programByte (dev : Device) (fuel a d : Nat) (w : World) :
    Good w (programByte dev fuel a d w).world := by
  simp only [programByte]
  exact ((((good_writeData _ _ w).trans (good_writeData _ _ _)).trans
    (good_writeData _ _ _)).trans (good_writeData _ _ _)).trans (good_waitReady dev fuel _)

theorem good_checkLoop (dev : Device) (shift sector : Nat) : ∀ (n i : Nat) (w : World),
    Good w (checkLoop dev shift sector n i w).world := by
  intro n
  induction n with
  | zero => intro i w; exact Good.refl w
  | succ n ih =>
    intro i w
    simp only [checkLoop]
    split_ifs
    · exact (good_readData dev _ w).trans (good_error _ _)
    · exact (good_readData dev _ w).trans (ih _ _)

theorem good_setOutFile (o : List Nat) (w : World) : Good w { w with outFile := o } :=
  Good.of_same rfl rfl

theorem good_readLoop (dev : Device) (shift sector : Nat) (dst : OutFile) :
    ∀ (n i : Nat) (w : World), Good w (readLoop dev shift sector dst n i w).world := by
  intro n
  induction n with
  | zero => intro i w; exact Good.refl w
  | succ n ih =>
    intro i w
    simp only [readLoop]
    split_ifs
    · exact ((good_readData dev _ w).trans (good_setOutFile _ _)).trans (ih _ _)
    · exact (good_readData dev _ w).trans (good_error _ _)

theorem good_readSector (dev : Device) (n : Nat) (dst : OutFile) (w : World) :
    Good w (readSector dev n dst w).world := by
  simp only [readSector]
  split_ifs
  · exact (good_setOutFile [] w).trans (good_readLoop dev 16 n dst _ _ _)
  · exact good_error _ _

theorem good_readBootSector (dev : Device) (n : Nat) (dst : OutFile) (app : Bool)
    (w : World) : Good w (readBootSector dev n dst app w).world := by
  simp only [readBootSector]
  by_cases h : dst.canOpen = true
  · rw [if_pos h]
    exact (good_setOutFile _ w).trans (good_readLoop dev 13 n dst _ _ _)
  · rw [if_neg h]
    exact good_error _ _

theorem good_programLoop (start : Nat) (f : InFile) : ∀ (n i addr : Nat) (w : World),
    Good w (programLoop start f n i addr w).world := by
  intro n
  induction n with
  | zero => intro i addr w; exact Good.refl w
  | succ n ih =>
    intro i addr w
    simp only [programLoop]
    split
    · exact good_error _ _
    · exact ((good_writeData _ _ w).trans (good_writeData _ _ _)).trans (ih _ _ _)

theorem good_programFile (dev : Device) (fuel start : Nat) (file : Option InFile)
    (w : World) : Good w (programFile dev fuel start file w).world := by
  cases file with
  | none => exact good_error _ _
  | some f =>
    simp only [programFile]
    split_ifs
    · exact good_error _ _
    · refine (((good_writeData 0xAAA 0xAA w).trans (good_writeData 0x555 0x55 _)).trans
        (good_writeData 0xAAA 0x20 _)).trans ?_
      refine good_bind (good_programLoop _ _ _ _ _ _) fun addr w1 => ?_
      refine good_bind (good_waitReady dev fuel w1) fun _ w2 => ?_
      simp only [Res.world]
      exact (good_writeData _ _ w2).trans (good_writeData _ _ _)

theorem good_verifyLoop (dev : Device) (start : Nat) (f : InFile) :
    ∀ (n i : Nat) (w : World), Good w (verifyLoop dev start f n i w).world := by
  intro n
  induction n with
  | zero => intro i w; exact Good.refl w
  | succ n ih =>
    intro i w
    simp only [verifyLoop]
    split
    · exact good_error _ _
    · split_ifs
      · exact (good_readData dev _ w).trans (good_error _ _)
      · exact (good_readData dev _ w).trans (ih _ _)

theorem good_verifyFile (dev : Device) (start : Nat) (file : Option InFile) (w : World) :
    Good w (verifyFile dev start file w).world := by
  cases file with
  | none => exact good_error _ _
  | some f =>
    simp only [verifyFile]
    split_ifs
    · exact good_error _ _
    · exact good_verifyLoop _ _ _ _ _ _

theorem good_op (dev : Device) (fuel : Nat) (op : Op) (w : World) :
    Good w (op.run dev fuel w).world := by
  cases op with
  | setAddr a => simp only [Op.run, Res.world]; exact good_setAddr a w
  | setData d => simp only [Op.run, Res.world]; exact good_setData d w
  | setCtrl c => simp only [Op.run, Res.world]; exact good_setCtrl c w
  | getData => simp only [Op.run, Res.world]; exact good_getData dev w
  | getReady => simp only [Op.run, Res.world]; exact good_getReady dev w
  | reset => simp only [Op.run, Res.world]; exact good_reset w
  | standby => simp only [Op.run, Res.world]; exact good_standby w
  | readData a => simp only [Op.run, Res.world]; exact good_readData dev a w
  | writeData a d => simp only [Op.run, Res.world]; exact good_writeData a d w
  | waitReady => simp only [Op.run]; exact good_waitReady dev fuel w
  | showIdentifiers =>
    simp only [Op.run]
    exact good_bind (good_showIdentifiers dev w) fun _ w1 => Good.refl w1
  | eraseChip => simp only [Op.run]; exact good_eraseChip dev fuel w
  | eraseSector n => simp only [Op.run]; exact good_eraseSector dev fuel n w
  | eraseBootSector n => simp only [Op.run]; exact good_eraseBootSector dev fuel n w
  | checkChip => simp only [Op.run, checkChip]; exact good_error _ w
  | checkSector n => simp only [Op.run, checkSector]; exact good_checkLoop dev 16 n _ _ w
  | checkBootSector n =>
    simp only [Op.run, checkBootSector]; exact good_checkLoop dev 13 n _ _ w
  | readChip => simp only [Op.run, readChip]; exact good_error _ w
  | readSector n dst => simp only [Op.run]; exact good_readSector dev n dst w
  | readBootSector n dst app =>
    simp only [Op.run]; exact good_readBootSector dev n dst app w
  | programByte a d => simp only [Op.run]; exact good_programByte dev fuel a d w
  | programFile start file =>
    simp only [Op.run]; exact good_programFile dev fuel start file w
  | verifyFile start file => simp only [Op.run]; exact good_verifyFile dev start file w

theorem good_runOps (dev : Device) (fuel : Nat) : ∀ (ops : List Op) (w : World),
    Good w (runOps dev fuel ops w).world := by
  intro ops
  induction ops with
  | nil => intro w; exact Good.refl w
  | cons op ops ih =>
    intro w
    simp only [runOps]
    exact good_bind (good_op dev fuel op w) fun _ w1 => ih w1

theorem initBoard_sent (w : World) :
    (initBoard w).sent = w.sent ++ [0x00, 0x10, 0x20, 0x30, 0x40, 0x50, 0x60, 0x70, 0x8F] := by
  have h0 : ∀ w, (initBoard_0 w).sent = w.sent ++ [0x00] := fun w => by simp [initBoard_0]; rfl
  have h1 : ∀ w, (initBoard_1 w).sent = w.sent ++ [0x10] := fun w => by simp [initBoard_1]; rfl
  have h2 : ∀ w, (initBoard_2 w).sent = w.sent ++ [0x20] := fun w => by simp [initBoard_2]; rfl
  have h3 : ∀ w, (initBoard_3 w).sent = w.sent ++ [0x30] := fun w => by simp [initBoard_3]; rfl
  have h4 : ∀ w, (initBoard_4 w).sent = w.sent ++ [0x40] := fun w => by simp [initBoard_4]; rfl
  have h5 : ∀ w, (initBoard_5 w).sent = w.sent ++ [0x50] := fun w => by simp [initBoard_5]; rfl
  have h6 : ∀ w, (initBoard_6 w).sent = w.sent ++ [0x60] := fun w => by simp [initBoard_6]; rfl
  have h7 : ∀ w, (initBoard_7 w).sent = w.sent ++ [0x70] := fun w => by simp [initBoard_7]; rfl
  have h8 : ∀ w, (initBoard_8 w).sent = w.sent ++ [0x8F] := fun w => by simp [initBoard_8]; rfl
  simp only [initBoard, h0, h1, h2, h3, h4, h5, h6, h7, h8, List.append_assoc,
    List.singleton_append, List.cons_append, List.nil_append]

theorem initBoard_mirror (w : World) : (initBoard w).mirror = Mirror.initial := by
  simp only [initBoard, initBoard_0, initBoard_1, initBoard_2, initBoard_3, initBoard_4,
    initBoard_5, initBoard_6, initBoard_7, initBoard_8, sendByte_mirror]
  rfl

theorem consistent_initBoard (l0 : Mirror) (w : World) : consistent l0 (initBoard w) := by
  unfold consistent
  rw [initBoard_mirror, initBoard_sent, replay_append]
  rfl

theorem emitted_good {w w1 : World} (h : Good w w1) : ∀ b ∈ emitted w w1, selector b ≤ 0xA := by
  obtain ⟨⟨bs, e, p⟩, _⟩ := h
  rw [emitted_of_sent e]
  exact p

/-! ## Wire byte encoding -/

theorem wire_form : ∀ k < 16, ∀ v < 16, (16 * k ||| v) % 256 = k <<< 4 ||| v := by
  decide

theorem wire_form_nib (k x i : Nat) (hk : k < 16) :
    (16 * k ||| nib x i) % 256 = k <<< 4 ||| ((x >>> (4 * i)) &&& 0x0F) :=
  wire_form k hk _ (nib_lt x i)

theorem mem_ite_single {c : Prop} [Decidable c] {a b : Nat}
    (h : b ∈ (if c then [a] else [])) : b = a := by
  split_ifs at h
  · simpa using h
  · simp at h

/-- C3 (wire byte encoding). For every argument value, in range or not, each
byte `setAddr` emits is `(k << 4) | nibble` for a `k` in `0..5` with the nibble
bits `4k..4k+3` of `addr`; each byte `setData` emits is `0x60 |` the low or
`0x70 |` the high nibble of `data`; each byte `setCtrl` emits is
`0x80 | (ctrl & 0x0F)`; `getData` emits exactly `0x90` and `getReady` exactly
`0xA0`; and no operation, `initBoard` and any sequence of bus or flash operations
included, emits a byte whose high nibble exceeds `0xA`. -/
theorem wire_encoding (dev : Device) (w : World) :
    (∀ addr, ∀ b ∈ emitted w (setAddr addr w),
        ∃ k < 6, b = (k <<< 4) ||| ((addr >>> (4 * k)) &&& 0x0F)) ∧
      (∀ data, ∀ b ∈ emitted w (setData data w),
        b = (6 <<< 4) ||| (data &&& 0x0F) ∨ b = (7 <<< 4) ||| ((data >>> 4) &&& 0x0F)) ∧
      (∀ ctrl, ∀ b ∈ emitted w (setCtrl ctrl w), b = (8 <<< 4) ||| (ctrl &&& 0x0F)) ∧
      emitted w (getData dev w).2 = [0x90] ∧
      emitted w (getReady dev w).2 = [0xA0] ∧
      (∀ b ∈ emitted w (initBoard w), selector b ≤ 0xA) ∧
      ∀ fuel ops, ∀ b ∈ emitted w (runOps dev fuel ops w).world, selector b ≤ 0xA := by
  refine ⟨?_, ?_, ?_, ?_, ?_, ?_, ?_⟩
  · intro addr b hb
    rw [emitted_of_sent (setAddr_sent addr w)] at hb
    simp only [List.mem_append] at hb
    rcases hb with ((((h | h) | h) | h) | h) | h
    · exact ⟨0, by decide, by rw [mem_ite_single h, wire_form_nib 0 addr 0 (by decide)]⟩
    · exact ⟨1, by decide, by rw [mem_ite_single h, wire_form_nib 1 addr 1 (by decide)]⟩
    · exact ⟨2, by decide, by rw [mem_ite_single h, wire_form_nib 2 addr 2 (by decide)]⟩
    · exact ⟨3, by decide, by rw [mem_ite_single h, wire_form_nib 3 addr 3 (by decide)]⟩
    · exact ⟨4, by decide, by rw [mem_ite_single h, wire_form_nib 4 addr 4 (by decide)]⟩
    · exact ⟨5, by decide, by rw [mem_ite_single h, wire_form_nib 5 addr 5 (by decide)]⟩
  · intro data b hb
    rw [emitted_of_sent (setData_sent data w)] at hb
    simp only [List.mem_append] at hb
    rcases hb with h | h
    · exact Or.inl (by rw [mem_ite_single h, wire_form_nib 6 data 0 (by decide)]; rfl)
    · exact Or.inr (by rw [mem_ite_single h, wire_form_nib 7 data 1 (by decide)])
  · intro ctrl b hb
    rw [emitted_of_sent (setCtrl_sent ctrl w)] at hb
    rw [mem_ite_single hb, wire_form_nib 8 ctrl 0 (by decide)]
    rfl
  · exact emitted_of_sent (by simp [getData, recvByte, GET_DATA])
  · exact emitted_of_sent (by simp [getReady, recvByte, GET_READY])
  · rw [emitted_of_sent (initBoard_sent w)]
    decide
  · intro fuel ops
    exact emitted_good (good_runOps dev fuel ops w)

/-- Witness for C3: the byte `0x2A` that `setAddr(0xAAA)` emits on the initial
world is `(2 << 4) | 0xA`. -/
theorem wire_encoding_witness :
    0x2A ∈ emitted World.initial (setAddr 0xAAA World.initial) ∧
      ∃ k < 6, 0x2A = (k <<< 4) ||| ((0xAAA >>> (4 * k)) &&& 0x0F) :=
  ⟨by decide, (wire_encoding (fun _ => 0) World.initial).1 0xAAA 0x2A (by decide)⟩

/-! ## Mirror and latches -/

/-- C4 (mirror/latch consistency). Replay the bytes the line accepted on a board
whose nine latches held `l0` at the start: after `initBoard`, and after any
sequence of bus and flash operations that follows it (ended normally, through
`error`, or still polling), every field of the mirror equals the latch of the
same number, whatever `l0` and the history before `initBoard` were. -/
theorem mirror_latch_consistency (dev : Device) (fuel : Nat) (l0 : Mirror) (w0 : World)
    (ops : List Op) :
    (initBoard w0).mirror = replay l0 (initBoard w0).sent ∧
      (runOps dev fuel ops (initBoard w0)).world.mirror =
        replay l0 (runOps dev fuel ops (initBoard w0)).world.sent := by
  have h0 := consistent_initBoard l0 w0
  exact ⟨h0, (good_runOps dev fuel ops (initBoard w0)).2 l0 h0⟩

/-! ## The call log and the mirror along the bus cycles -/

@[simp] theorem setAddr_calls (a : Nat) (w : World) : (setAddr a w).calls = w.calls := by
  simp only [setAddr_eq, putField_calls]

@[simp] theorem setData_calls (d : Nat) (w : World) : (setData d w).calls = w.calls := by
  simp only [setData_eq, putField_calls]

@[simp] theorem setCtrl_calls (c : Nat) (w : World) : (setCtrl c w).calls = w.calls := by
  simp only [setCtrl_eq, putField_calls]

@[simp] theorem standby_calls (w : World) : (standby w).calls = w.calls :=
  setCtrl_calls _ w

@[simp] theorem getData_calls (dev : Device) (w : World) :
    (getData dev w).2.calls = w.calls := by
  simp [getData, recvByte]

@[simp] theorem getReady_calls (dev : Device) (w : World) :
    (getReady dev w).2.calls = w.calls := by
  simp [getReady, recvByte]

@[simp] theorem getReady_mirror (dev : Device) (w : World) :
    (getReady dev w).2.mirror = w.mirror := by
  simp [getReady, recvByte]

@[simp] theorem getReady_sent (dev : Device) (w : World) :
    (getReady dev w).2.sent = w.sent ++ [GET_READY] := by
  simp [getReady, recvByte, GET_READY]

theorem getReady_val (dev : Device) (w : World) :
    (getReady dev w).1 = dev (w.sent ++ [GET_READY]) % 256 := by
  simp [getReady, recvByte, GET_READY]

@[simp] theorem writeData_calls (a d : Nat) (w : World) :
    (writeData a d w).calls = w.calls ++ [.write a d] := by
  simp [writeData, logCall]

@[simp] theorem readData_calls (dev : Device) (a : Nat) (w : World) :
    (readData dev a w).2.calls = w.calls ++ [.read a] := by
  simp [readData, logCall]

@[simp] theorem error_world {α : Type} (e : Failure) (w : World) :
    (error e w : Res α).world = standby w := rfl

/-! ## Polling for ready -/

theorem pollReady_ok (dev : Device) : ∀ (k fuel : Nat) (w : World), k < fuel →
    (dev (w.sent ++ List.replicate (k + 1) GET_READY) % 256) &&& 0x01 ≠ 0 →
    ∃ w1, pollReady dev fuel w = .ok () w1 ∧ w1.calls = w.calls ∧ w1.mirror = w.mirror ∧
      Good w w1 := by
  intro k
  induction k with
  | zero =>
    intro fuel w hk hr
    obtain ⟨n, rfl⟩ : ∃ n, fuel = n + 1 := ⟨fuel - 1, by omega⟩
    simp only [pollReady]
    have hv : (getReady dev w).1 &&& 0x01 ≠ 0 := by
      rw [getReady_val]; simpa using hr
    rw [if_neg hv]
    exact ⟨_, rfl, by simp, by simp, good_getReady dev w⟩
  | succ k ih =>
    intro fuel w hk hr
    obtain ⟨n, rfl⟩ : ∃ n, fuel = n + 1 := ⟨fuel - 1, by omega⟩
    simp only [pollReady]
    by_cases hv : (getReady dev w).1 &&& 0x01 = 0
    · rw [if_pos hv]
      have hr1 : (dev ((getReady dev w).2.sent ++ List.replicate (k + 1) GET_READY) % 256)
          &&& 0x01 ≠ 0 := by
        rw [getReady_sent, List.append_assoc]
        simpa [List.replicate_succ] using hr
      obtain ⟨w1, e, hc, hm, hg⟩ := ih n (getReady dev w).2 (by omega) hr1
      exact ⟨w1, e, by rw [hc]; simp, by rw [hm]; simp, (good_getReady dev w).trans hg⟩
    · rw [if_neg hv]
      exact ⟨_, rfl, by simp, by simp, good_getReady dev w⟩

theorem waitReady_ok (dev : Device) (fuel : Nat) (h : readyWithin dev fuel) (w : World) :
    ∃ w1, waitReady dev fuel w = .ok () w1 ∧ w1.calls = w.calls ++ [.wait] ∧
      w1.mirror = w.mirror ∧ Good w w1 := by
  obtain ⟨k, hk, hr⟩ := h (logCall .wait w).sent
  obtain ⟨w1, e, hc, hm, hg⟩ := pollReady_ok dev k fuel (logCall .wait w) hk hr
  exact ⟨w1, e, by rw [hc]; rfl, by rw [hm]; rfl, (good_logCall _ w).trans hg⟩

/-! ## Bounds on the addresses of the bus cycles -/

theorem newCalls_of_calls {w w1 : World} {cs : List BusCall} (h : w1.calls = w.calls ++ cs) :
    newCalls w w1 = cs := by
  simp [newCalls, h]

theorem CallsBelow.none_added (B : Nat) (w : World) : CallsBelow B w w :=
  ⟨[], by simp, by simp⟩

theorem CallsBelow.step {B : Nat} {w w1 w2 : World} (h1 : CallsBelow B w w1)
    (h2 : CallsBelow B w1 w2) : CallsBelow B w w2 := by
  obtain ⟨c1, e1, p1⟩ := h1
  obtain ⟨c2, e2, p2⟩ := h2
  refine ⟨c1 ++ c2, by rw [e2, e1, List.append_assoc], ?_⟩
  intro c hc
  rcases List.mem_append.mp hc with h | h
  · exact p1 c h
  · exact p2 c h

theorem CallsBelow.of_eq {B : Nat} {w w1 : World} (h : w1.calls = w.calls) :
    CallsBelow B w w1 :=
  ⟨[], by simp [h], by simp⟩

theorem below_writeData (B a d : Nat) (h : a < B) (w : World) :
    CallsBelow B w (writeData a d w) :=
  ⟨[.write a d], writeData_calls a d w, by
    intro c hc
    rw [List.mem_singleton.mp hc]
    exact h⟩

theorem below_readData (B : Nat) (dev : Device) (a : Nat) (h : a < B) (w : World) :
    CallsBelow B w (readData dev a w).2 :=
  ⟨[.read a], readData_calls dev a w, by
    intro c hc
    rw [List.mem_singleton.mp hc]
    exact h⟩

theorem below_error {α : Type} (B : Nat) (e : Failure) (w : World) :
    CallsBelow B w (error e w : Res α).world :=
  CallsBelow.of_eq (standby_calls w)

theorem pollReady_calls (dev : Device) : ∀ (fuel : Nat) (w : World),
    (pollReady dev fuel w).world.calls = w.calls := by
  intro fuel
  induction fuel with
  | zero => intro w; rfl
  | succ n ih =>
    intro w
    simp only [pollReady]
    split_ifs
    · rw [ih]; simp
    · simp [Res.world]

theorem below_waitReady (B : Nat) (dev : Device) (fuel : Nat) (w : World) :
    CallsBelow B w (waitReady dev fuel w).world :=
  ⟨[.wait], by rw [waitReady, pollReady_calls]; rfl, by
    intro c hc
    rw [List.mem_singleton.mp hc]
    exact True.intro⟩

theorem below_bind {α β : Type} {B : Nat} {w : World} {r : Res α} {k : α → World → Res β}
    (hr : CallsBelow B w r.world) (hk : ∀ a w1, r = .ok a w1 → CallsBelow B w1 (k a w1).world) :
    CallsBelow B w (r.bind k).world := by
  cases r with
  | ok a w1 => exact hr.step (hk a w1 rfl)
  | fatal e w1 => exact hr
  | spin w1 => exact hr

theorem programLoop_addr (start : Nat) (f : InFile) (B : Nat) : ∀ (n i addr : Nat)
    (w : World), addr < B → (∀ j, i ≤ j → j < i + n → u32 (start + j) < B) →
    ∀ a w1, programLoop start f n i addr w = .ok a w1 → a < B := by
  intro n
  induction n with
  | zero =>
    intro i addr w ha _ a w1 h
    simp only [programLoop, Res.ok.injEq] at h
    rw [← h.1]; exact ha
  | succ n ih =>
    intro i addr w _ hj a w1 h
    simp only [programLoop] at h
    split at h
    · exact absurd h (by simp [error])
    · exact ih (i + 1) _ _ (hj i (Nat.le_refl i) (by omega))
        (fun j h1 h2 => hj j (by omega) (by omega)) a w1 h

theorem below_programLoop (start : Nat) (f : InFile) (B : Nat) : ∀ (n i addr : Nat)
    (w : World), addr < B → (∀ j, i ≤ j → j < i + n → u32 (start + j) < B) →
    CallsBelow B w (programLoop start f n i addr w).world := by
  intro n
  induction n with
  | zero => intro i addr w _ _; exact CallsBelow.none_added B w
  | succ n ih =>
    intro i addr w ha hj
    have hi : u32 (start + i) < B := hj i (Nat.le_refl i) (by omega)
    simp only [programLoop]
    split
    · exact below_error B _ w
    · exact ((below_writeData B addr 0xA0 ha w).step
        (below_writeData B _ _ hi _)).step
        (ih (i + 1) _ _ hi (fun j h1 h2 => hj j (by omega) (by omega)))

theorem below_programFile (dev : Device) (fuel start : Nat) (f : InFile) (B : Nat)
    (hB : 0xAAA < B) (hj : ∀ j, j < u32 f.length → u32 (start + j) < B) (w : World) :
    CallsBelow B w (programFile dev fuel start (some f) w).world := by
  simp only [programFile]
  split_ifs
  · exact below_error B _ w
  · refine ((CallsBelow.step (below_writeData B 0xAAA 0xAA hB w)
      (below_writeData B 0x555 0x55 (by omega) _)).step
      (below_writeData B 0xAAA 0x20 hB _)).step ?_
    refine below_bind (below_programLoop start f B _ 0 0xAAA _ hB
      (fun j _ h2 => hj j (by omega))) fun addr w1 hl => ?_
    have ha : addr < B := programLoop_addr start f B _ 0 0xAAA _ hB
      (fun j _ h2 => hj j (by omega)) addr w1 hl
    refine below_bind (below_waitReady B dev fuel w1) fun _ w2 _ => ?_
    simp only [Res.world]
    exact (below_writeData B addr 0x90 ha w2).step (below_writeData B addr 0x00 ha _)

theorem below_verifyLoop (dev : Device) (start : Nat) (f : InFile) (B : Nat) :
    ∀ (n i : Nat) (w : World), (∀ j, i ≤ j → j < i + n → u32 (start + j) < B) →
    CallsBelow B w (verifyLoop dev start f n i w).world := by
  intro n
  induction n with
  | zero => intro i w _; exact CallsBelow.none_added B w
  | succ n ih =>
    intro i w hj
    have hi : u32 (start + i) < B := hj i (Nat.le_refl i) (by omega)
    simp only [verifyLoop]
    split
    · exact below_error B _ w
    · split_ifs
      · exact (below_readData B dev _ hi w).step (below_error B _ _)
      · exact (below_readData B dev _ hi w).step
          (ih (i + 1) _ (fun j h1 h2 => hj j (by omega) (by omega)))

theorem below_verifyFile (dev : Device) (start : Nat) (f : InFile) (B : Nat)
    (hj : ∀ j, j < u32 f.length → u32 (start + j) < B) (w : World) :
    CallsBelow B w (verifyFile dev start (some f) w).world := by
  simp only [verifyFile]
  split_ifs
  · exact below_error B _ w
  · exact below_verifyLoop dev start f B _ 0 w (fun j _ h2 => hj j (by omega))

theorem newCalls_below {B : Nat} {w w1 : World} (h : CallsBelow B w w1) :
    ∀ c ∈ newCalls w w1, c.addrBelow B := by
  obtain ⟨cs, e, p⟩ := h
  rw [newCalls_of_calls e]
  exact p

/-! ## The size check of `programFile` and `verifyFile` -/

set_option maxRecDepth 100000

theorem programFile_pass (dev : Device) (fuel start : Nat) (f : InFile) (w : World)
    (h : ¬ u32 f.length > 8 * 1024 * 1024) :
    programFile dev fuel start (some f) w =
      (programLoop start f (u32 f.length) 0 0xAAA
        (writeData 0xAAA 0x20 (writeData 0x555 0x55 (writeData 0xAAA 0xAA w)))).bind
        fun addr w1 => (waitReady dev fuel w1).bind fun _ w2 =>
          .ok () (writeData addr 0x00 (writeData addr 0x90 w2)) := by
  simp only [programFile]
  rw [if_neg h]

theorem verifyFile_pass (dev : Device) (start : Nat) (f : InFile) (w : World)
    (h : ¬ u32 f.length > 8 * 1024 * 1024) :
    verifyFile dev start (some f) w = verifyLoop dev start f (u32 f.length) 0 w := by
  simp only [verifyFile]
  rw [if_neg h]

/-- The size check as the code performs it, on the 32-bit variable `size`: a
file whose length reduced to 32 bits exceeds 8 MiB makes `programFile` and
`verifyFile` end through `error` with the oversize message before any bus cycle
(the only byte that can follow is the standby byte of `error` itself); a file of
exactly 0x800000 bytes passes the check and the operation proper begins. -/
theorem oversize_rejected (dev : Device) (fuel start : Nat) (f : InFile) (w : World) :
    (8 * 1024 * 1024 < u32 f.length →
        programFile dev fuel start (some f) w = .fatal .oversize (standby w) ∧
        verifyFile dev start (some f) w = .fatal .oversize (standby w) ∧
        newCalls w (standby w) = []) ∧
      (f.length = 0x800000 →
        verifyFile dev start (some f) w = verifyLoop dev start f 0x800000 0 w ∧
        programFile dev fuel start (some f) w =
          (programLoop start f 0x800000 0 0xAAA
            (writeData 0xAAA 0x20 (writeData 0x555 0x55 (writeData 0xAAA 0xAA w)))).bind
            fun addr w1 => (waitReady dev fuel w1).bind fun _ w2 =>
              .ok () (writeData addr 0x00 (writeData addr 0x90 w2))) := by
  constructor
  · intro h
    refine ⟨?_, ?_, ?_⟩
    · simp only [programFile]
      rw [if_pos h]; rfl
    · simp only [verifyFile]
      rw [if_pos h]; rfl
    · exact newCalls_of_calls (by simp)
  · intro h
    have hu : u32 f.length = 0x800000 := by rw [h]; rfl
    have hn : ¬ u32 f.length > 8 * 1024 * 1024 := by rw [hu]; decide
    rw [verifyFile_pass dev start f w hn, programFile_pass dev fuel start f w hn, hu]
    exact ⟨rfl, rfl⟩

/-- C5 (oversize rejection), the code at a failing input. A file of 2^32 bytes is
longer than 8 MiB, but `size`, an `unsigned int`, receives its length reduced
modulo 2^32, which is 0: `verifyFile` returns normally without a single read
cycle, and `programFile` performs the unlock writes, the poll and the two closing
writes instead of failing with the oversize error. -/
theorem oversize_check_wraps :
    8 * 1024 * 1024 < (2 : Nat) ^ 32 ∧
      verifyFile (fun _ => 0) 0 (some { length := 2 ^ 32, byte := fun _ => some 0 })
        World.initial = .ok () World.initial ∧
      (programFile (fun _ => 1) 1 0 (some { length := 2 ^ 32, byte := fun _ => some 0 })
        World.initial).world.calls =
        [.write 0xAAA 0xAA, .write 0x555 0x55, .write 0xAAA 0x20, .wait,
         .write 0xAAA 0x90, .write 0xAAA 0x00] := by
  refine ⟨by decide, by decide, by decide⟩

/-! ## The 8 MiB ceiling -/

/-- C6 as stated fails: with the start address `0x7FFFFF` (inside the masked
range) and a two-byte file (accepted by the size check), `programFile` passes the
address `0x800000` to `writeData` and `verifyFile` passes it to `readData`. -/
theorem ceiling_counterexample :
    (0x7FFFFF : Nat) < 2 ^ 23 ∧ (InFile.ofBytes [0x11, 0x22]).length ≤ 0x800000 ∧
      BusCall.write 0x800000 0x22 ∈
        newCalls World.initial (programFile (fun _ => 1) 1 0x7FFFFF
          (some (InFile.ofBytes [0x11, 0x22])) World.initial).world ∧
      BusCall.read 0x800000 ∈
        newCalls World.initial (verifyFile (fun _ => 0x11) 0x7FFFFF
          (some (InFile.ofBytes [0x11, 0x22])) World.initial).world ∧
      ¬ ((0x800000 : Nat) < 0x800000) := by
  refine ⟨by decide, by decide, by decide, by decide, by decide⟩

/-- C6, amended. For every start address below 2^23 and every file of at most
8 MiB, every address `programFile` passes to `writeData` and every address
`verifyFile` passes to `readData` is below 2^24, the range of the six address
nibbles; when the file ends at or below the ceiling, `start + length ≤ 0x800000`,
all of them are below 0x800000. -/
theorem file_addresses_bounded (dev : Device) (fuel start : Nat) (f : InFile) (w : World)
    (hs : start < 2 ^ 23) (hL : f.length ≤ 0x800000) :
    (∀ c ∈ newCalls w (programFile dev fuel start (some f) w).world,
        c.addrBelow (2 ^ 24)) ∧
      (∀ c ∈ newCalls w (verifyFile dev start (some f) w).world, c.addrBelow (2 ^ 24)) ∧
      (start + f.length ≤ 0x800000 →
        (∀ c ∈ newCalls w (programFile dev fuel start (some f) w).world,
          c.addrBelow 0x800000) ∧
        ∀ c ∈ newCalls w (verifyFile dev start (some f) w).world, c.addrBelow 0x800000) := by
  have hu : u32 f.length = f.length := Nat.mod_eq_of_lt (by omega)
  have h24 : ∀ j, j < u32 f.length → u32 (start + j) < 2 ^ 24 := by
    intro j hj
    rw [hu] at hj
    unfold u32
    rw [Nat.mod_eq_of_lt (by omega)]
    omega
  refine ⟨newCalls_below (below_programFile dev fuel start f _ (by decide) h24 w),
    newCalls_below (below_verifyFile dev start f _ h24 w), fun hc => ?_⟩
  have h23 : ∀ j, j < u32 f.length → u32 (start + j) < 0x800000 := by
    intro j hj
    rw [hu] at hj
    unfold u32
    rw [Nat.mod_eq_of_lt (by omega)]
    omega
  exact ⟨newCalls_below (below_programFile dev fuel start f _ (by decide) h23 w),
    newCalls_below (below_verifyFile dev start f _ h23 w)⟩

/-- Witness for C6 amended: a three-byte file at start address `0x1000`. -/
theorem file_addresses_bounded_witness :
    ((0x1000 : Nat) < 2 ^ 23 ∧ (InFile.ofBytes [1, 2, 3]).length ≤ 0x800000) ∧
      ∀ c ∈ newCalls World.initial (programFile (fun _ => 1) 1 0x1000
        (some (InFile.ofBytes [1, 2, 3])) World.initial).world, c.addrBelow (2 ^ 24) :=
  ⟨⟨by decide, by decide⟩,
    (file_addresses_bounded (fun _ => 1) 1 0x1000 (InFile.ofBytes [1, 2, 3]) World.initial
      (by decide) (by decide)).1⟩

/-! ## The bus cycles of `programFile` -/

theorem programLoop_ofBytes (start : Nat) (bs : List Nat) (addrOf : Nat → Nat)
    (hA : ∀ j, j < bs.length → u32 (start + j) = addrOf j) :
    ∀ (n i : Nat) (w : World), i + n ≤ bs.length →
    ∃ w1, programLoop start (InFile.ofBytes bs) n i
        (if i = 0 then 0xAAA else addrOf (i - 1)) w =
        .ok (if i + n = 0 then 0xAAA else addrOf (i + n - 1)) w1 ∧
      w1.calls = w.calls ++ (List.range' i n).flatMap (fun j =>
        [.write (if j = 0 then 0xAAA else addrOf (j - 1)) 0xA0,
         .write (addrOf j) (bs.getD j 0)]) ∧
      Good w w1 := by
  intro n
  induction n with
  | zero => intro i w _; exact ⟨w, rfl, by simp, Good.refl w⟩
  | succ n ih =>
    intro i w h
    have hi : i < bs.length := by omega
    have hb : (InFile.ofBytes bs).byte i = some (bs.getD i 0) := by
      simp [InFile.ofBytes, List.getElem?_eq_getElem hi]
    simp only [programLoop]
    rw [hb]
    simp only []
    rw [hA i hi]
    have ih1 := ih (i + 1)
      (writeData (addrOf i) (bs.getD i 0)
        (writeData (if i = 0 then 0xAAA else addrOf (i - 1)) 0xA0 w)) (by omega)
    simp only [Nat.add_sub_cancel, if_neg (Nat.succ_ne_zero i)] at ih1
    obtain ⟨w1, e, hc, hg⟩ := ih1
    refine ⟨w1, ?_, ?_, ?_⟩
    · rw [e]
      congr 1
      rw [show i + 1 + n = i + (n + 1) by omega]
    · rw [hc, List.range'_succ]
      simp [List.append_assoc]
    · exact ((good_writeData _ _ w).trans (good_writeData _ _ _)).trans hg

theorem programFile_ofBytes (dev : Device) (fuel start : Nat) (bs : List Nat)
    (addrOf : Nat → Nat) (w : World) (hL : bs.length ≤ 8 * 1024 * 1024)
    (hready : readyWithin dev fuel)
    (hA : ∀ j, j < bs.length → u32 (start + j) = addrOf j) :
    ∃ w1, programFile dev fuel start (some (InFile.ofBytes bs)) w = .ok () w1 ∧
      w1.calls = w.calls ++ programCycles addrOf bs := by
  have hu : u32 (InFile.ofBytes bs).length = bs.length :=
    Nat.mod_eq_of_lt (by simp only [InFile.ofBytes]; omega)
  have hn : ¬ u32 (InFile.ofBytes bs).length > 8 * 1024 * 1024 := by rw [hu]; omega
  rw [programFile_pass dev fuel start _ w hn, hu]
  obtain ⟨w1, e1, c1, -⟩ := programLoop_ofBytes start bs addrOf hA bs.length 0
    (writeData 0xAAA 0x20 (writeData 0x555 0x55 (writeData 0xAAA 0xAA w))) (by omega)
  simp only [if_pos] at e1
  rw [e1]
  simp only [Res.bind]
  obtain ⟨w2, e2, c2, -⟩ := waitReady_ok dev fuel hready w1
  rw [e2]
  simp only [Res.bind]
  refine ⟨_, rfl, ?_⟩
  simp only [writeData_calls, c2, c1, programCycles, List.range_eq_range', Nat.zero_add,
    List.append_assoc]
  by_cases h0 : bs.length = 0
  · simp [h0]
  · have hp : 0 < bs.length := Nat.pos_of_ne_zero h0
    simp [h0, hp]

theorem pairs_writes (p q r : Nat → Nat) (c : Nat) : ∀ l : List Nat,
    ((l.flatMap fun i => [BusCall.write (p i) c, BusCall.write (q i) (r i)]).filter
      BusCall.isWrite).length = 2 * l.length ∧
    (l.flatMap fun i => [BusCall.write (p i) c, BusCall.write (q i) (r i)]).count .wait = 0 := by
  intro l
  induction l with
  | nil => simp
  | cons a l ih =>
    obtain ⟨h1, h2⟩ := ih
    constructor
    · simp only [List.flatMap_cons, List.filter_append, List.length_append, h1]
      simp [BusCall.isWrite, List.filter_cons]
      omega
    · simp only [List.flatMap_cons, List.count_append, h2]
      simp [List.count_cons]

theorem programCycles_counts (addrOf : Nat → Nat) (bs : List Nat) :
    ((programCycles addrOf bs).filter BusCall.isWrite).length = 2 * bs.length + 5 ∧
      (programCycles addrOf bs).count .wait = 1 := by
  obtain ⟨h1, h2⟩ := pairs_writes (fun i => if i = 0 then 0xAAA else addrOf (i - 1)) addrOf
    (fun i => bs.getD i 0) 0xA0 (List.range bs.length)
  constructor
  · simp only [programCycles, List.filter_append, List.length_append, h1, List.length_range]
    simp [BusCall.isWrite, List.filter_cons]
    omega
  · simp only [programCycles, List.count_append, h2]
    simp [List.count_cons]

/-- C7 (the write-buffer sequence of `programFile`). For every start address,
every readable file of `L ≤ 8 MiB` bytes and every device that reports ready
within the fuel, `programFile` returns and has performed exactly the bus cycles
`programCycles`: the unlock writes `write(0xAAA,0xAA)`, `write(0x555,0x55)`,
`write(0xAAA,0x20)`; for `i = 0 .. L-1` in order `write(prev_i,0xA0)` and
`write(start+i, b_i)` with `prev_0 = 0xAAA`, `prev_i = start+i-1`; one
`waitReady`; `write(last,0x90)`, `write(last,0x00)`. The sum `start + i` is the
code's `unsigned int` sum; it is the plain sum whenever `start + L ≤ 2^32`, so for
every start address of 24 bits. There are `2L + 5` write cycles and one poll. -/
theorem programFile_sequence (dev : Device) (fuel start : Nat) (bs : List Nat) (w : World)
    (hL : bs.length ≤ 8 * 1024 * 1024) (hready : readyWithin dev fuel) :
    ∃ w1, programFile dev fuel start (some (InFile.ofBytes bs)) w = .ok () w1 ∧
      newCalls w w1 = programCycles (fun i => u32 (start + i)) bs ∧
      (start + bs.length ≤ 2 ^ 32 → newCalls w w1 = programCycles (fun i => start + i) bs) ∧
      ((newCalls w w1).filter BusCall.isWrite).length = 2 * bs.length + 5 ∧
      (newCalls w w1).count .wait = 1 := by
  obtain ⟨w1, e, c⟩ := programFile_ofBytes dev fuel start bs (fun i => u32 (start + i)) w hL
    hready (fun _ _ => rfl)
  have hc := newCalls_of_calls c
  refine ⟨w1, e, hc, ?_, ?_, ?_⟩
  · intro hs
    obtain ⟨w2, e2, c2⟩ := programFile_ofBytes dev fuel start bs (fun i => start + i) w hL
      hready (fun j hj => Nat.mod_eq_of_lt (by omega))
    rw [e] at e2
    simp only [Res.ok.injEq, true_and] at e2
    rw [e2]
    exact newCalls_of_calls c2
  · rw [hc]; exact (programCycles_counts _ bs).1
  · rw [hc]; exact (programCycles_counts _ bs).2

/-- Witness for C7: the file `[1, 2, 3]` at start address `0x10`, with a device
that is ready at the first poll. -/
theorem programFile_sequence_witness :
    ([1, 2, 3].length ≤ 8 * 1024 * 1024 ∧ readyWithin (fun _ => 1) 1) ∧
      ∃ w1, programFile (fun _ => 1) 1 0x10 (some (InFile.ofBytes [1, 2, 3]))
          World.initial = .ok () w1 ∧
        newCalls World.initial w1 = programCycles (fun i => u32 (0x10 + i)) [1, 2, 3] :=
  have hr : readyWithin (fun _ => 1) 1 :=
    fun _ => ⟨0, by decide, (by decide : (1 % 256 &&& 0x01 : Nat) ≠ 0)⟩
  ⟨⟨by decide, hr⟩,
    (programFile_sequence (fun _ => 1) 1 0x10 [1, 2, 3] World.initial (by decide) hr).imp
      fun _ h => ⟨h.1, h.2.1⟩⟩

/-! ## Reading from a chip memory -/

theorem setCtrl_addr (c : Nat) (w : World) : (setCtrl c w).mirror.addr = w.mirror.addr := by
  rw [setCtrl_mirror]
  rfl

theorem readData_rom (l0 : Mirror) (M : Nat → Nat) (rdy : List Nat → Nat) (a : Nat)
    (w : World) (h : consistent l0 w) :
    (readData (romDevice l0 M rdy) a w).1 = M (a % 2 ^ 24) % 256 ∧
      consistent l0 (readData (romDevice l0 M rdy) a w).2 := by
  refine ⟨?_, (good_readData _ a w).2 l0 h⟩
  have hW : consistent l0 (setCtrl 0x03 (setAddr a (logCall (.read a) w))) :=
    (((good_logCall _ w).trans (good_setAddr a _)).trans (good_setCtrl 0x03 _)).2 l0 h
  have hA : (setCtrl 0x03 (setAddr a (logCall (.read a) w))).mirror.addr = a % 2 ^ 24 := by
    rw [setCtrl_addr, setAddr_addr]
  show (getData (romDevice l0 M rdy) (setCtrl 0x03 (setAddr a (logCall (.read a) w)))).1 = _
  generalize setCtrl 0x03 (setAddr a (logCall (.read a) w)) = W at hW hA
  unfold consistent at hW
  simp only [getData, recvByte, sendByte_sent, romDevice, List.getLast?_concat]
  rw [if_neg (by decide), replay_append, ← hW]
  show M (latchStep W.mirror 0x90).addr % 256 = _
  rw [show latchStep W.mirror 0x90 = W.mirror from rfl, hA]

/-! ## `verifyFile` against a chip memory -/

theorem verifyLoop_step (l0 : Mirror) (M : Nat → Nat) (rdy : List Nat → Nat)
    (start : Nat) (bs : List Nat) (hM : ∀ a, M a < 256) (hsum : start + bs.length ≤ 2 ^ 24)
    (n i : Nat) (w : World) (hc : consistent l0 w) (hi : i < bs.length) :
    verifyLoop (romDevice l0 M rdy) start (InFile.ofBytes bs) (n + 1) i w =
      (if bs.getD i 0 ≠ M (start + i) then
        error (.mismatch (start + i) (bs.getD i 0) (M (start + i)))
          (readData (romDevice l0 M rdy) (start + i) w).2
      else verifyLoop (romDevice l0 M rdy) start (InFile.ofBytes bs) n (i + 1)
          (readData (romDevice l0 M rdy) (start + i) w).2) := by
  have hb : (InFile.ofBytes bs).byte i = some (bs.getD i 0) := by
    simp [InFile.ofBytes, List.getElem?_eq_getElem hi]
  have ha : u32 (start + i) = start + i := Nat.mod_eq_of_lt (by omega)
  have hv : (readData (romDevice l0 M rdy) (start + i) w).1 = M (start + i) := by
    rw [(readData_rom l0 M rdy (start + i) w hc).1, Nat.mod_eq_of_lt (hM _),
      Nat.mod_eq_of_lt (show start + i < 2 ^ 24 by omega)]
  simp only [verifyLoop]
  rw [hb]
  simp only []
  rw [ha, hv]

theorem verifyLoop_match (l0 : Mirror) (M : Nat → Nat) (rdy : List Nat → Nat)
    (start : Nat) (bs : List Nat) (hM : ∀ a, M a < 256) (hsum : start + bs.length ≤ 2 ^ 24) :
    ∀ (n i : Nat) (w : World), consistent l0 w → i + n ≤ bs.length →
    (∀ j, i ≤ j → j < i + n → M (start + j) = bs.getD j 0) →
    ∃ w1, verifyLoop (romDevice l0 M rdy) start (InFile.ofBytes bs) n i w = .ok () w1 ∧
      w1.calls = w.calls ++ (List.range' i n).map (fun j => BusCall.read (start + j)) ∧
      consistent l0 w1 := by
  intro n
  induction n with
  | zero => intro i w hc _ _; exact ⟨w, rfl, by simp, hc⟩
  | succ n ih =>
    intro i w hc hn hm
    rw [verifyLoop_step l0 M rdy start bs hM hsum n i w hc (by omega)]
    rw [if_neg (by rw [hm i (Nat.le_refl i) (by omega)]; simp)]
    obtain ⟨w1, e, c, k⟩ := ih (i + 1) _ (readData_rom l0 M rdy (start + i) w hc).2
      (by omega) (fun j h1 h2 => hm j (by omega) (by omega))
    refine ⟨w1, e, ?_, k⟩
    rw [c, readData_calls, List.range'_succ]
    simp

theorem verifyLoop_mismatch (l0 : Mirror) (M : Nat → Nat) (rdy : List Nat → Nat)
    (start : Nat) (bs : List Nat) (hM : ∀ a, M a < 256) (hsum : start + bs.length ≤ 2 ^ 24) :
    ∀ (n i : Nat) (w : World), consistent l0 w → i + n ≤ bs.length →
    ∀ k, i ≤ k → k < i + n → (∀ j, i ≤ j → j < k → M (start + j) = bs.getD j 0) →
    M (start + k) ≠ bs.getD k 0 →
    ∃ w1, verifyLoop (romDevice l0 M rdy) start (InFile.ofBytes bs) n i w =
        .fatal (.mismatch (start + k) (bs.getD k 0) (M (start + k))) w1 ∧
      w1.calls = w.calls ++
        (List.range' i (k + 1 - i)).map (fun j => BusCall.read (start + j)) := by
  intro n
  induction n with
  | zero => intro i w _ _ k h1 h2; omega
  | succ n ih =>
    intro i w hc hn k h1 h2 hm hk
    rw [verifyLoop_step l0 M rdy start bs hM hsum n i w hc (by omega)]
    by_cases hik : k = i
    · subst hik
      rw [if_pos (fun h => hk h.symm)]
      refine ⟨_, rfl, ?_⟩
      rw [standby_calls, readData_calls, show k + 1 - k = 1 by omega]
      rfl
    · rw [if_neg (by rw [hm i (Nat.le_refl i) (by omega)]; simp)]
      obtain ⟨w1, e, c⟩ := ih (i + 1) _ (readData_rom l0 M rdy (start + i) w hc).2
        (by omega) k (by omega) (by omega) (fun j h3 h4 => hm j (by omega) h4) hk
      refine ⟨w1, e, ?_⟩
      rw [c, readData_calls, show k + 1 - i = (k + 1 - (i + 1)) + 1 by omega,
        List.range'_succ]
      simp

/-- C8 (first mismatch of `verifyFile`). The chip is a memory `M` of bytes that
answers each data request with `M` at the latched address, and the mirror agrees
with the latches when `verifyFile` starts (as it does after `initBoard`). For a
file `b_0 .. b_{L-1}` with `L ≤ 8 MiB` and `start + L ≤ 2^24`: `verifyFile` returns
normally iff `M (start + i) = b_i` for all `i < L`, having read exactly
`start .. start+L-1` in ascending order; and if `i` is the least index with
`M (start + i) ≠ b_i` it ends through `error` reporting the address `start + i`,
the file value `b_i` and the ROM value `M (start + i)`, having read exactly the
addresses `start .. start+i` in ascending order. -/
theorem verifyFile_first_mismatch (l0 : Mirror) (M : Nat → Nat) (rdy : List Nat → Nat)
    (start : Nat) (bs : List Nat) (w : World) (hM : ∀ a, M a < 256)
    (hL : bs.length ≤ 8 * 1024 * 1024) (hsum : start + bs.length ≤ 2 ^ 24)
    (hc : consistent l0 w) :
    ((∃ w1, verifyFile (romDevice l0 M rdy) start (some (InFile.ofBytes bs)) w = .ok () w1) ↔
        ∀ i, i < bs.length → M (start + i) = bs.getD i 0) ∧
      (∀ w1, verifyFile (romDevice l0 M rdy) start (some (InFile.ofBytes bs)) w = .ok () w1 →
        newCalls w w1 = (List.range bs.length).map (fun j => BusCall.read (start + j))) ∧
      ∀ i, i < bs.length → (∀ j, j < i → M (start + j) = bs.getD j 0) →
        M (start + i) ≠ bs.getD i 0 →
        ∃ w1, verifyFile (romDevice l0 M rdy) start (some (InFile.ofBytes bs)) w =
            .fatal (.mismatch (start + i) (bs.getD i 0) (M (start + i))) w1 ∧
          newCalls w w1 = (List.range (i + 1)).map (fun j => BusCall.read (start + j)) := by
  have hu : u32 (InFile.ofBytes bs).length = bs.length :=
    Nat.mod_eq_of_lt (by simp only [InFile.ofBytes]; omega)
  have hn : ¬ u32 (InFile.ofBytes bs).length > 8 * 1024 * 1024 := by rw [hu]; omega
  rw [verifyFile_pass _ start _ w hn, hu]
  have hbad : ∀ i, i < bs.length → (∀ j, j < i → M (start + j) = bs.getD j 0) →
      M (start + i) ≠ bs.getD i 0 →
      ∃ w1, verifyLoop (romDevice l0 M rdy) start (InFile.ofBytes bs) bs.length 0 w =
          .fatal (.mismatch (start + i) (bs.getD i 0) (M (start + i))) w1 ∧
        newCalls w w1 = (List.range (i + 1)).map (fun j => BusCall.read (start + j)) := by
    intro i hi hm hk
    obtain ⟨w1, e, c⟩ := verifyLoop_mismatch l0 M rdy start bs hM hsum bs.length 0 w hc
      (by omega) i (Nat.zero_le i) (by omega) (fun j _ h => hm j h) hk
    exact ⟨w1, e, by rw [newCalls_of_calls c, List.range_eq_range']; rfl⟩
  have hgood : (∀ i, i < bs.length → M (start + i) = bs.getD i 0) →
      ∃ w1, verifyLoop (romDevice l0 M rdy) start (InFile.ofBytes bs) bs.length 0 w =
          .ok () w1 ∧
        newCalls w w1 = (List.range bs.length).map (fun j => BusCall.read (start + j)) := by
    intro hm
    obtain ⟨w1, e, c, -⟩ := verifyLoop_match l0 M rdy start bs hM hsum bs.length 0 w hc
      (by omega) (fun j _ h => hm j (by omega))
    exact ⟨w1, e, by rw [newCalls_of_calls c, List.range_eq_range']⟩
  have hall : (∃ w1, verifyLoop (romDevice l0 M rdy) start (InFile.ofBytes bs) bs.length 0 w =
      .ok () w1) → ∀ i, i < bs.length → M (start + i) = bs.getD i 0 := by
    intro ⟨w1, e⟩
    by_contra hne
    have hex : ∃ i, i < bs.length ∧ M (start + i) ≠ bs.getD i 0 := by
      simpa [not_forall] using hne
    obtain ⟨w2, e2, -⟩ := hbad (Nat.find hex) (Nat.find_spec hex).1
      (fun j hj => by
        have h := Nat.find_min hex hj
        have hjl : j < bs.length := Nat.lt_trans hj (Nat.find_spec hex).1
        by_contra hc2
        exact h ⟨hjl, hc2⟩)
      (Nat.find_spec hex).2
    rw [e] at e2
    cases e2
  refine ⟨⟨hall, fun hm => (hgood hm).imp fun _ h => h.1⟩, ?_, hbad⟩
  intro w1 e
  obtain ⟨w2, e2, c2⟩ := hgood (hall ⟨w1, e⟩)
  rw [e] at e2
  simp only [Res.ok.injEq, true_and] at e2
  rw [e2]; exact c2

/-- Witness for C8: a memory of `0xFF` bytes against the file `[0xFF, 0x12]` at
start address `0x1000`; the first mismatch is at index 1. -/
theorem verifyFile_first_mismatch_witness :
    ((∀ a : Nat, (fun _ => 0xFF : Nat → Nat) a < 256) ∧
        [0xFF, 0x12].length ≤ 8 * 1024 * 1024 ∧ 0x1000 + [0xFF, 0x12].length ≤ 2 ^ 24 ∧
        consistent Mirror.initial World.initial) ∧
      ∃ w1, verifyFile (romDevice Mirror.initial (fun _ => 0xFF) (fun _ => 1)) 0x1000
          (some (InFile.ofBytes [0xFF, 0x12])) World.initial =
            .fatal (.mismatch 0x1001 0x12 0xFF) w1 ∧
        newCalls World.initial w1 = [.read 0x1000, .read 0x1001] :=
  ⟨⟨fun _ => (by decide : (0xFF : Nat) < 256), by decide, by decide, rfl⟩,
    (verifyFile_first_mismatch Mirror.initial (fun _ => 0xFF) (fun _ => 1) 0x1000
      [0xFF, 0x12] World.initial (fun _ => (by decide : (0xFF : Nat) < 256)) (by decide)
      (by decide) rfl).2.2 1
      (by decide) (by decide) (by decide)⟩

/-! ## The empty check against a chip memory -/

theorem checkLoop_step (l0 : Mirror) (M : Nat → Nat) (rdy : List Nat → Nat)
    (shift sector : Nat) (hM : ∀ a, M a < 256) (n i : Nat) (w : World)
    (hc : consistent l0 w) (hi : sector <<< shift + i < 2 ^ 24) :
    checkLoop (romDevice l0 M rdy) shift sector (n + 1) i w =
      (if M (sector <<< shift + i) ≠ 0xFF then
        error (.notEmpty (sector <<< shift + i) (M (sector <<< shift + i)))
          (readData (romDevice l0 M rdy) (sector <<< shift + i) w).2
      else checkLoop (romDevice l0 M rdy) shift sector n (i + 1)
          (readData (romDevice l0 M rdy) (sector <<< shift + i) w).2) := by
  have ha : u32 (u32 (sector <<< shift) + i) = sector <<< shift + i := by
    unfold u32
    rw [Nat.mod_eq_of_lt (show sector <<< shift < 2 ^ 32 by omega),
      Nat.mod_eq_of_lt (show sector <<< shift + i < 2 ^ 32 by omega)]
  have hv : (readData (romDevice l0 M rdy) (sector <<< shift + i) w).1 =
      M (sector <<< shift + i) := by
    rw [(readData_rom l0 M rdy _ w hc).1, Nat.mod_eq_of_lt (hM _), Nat.mod_eq_of_lt hi]
  simp only [checkLoop]
  rw [ha, hv]

theorem checkLoop_empty (l0 : Mirror) (M : Nat → Nat) (rdy : List Nat → Nat)
    (shift sector N : Nat) (hM : ∀ a, M a < 256) (hN : sector <<< shift + N ≤ 2 ^ 24) :
    ∀ (n i : Nat) (w : World), consistent l0 w → i + n ≤ N →
    (∀ j, i ≤ j → j < i + n → M (sector <<< shift + j) = 0xFF) →
    ∃ w1, checkLoop (romDevice l0 M rdy) shift sector n i w = .ok () w1 ∧
      w1.calls = w.calls ++ (List.range' (sector <<< shift + i) n).map BusCall.read := by
  intro n
  induction n with
  | zero => intro i w _ _ _; exact ⟨w, rfl, by simp⟩
  | succ n ih =>
    intro i w hc hn hm
    rw [checkLoop_step l0 M rdy shift sector hM n i w hc (by omega)]
    rw [if_neg (by rw [hm i (Nat.le_refl i) (by omega)]; simp)]
    obtain ⟨w1, e, c⟩ := ih (i + 1) _ (readData_rom l0 M rdy _ w hc).2
      (by omega) (fun j h1 h2 => hm j (by omega) (by omega))
    refine ⟨w1, e, ?_⟩
    rw [c, readData_calls, List.range'_succ]
    simp [Nat.add_assoc]

theorem checkLoop_first (l0 : Mirror) (M : Nat → Nat) (rdy : List Nat → Nat)
    (shift sector N : Nat) (hM : ∀ a, M a < 256) (hN : sector <<< shift + N ≤ 2 ^ 24) :
    ∀ (n i : Nat) (w : World), consistent l0 w → i + n ≤ N →
    ∀ k, i ≤ k → k < i + n → (∀ j, i ≤ j → j < k → M (sector <<< shift + j) = 0xFF) →
    M (sector <<< shift + k) ≠ 0xFF →
    ∃ w1, checkLoop (romDevice l0 M rdy) shift sector n i w =
        .fatal (.notEmpty (sector <<< shift + k) (M (sector <<< shift + k))) w1 ∧
      w1.calls = w.calls ++
        (List.range' (sector <<< shift + i) (k + 1 - i)).map BusCall.read := by
  intro n
  induction n with
  | zero => intro i w _ _ k h1 h2; omega
  | succ n ih =>
    intro i w hc hn k h1 h2 hm hk
    rw [checkLoop_step l0 M rdy shift sector hM n i w hc (by omega)]
    by_cases hik : k = i
    · subst hik
      rw [if_pos hk]
      refine ⟨_, rfl, ?_⟩
      rw [standby_calls, readData_calls, show k + 1 - k = 1 by omega]
      rfl
    · rw [if_neg (by rw [hm i (Nat.le_refl i) (by omega)]; simp)]
      obtain ⟨w1, e, c⟩ := ih (i + 1) _ (readData_rom l0 M rdy _ w hc).2
        (by omega) k (by omega) (by omega) (fun j h3 h4 => hm j (by omega) h4) hk
      refine ⟨w1, e, ?_⟩
      rw [c, readData_calls, show k + 1 - i = (k + 1 - (i + 1)) + 1 by omega,
        List.range'_succ]
      simp [Nat.add_assoc]

theorem check_spec (l0 : Mirror) (M : Nat → Nat) (rdy : List Nat → Nat)
    (shift sector N : Nat) (w : World) (hM : ∀ a, M a < 256)
    (hN : sector <<< shift + N ≤ 2 ^ 24) (hc : consistent l0 w) :
    ((∃ w1, checkLoop (romDevice l0 M rdy) shift sector N 0 w = .ok () w1) ↔
        ∀ a, sector <<< shift ≤ a → a < sector <<< shift + N → M a = 0xFF) ∧
      ∀ a, sector <<< shift ≤ a → a < sector <<< shift + N →
        (∀ a1, sector <<< shift ≤ a1 → a1 < a → M a1 = 0xFF) → M a ≠ 0xFF →
        ∃ w1, checkLoop (romDevice l0 M rdy) shift sector N 0 w =
            .fatal (.notEmpty a (M a)) w1 ∧
          newCalls w w1 =
            (List.range' (sector <<< shift) (a + 1 - sector <<< shift)).map BusCall.read := by
  have hbad : ∀ a, sector <<< shift ≤ a → a < sector <<< shift + N →
      (∀ a1, sector <<< shift ≤ a1 → a1 < a → M a1 = 0xFF) → M a ≠ 0xFF →
      ∃ w1, checkLoop (romDevice l0 M rdy) shift sector N 0 w =
          .fatal (.notEmpty a (M a)) w1 ∧
        newCalls w w1 =
          (List.range' (sector <<< shift) (a + 1 - sector <<< shift)).map BusCall.read := by
    intro a h1 h2 hm hk
    obtain ⟨k, rfl⟩ : ∃ k, a = sector <<< shift + k := ⟨a - sector <<< shift, by omega⟩
    obtain ⟨w1, e, c⟩ := checkLoop_first l0 M rdy shift sector N hM hN N 0 w hc (by omega) k
      (Nat.zero_le k) (by omega) (fun j _ h => hm _ (by omega) (by omega)) hk
    refine ⟨w1, e, ?_⟩
    rw [newCalls_of_calls c, Nat.add_zero, Nat.sub_zero,
      show sector <<< shift + k + 1 - sector <<< shift = k + 1 by omega]
  have hgood : (∀ a, sector <<< shift ≤ a → a < sector <<< shift + N → M a = 0xFF) →
      ∃ w1, checkLoop (romDevice l0 M rdy) shift sector N 0 w = .ok () w1 := by
    intro hm
    obtain ⟨w1, e, -⟩ := checkLoop_empty l0 M rdy shift sector N hM hN N 0 w hc (by omega)
      (fun j _ h => hm _ (by omega) (by omega))
    exact ⟨w1, e⟩
  refine ⟨⟨?_, hgood⟩, hbad⟩
  intro ⟨w1, e⟩
  by_contra hne
  have hex : ∃ a, sector <<< shift ≤ a ∧ a < sector <<< shift + N ∧ M a ≠ 0xFF := by
    simpa [not_forall] using hne
  obtain ⟨w2, e2, -⟩ := hbad (Nat.find hex) (Nat.find_spec hex).1 (Nat.find_spec hex).2.1
    (fun a1 h1 h2 => by
      have h := Nat.find_min hex h2
      have hl : a1 < sector <<< shift + N := Nat.lt_trans h2 (Nat.find_spec hex).2.1
      by_contra hc2
      exact h ⟨h1, hl, hc2⟩)
    (Nat.find_spec hex).2.2
  rw [e] at e2
  cases e2

theorem check_range (l0 : Mirror) (M : Nat → Nat) (rdy : List Nat → Nat)
    (shift sector N : Nat) (w : World) (hM : ∀ a, M a < 256)
    (hN : sector <<< shift + (N + 1) ≤ 2 ^ 24) (hc : consistent l0 w) :
    ((∃ w1, checkLoop (romDevice l0 M rdy) shift sector (N + 1) 0 w = .ok () w1) ↔
        ∀ a, sector <<< shift ≤ a → a ≤ sector <<< shift + N → M a = 0xFF) ∧
      ∀ a, sector <<< shift ≤ a → a ≤ sector <<< shift + N →
        (∀ a1, sector <<< shift ≤ a1 → a1 < a → M a1 = 0xFF) → M a ≠ 0xFF →
        ∃ w1, checkLoop (romDevice l0 M rdy) shift sector (N + 1) 0 w =
            .fatal (.notEmpty a (M a)) w1 ∧
          newCalls w w1 =
            (List.range' (sector <<< shift) (a + 1 - sector <<< shift)).map BusCall.read ∧
          ∀ a2, BusCall.read a2 ∈ newCalls w w1 → a2 ≤ a := by
  obtain ⟨h1, h2⟩ := check_spec l0 M rdy shift sector (N + 1) w hM hN hc
  refine ⟨?_, ?_⟩
  · rw [h1]
    exact ⟨fun h a ha hb => h a ha (by omega), fun h a ha hb => h a ha (by omega)⟩
  · intro a ha hb hm hk
    obtain ⟨w1, e, c⟩ := h2 a ha (by omega) hm hk
    refine ⟨w1, e, c, ?_⟩
    intro a2 hmem
    rw [c, List.mem_map] at hmem
    obtain ⟨x, hx, hxe⟩ := hmem
    rw [List.mem_range'_1] at hx
    cases hxe
    omega

/-- C9 (empty check). The chip is a memory `M` of bytes that answers each data
request with `M` at the latched address, and the mirror agrees with the latches
at the start. For every sector `n ≤ 127`, `checkSector n` returns normally iff
`M a = 0xFF` for every `a` in `[n<<16, (n<<16)+0xFFFF]`; and when `a` is the lowest
address of that range with `M a ≠ 0xFF`, it ends through `error` reporting the
address `a` and the value `M a`, having read exactly `n<<16 .. a` in ascending
order, so no address above `a`. The same holds for `checkBootSector n`, `n ≤ 7`,
over `[n<<13, (n<<13)+0x1FFF]`. -/
theorem check_empty (l0 : Mirror) (M : Nat → Nat) (rdy : List Nat → Nat) (w : World)
    (hM : ∀ a, M a < 256) (hc : consistent l0 w) :
    (∀ n, n ≤ 127 →
      ((∃ w1, checkSector (romDevice l0 M rdy) n w = .ok () w1) ↔
          ∀ a, n <<< 16 ≤ a → a ≤ n <<< 16 + 0xFFFF → M a = 0xFF) ∧
        ∀ a, n <<< 16 ≤ a → a ≤ n <<< 16 + 0xFFFF →
          (∀ a1, n <<< 16 ≤ a1 → a1 < a → M a1 = 0xFF) → M a ≠ 0xFF →
          ∃ w1, checkSector (romDevice l0 M rdy) n w = .fatal (.notEmpty a (M a)) w1 ∧
            newCalls w w1 = (List.range' (n <<< 16) (a + 1 - n <<< 16)).map BusCall.read ∧
            ∀ a2, BusCall.read a2 ∈ newCalls w w1 → a2 ≤ a) ∧
      ∀ n, n ≤ 7 →
        ((∃ w1, checkBootSector (romDevice l0 M rdy) n w = .ok () w1) ↔
            ∀ a, n <<< 13 ≤ a → a ≤ n <<< 13 + 0x1FFF → M a = 0xFF) ∧
          ∀ a, n <<< 13 ≤ a → a ≤ n <<< 13 + 0x1FFF →
            (∀ a1, n <<< 13 ≤ a1 → a1 < a → M a1 = 0xFF) → M a ≠ 0xFF →
            ∃ w1, checkBootSector (romDevice l0 M rdy) n w =
                .fatal (.notEmpty a (M a)) w1 ∧
              newCalls w w1 =
                (List.range' (n <<< 13) (a + 1 - n <<< 13)).map BusCall.read ∧
              ∀ a2, BusCall.read a2 ∈ newCalls w w1 → a2 ≤ a := by
  constructor
  · intro n hn
    have hN : n <<< 16 + (0xFFFF + 1) ≤ 2 ^ 24 := by
      rw [Nat.shiftLeft_eq]; omega
    exact check_range l0 M rdy 16 n 0xFFFF w hM hN hc
  · intro n hn
    have hN : n <<< 13 + (0x1FFF + 1) ≤ 2 ^ 24 := by
      rw [Nat.shiftLeft_eq]; omega
    exact check_range l0 M rdy 13 n 0x1FFF w hM hN hc

/-- Witness for C9: sector 3 of a memory that holds `0xFF` everywhere is found
empty. -/
theorem check_empty_witness :
    ((∀ a : Nat, (fun _ => 0xFF : Nat → Nat) a < 256) ∧
        consistent Mirror.initial World.initial) ∧
      ∃ w1, checkSector (romDevice Mirror.initial (fun _ => 0xFF) (fun _ => 1)) 3
        World.initial = .ok () w1 :=
  ⟨⟨fun _ => (by decide : (0xFF : Nat) < 256), rfl⟩,
    (((check_empty Mirror.initial (fun _ => 0xFF) (fun _ => 1) World.initial
      (fun _ => (by decide : (0xFF : Nat) < 256)) rfl).1 3 (by decide)).1).mpr
      (fun _ _ _ => rfl)⟩

/-! ## Programming, then verifying -/

theorem Chip.run_append (c : Chip) (xs ys : List BusCall) :
    c.run (xs ++ ys) = (c.run xs).run ys := by
  simp [Chip.run, List.foldl_append]

theorem Chip.run_pairs (p q b : Nat → Nat) : ∀ (l : List Nat) (c : Chip), c.armed = false →
    (c.run (l.flatMap fun i => [BusCall.write (p i) 0xA0, BusCall.write (q i) (b i)])).armed =
        false ∧
      (c.run (l.flatMap fun i => [BusCall.write (p i) 0xA0, BusCall.write (q i) (b i)])).stored =
        c.stored ++ l.map (fun i => (q i, b i)) ∧
      (c.run (l.flatMap fun i => [BusCall.write (p i) 0xA0, BusCall.write (q i) (b i)])).mem =
        l.foldl (fun m i => fun x => if x = q i then b i else m x) c.mem := by
  intro l
  induction l with
  | nil => intro c hc; simp [Chip.run, hc]
  | cons i l ih =>
    intro c hc
    have h1 : c.run ((i :: l).flatMap fun i =>
        [BusCall.write (p i) 0xA0, BusCall.write (q i) (b i)]) =
        Chip.run
          { mem := (fun x => if x = q i then b i else c.mem x)
            armed := false
            stored := c.stored ++ [(q i, b i)] }
          (l.flatMap fun i => [BusCall.write (p i) 0xA0, BusCall.write (q i) (b i)]) := by
      simp [Chip.run, Chip.cycle, hc]
    rw [h1]
    obtain ⟨a1, a2, a3⟩ := ih
      { mem := (fun x => if x = q i then b i else c.mem x)
        armed := false
        stored := c.stored ++ [(q i, b i)] } rfl
    exact ⟨a1, by rw [a2]; simp, by rw [a3]; rfl⟩

theorem foldl_store_range (q b : Nat → Nat) (hq : ∀ i j, q i = q j → i = j) (m : Nat → Nat) :
    ∀ n k, ((List.range n).foldl (fun m i => fun x => if x = q i then b i else m x) m) (q k) =
      if k < n then b k else m (q k) := by
  intro n
  induction n with
  | zero => intro k; simp
  | succ n ih =>
    intro k
    rw [List.range_succ, List.foldl_append]
    simp only [List.foldl_cons, List.foldl_nil]
    by_cases hk : k = n
    · subst hk; simp
    · have hne : q k ≠ q n := fun h => hk (hq k n h)
      rw [if_neg hne, ih k]
      by_cases h1 : k < n
      · rw [if_pos h1, if_pos (by omega)]
      · rw [if_neg h1, if_neg (by omega)]

theorem foldl_store_lt (q b : Nat → Nat) (hb : ∀ i, b i < 256) :
    ∀ (l : List Nat) (m : Nat → Nat), (∀ x, m x < 256) →
    ∀ x, (l.foldl (fun m i => fun x => if x = q i then b i else m x) m) x < 256 := by
  intro l
  induction l with
  | nil => intro m hm x; exact hm x
  | cons i l ih =>
    intro m hm x
    simp only [List.foldl_cons]
    apply ih
    intro y
    split_ifs
    · exact hb i
    · exact hm y

theorem getD_lt (bs : List Nat) (hb : ∀ b ∈ bs, b < 256) (i : Nat) : bs.getD i 0 < 256 := by
  rw [List.getD_eq_getElem?_getD]
  by_cases h : i < bs.length
  · rw [List.getElem?_eq_getElem h]
    exact hb _ (List.getElem_mem h)
  · rw [List.getElem?_eq_none (by omega)]
    decide

theorem Chip.run_programCycles (M0 : Nat → Nat) (addrOf : Nat → Nat) (bs : List Nat) :
    (Chip.run { mem := M0, armed := false, stored := [] } (programCycles addrOf bs)).stored =
        (List.range bs.length).map (fun i => (addrOf i, bs.getD i 0)) ∧
      (Chip.run { mem := M0, armed := false, stored := [] } (programCycles addrOf bs)).mem =
        (List.range bs.length).foldl
          (fun m i => fun x => if x = addrOf i then bs.getD i 0 else m x) M0 := by
  have h0 : Chip.run { mem := M0, armed := false, stored := [] }
      [.write 0xAAA 0xAA, .write 0x555 0x55, .write 0xAAA 0x20] =
      { mem := M0, armed := false, stored := [] } := by
    simp [Chip.run, Chip.cycle]
  obtain ⟨a1, a2, a3⟩ := Chip.run_pairs (fun i => if i = 0 then 0xAAA else addrOf (i - 1))
    addrOf (fun i => bs.getD i 0) (List.range bs.length)
    { mem := M0, armed := false, stored := [] } rfl
  unfold programCycles
  rw [Chip.run_append, Chip.run_append, h0]
  generalize Chip.run { mem := M0, armed := false, stored := [] }
    ((List.range bs.length).flatMap fun i =>
      [BusCall.write (if i = 0 then 0xAAA else addrOf (i - 1)) 0xA0,
       BusCall.write (addrOf i) (bs.getD i 0)]) = c at a1 a2 a3
  have ht : ∀ x y, Chip.run c [.wait, .write x 0x90, .write y 0x00] =
      { c with armed := false } := by
    intro x y
    simp [Chip.run, Chip.cycle, a1]
  rw [ht]
  exact ⟨by rw [a2]; simp, a3⟩

theorem readAddrs_reads (f : Nat → Nat) (l : List Nat) :
    readAddrs (l.map fun i => BusCall.read (f i)) = l.map f := by
  induction l with
  | nil => rfl
  | cons a l ih =>
    simp only [readAddrs, List.map_cons, List.filterMap_cons] at ih ⊢
    rw [ih]

theorem zip_range_getD (f : Nat → Nat) (bs : List Nat) :
    List.zip ((List.range bs.length).map f) bs =
      (List.range bs.length).map (fun i => (f i, bs.getD i 0)) := by
  apply List.ext_getElem
  · simp
  · intro i h1 h2
    have hi : i < bs.length := by simpa using h2
    simp [List.getElem?_eq_getElem hi]

/-- C10 (program/verify round trip). On a board whose chip holds the bytes `M0`,
let `programFile(A, F)` run for a readable file `F` of bytes with `A + L ≤ 2^23`
(so `L ≤ 8 MiB`), the device reporting ready within the fuel; feed its bus cycles
to the idealised chip, whose data writes store their byte. Then `programFile`
returns, `verifyFile(A, F)` run next against the resulting chip memory returns
normally (no mismatch), the chip holds `b_i` at `A + i`, its data writes are the
pairs `(A + i, b_i)` in file order, and these are exactly the pairs of read
address and file byte that `verifyFile` compares, in the same order. -/
theorem program_verify_round_trip (l0 : Mirror) (M0 : Nat → Nat) (rdy : List Nat → Nat)
    (fuel A : Nat) (bs : List Nat) (w : World) (hM : ∀ a, M0 a < 256)
    (hb : ∀ b ∈ bs, b < 256) (hsum : A + bs.length ≤ 2 ^ 23)
    (hready : readyWithin (romDevice l0 M0 rdy) fuel) (hc : consistent l0 w) :
    ∃ w1 w2,
      programFile (romDevice l0 M0 rdy) fuel A (some (InFile.ofBytes bs)) w = .ok () w1 ∧
      verifyFile
        (romDevice l0 (Chip.run { mem := M0, armed := false, stored := [] }
          (newCalls w w1)).mem rdy)
        A (some (InFile.ofBytes bs)) w1 = .ok () w2 ∧
      (∀ i, i < bs.length →
        (Chip.run { mem := M0, armed := false, stored := [] } (newCalls w w1)).mem (A + i) =
          bs.getD i 0) ∧
      (Chip.run { mem := M0, armed := false, stored := [] } (newCalls w w1)).stored =
        (List.range bs.length).map (fun i => (A + i, bs.getD i 0)) ∧
      List.zip (readAddrs (newCalls w1 w2)) bs =
        (Chip.run { mem := M0, armed := false, stored := [] } (newCalls w w1)).stored := by
  have hL : bs.length ≤ 8 * 1024 * 1024 := by omega
  obtain ⟨w1, e1, c1⟩ := programFile_ofBytes (romDevice l0 M0 rdy) fuel A bs
    (fun i => A + i) w hL hready (fun j hj => Nat.mod_eq_of_lt (by omega))
  have hc1 : consistent l0 w1 := by
    have h := (good_programFile (romDevice l0 M0 rdy) fuel A (some (InFile.ofBytes bs)) w).2
      l0 hc
    rw [e1] at h
    exact h
  have hnc := newCalls_of_calls c1
  obtain ⟨s1, s2⟩ := Chip.run_programCycles M0 (fun i => A + i) bs
  rw [← hnc] at s1 s2
  refine ⟨w1, ?_⟩
  generalize Chip.run { mem := M0, armed := false, stored := [] } (newCalls w w1) = chip
    at s1 s2 ⊢
  have hmem : ∀ i, i < bs.length → chip.mem (A + i) = bs.getD i 0 := by
    intro i hi
    rw [s2, foldl_store_range (fun i => A + i) (fun i => bs.getD i 0)
      (fun i j h => by simpa using h) M0 bs.length i, if_pos hi]
  have hlt : ∀ x, chip.mem x < 256 := by
    rw [s2]
    exact foldl_store_lt (fun i => A + i) (fun i => bs.getD i 0) (getD_lt bs hb) _ M0 hM
  have hu : u32 (InFile.ofBytes bs).length = bs.length :=
    Nat.mod_eq_of_lt (by simp only [InFile.ofBytes]; omega)
  have hn : ¬ u32 (InFile.ofBytes bs).length > 8 * 1024 * 1024 := by rw [hu]; omega
  obtain ⟨w2, e2, c2, -⟩ := verifyLoop_match l0 chip.mem rdy A bs hlt (by omega) bs.length 0
    w1 hc1 (by omega) (fun j _ h => hmem j (by omega))
  refine ⟨w2, e1, ?_, hmem, s1, ?_⟩
  · rw [verifyFile_pass _ A _ w1 hn, hu]
    exact e2
  · rw [newCalls_of_calls c2, ← List.range_eq_range', readAddrs_reads, s1]
    exact zip_range_getD (fun i => A + i) bs

/-- Witness for C10: the file `[0x11, 0x22]` programmed at `0x1000` into a chip
of `0xFF` bytes that is ready at the first poll. -/
theorem program_verify_round_trip_witness :
    ((∀ a : Nat, (fun _ => 0xFF : Nat → Nat) a < 256) ∧ (∀ b ∈ [0x11, 0x22], b < 256) ∧
        0x1000 + [0x11, 0x22].length ≤ 2 ^ 23 ∧
        readyWithin (romDevice Mirror.initial (fun _ => 0xFF) (fun _ => 1)) 1 ∧
        consistent Mirror.initial World.initial) ∧
      ∃ w1 w2,
        programFile (romDevice Mirror.initial (fun _ => 0xFF) (fun _ => 1)) 1 0x1000
          (some (InFile.ofBytes [0x11, 0x22])) World.initial = .ok () w1 ∧
        verifyFile
          (romDevice Mirror.initial
            (Chip.run { mem := fun _ => 0xFF, armed := false, stored := [] }
              (newCalls World.initial w1)).mem (fun _ => 1))
          0x1000 (some (InFile.ofBytes [0x11, 0x22])) w1 = .ok () w2 :=
  have hr : readyWithin (romDevice Mirror.initial (fun _ => 0xFF) (fun _ => 1)) 1 :=
    fun tr => ⟨0, by decide, by simp [romDevice, GET_READY]⟩
  ⟨⟨fun _ => (by decide : (0xFF : Nat) < 256), by decide, by decide, hr, rfl⟩,
    (program_verify_round_trip Mirror.initial (fun _ => 0xFF) (fun _ => 1) 1 0x1000
      [0x11, 0x22] World.initial (fun _ => (by decide : (0xFF : Nat) < 256)) (by decide)
      (by decide) hr rfl).imp fun _ h => h.imp fun _ h2 => ⟨h2.1, h2.2.1⟩⟩

/-! ## The dispatcher: sector 0 fans out into the boot sectors -/

/-- C11 (sector fan-out). For sector index 0 the dispatcher performs exactly
`eraseBootSector(i)`, `checkBootSector(i)` or `readBootSector(i, file, append)`
for `i = 0, 1, ..., 7` in that order, one after the other, in place of
`eraseSector`, `checkSector` or `readSector`; for reads the append flag is false
for `i = 0` and true for `i = 1..7`. For every sector index `1..127` it performs
the 64 KiB operation once instead. -/
theorem sector_fan_out (dev : Device) (fuel : Nat) (dst : OutFile) (w : World) :
    dispatch dev fuel (.es 0) w =
        runOps dev fuel
          [.eraseBootSector 0, .eraseBootSector 1, .eraseBootSector 2, .eraseBootSector 3,
           .eraseBootSector 4, .eraseBootSector 5, .eraseBootSector 6, .eraseBootSector 7] w ∧
      dispatch dev fuel (.cs 0) w =
        runOps dev fuel
          [.checkBootSector 0, .checkBootSector 1, .checkBootSector 2, .checkBootSector 3,
           .checkBootSector 4, .checkBootSector 5, .checkBootSector 6, .checkBootSector 7] w ∧
      dispatch dev fuel (.rs 0 dst) w =
        runOps dev fuel
          [.readBootSector 0 dst false, .readBootSector 1 dst true,
           .readBootSector 2 dst true, .readBootSector 3 dst true,
           .readBootSector 4 dst true, .readBootSector 5 dst true,
           .readBootSector 6 dst true, .readBootSector 7 dst true] w ∧
      ∀ n, 1 ≤ n → n ≤ 127 →
        dispatch dev fuel (.es n) w = eraseSector dev fuel n w ∧
        dispatch dev fuel (.cs n) w = checkSector dev n w ∧
        dispatch dev fuel (.rs n dst) w = readSector dev n dst w := by
  refine ⟨?_, ?_, ?_, ?_⟩
  · simp only [dispatch, if_true, eraseBootLoop, runOps, Op.run]
  · simp only [dispatch, if_true, checkBootLoop, runOps, Op.run]
  · simp only [dispatch, if_true, readBootLoop, runOps, Op.run]
    rfl
  · intro n h1 _
    have hn : n ≠ 0 := by omega
    simp only [dispatch, if_neg hn, and_self]

/-- Witness for C11: sector 5 is erased by one call of `eraseSector`. -/
theorem sector_fan_out_witness :
    ((1 : Nat) ≤ 5 ∧ (5 : Nat) ≤ 127) ∧
      dispatch (fun _ => 1) 1 (.es 5) World.initial = eraseSector (fun _ => 1) 1 5 World.initial :=
  ⟨⟨by decide, by decide⟩,
    ((sector_fan_out (fun _ => 1) 1 ⟨true, fun _ => true⟩ World.initial).2.2.2 5 (by decide)
      (by decide)).1⟩

/-! ## The mirror after a write cycle; the erase commands -/

theorem writeData_mirror (a d : Nat) (w : World) :
    (writeData a d w).mirror =
      { lastAddr_0 := nib a 0, lastAddr_1 := nib a 1, lastAddr_2 := nib a 2,
        lastAddr_3 := nib a 3, lastAddr_4 := nib a 4, lastAddr_5 := nib a 5,
        lastData_0 := nib d 0, lastData_1 := nib d 1, lastCtrl := 0x03 } := by
  show (setCtrl 0x03 (setCtrl 0x05 (setData d (setAddr a (logCall (.write a d) w))))).mirror = _
  rw [setCtrl_mirror, setCtrl_mirror, setData_mirror, setAddr_mirror]
  rfl

theorem writeData_addr (a d : Nat) (w : World) :
    (writeData a d w).mirror.addr = a % 2 ^ 24 := by
  rw [writeData_mirror]
  exact nib_recombine a

theorem pollReady_mirror (dev : Device) : ∀ (fuel : Nat) (w : World),
    (pollReady dev fuel w).world.mirror = w.mirror := by
  intro fuel
  induction fuel with
  | zero => intro w; rfl
  | succ n ih =>
    intro w
    simp only [pollReady]
    split_ifs
    · rw [ih]; simp
    · simp [Res.world]

theorem waitReady_calls (dev : Device) (fuel : Nat) (w : World) :
    (waitReady dev fuel w).world.calls = w.calls ++ [.wait] := by
  rw [waitReady, pollReady_calls]
  rfl

theorem waitReady_mirror (dev : Device) (fuel : Nat) (w : World) :
    (waitReady dev fuel w).world.mirror = w.mirror := by
  rw [waitReady, pollReady_mirror]
  rfl

theorem shift_sector (n : Nat) (h : n ≤ 127) : u32 (n <<< 16) = n * 0x10000 := by
  rw [Nat.shiftLeft_eq]
  exact Nat.mod_eq_of_lt (by omega)

theorem shift_boot (n : Nat) (h : n ≤ 7) : u32 (n <<< 13) = n * 0x2000 := by
  rw [Nat.shiftLeft_eq]
  exact Nat.mod_eq_of_lt (by omega)

theorem erase_calls (dev : Device) (fuel a d : Nat) (w : World) :
    newCalls w (waitReady dev fuel (writeData a d (writeData 0x555 0x55
      (writeData 0xAAA 0xAA (writeData 0xAAA 0x80 (writeData 0x555 0x55
        (writeData 0xAAA 0xAA w))))))).world =
      [.write 0xAAA 0xAA, .write 0x555 0x55, .write 0xAAA 0x80, .write 0xAAA 0xAA,
       .write 0x555 0x55, .write a d, .wait] :=
  newCalls_of_calls (by simp [waitReady_calls])

theorem erase_addr (dev : Device) (fuel a d : Nat) (w : World) :
    (waitReady dev fuel (writeData a d w)).world.mirror.addr = a % 2 ^ 24 := by
  rw [waitReady_mirror, writeData_addr]

theorem erase_latched (dev : Device) (fuel a d : Nat) (l0 : Mirror) (w w5 : World)
    (hg : Good w w5) (hc : consistent l0 w) :
    (replay l0 (waitReady dev fuel (writeData a d w5)).world.sent).addr = a % 2 ^ 24 := by
  have h := ((hg.trans (good_writeData a d w5)).trans (good_waitReady dev fuel _)).2 l0 hc
  unfold consistent at h
  rw [← h, erase_addr]

theorem good_unlock5 (w : World) :
    Good w (writeData 0x555 0x55 (writeData 0xAAA 0xAA (writeData 0xAAA 0x80
      (writeData 0x555 0x55 (writeData 0xAAA 0xAA w))))) :=
  ((((good_writeData 0xAAA 0xAA w).trans (good_writeData 0x555 0x55 _)).trans
    (good_writeData 0xAAA 0x80 _)).trans (good_writeData 0xAAA 0xAA _)).trans
    (good_writeData 0x555 0x55 _)

/-- C12 (erase command sequences). `eraseChip`, `eraseSector n` and
`eraseBootSector n` each perform six write cycles and then one `waitReady`, with
no read cycle: the writes `0xAA@0xAAA`, `0x55@0x555`, `0x80@0xAAA`, `0xAA@0xAAA`,
`0x55@0x555`, and sixth `0x10@0xAAA`, `0x30@(n<<16)`, `0x30@(n<<13)`. For
`n ≤ 127` (resp. `n ≤ 7`) the sixth address and the address in the mirror and in
the latches afterwards are `n * 0x10000` (resp. `n * 0x2000`) exactly. With a
device that reports ready within the fuel all three return. -/
theorem erase_sequences (dev : Device) (fuel : Nat) (w : World) :
    newCalls w (eraseChip dev fuel w).world =
        [.write 0xAAA 0xAA, .write 0x555 0x55, .write 0xAAA 0x80, .write 0xAAA 0xAA,
         .write 0x555 0x55, .write 0xAAA 0x10, .wait] ∧
      (∀ n, n ≤ 127 →
        newCalls w (eraseSector dev fuel n w).world =
          [.write 0xAAA 0xAA, .write 0x555 0x55, .write 0xAAA 0x80, .write 0xAAA 0xAA,
           .write 0x555 0x55, .write (n * 0x10000) 0x30, .wait] ∧
        (eraseSector dev fuel n w).world.mirror.addr = n * 0x10000 ∧
        ∀ l0, consistent l0 w →
          (replay l0 (eraseSector dev fuel n w).world.sent).addr = n * 0x10000) ∧
      (∀ n, n ≤ 7 →
        newCalls w (eraseBootSector dev fuel n w).world =
          [.write 0xAAA 0xAA, .write 0x555 0x55, .write 0xAAA 0x80, .write 0xAAA 0xAA,
           .write 0x555 0x55, .write (n * 0x2000) 0x30, .wait] ∧
        (eraseBootSector dev fuel n w).world.mirror.addr = n * 0x2000 ∧
        ∀ l0, consistent l0 w →
          (replay l0 (eraseBootSector dev fuel n w).world.sent).addr = n * 0x2000) ∧
      (readyWithin dev fuel →
        (∃ w1, eraseChip dev fuel w = .ok () w1) ∧
        (∀ n, ∃ w1, eraseSector dev fuel n w = .ok () w1) ∧
        ∀ n, ∃ w1, eraseBootSector dev fuel n w = .ok () w1) := by
  refine ⟨?_, ?_, ?_, ?_⟩
  · simp only [eraseChip]
    exact erase_calls dev fuel 0xAAA 0x10 w
  · intro n hn
    have h24 : n * 0x10000 % 2 ^ 24 = n * 0x10000 := Nat.mod_eq_of_lt (by omega)
    simp only [eraseSector, shift_sector n hn]
    refine ⟨erase_calls dev fuel _ 0x30 w, ?_, fun l0 hc => ?_⟩
    · rw [erase_addr, h24]
    · rw [erase_latched dev fuel _ 0x30 l0 w _ (good_unlock5 w) hc, h24]
  · intro n hn
    have h24 : n * 0x2000 % 2 ^ 24 = n * 0x2000 := Nat.mod_eq_of_lt (by omega)
    simp only [eraseBootSector, shift_boot n hn]
    refine ⟨erase_calls dev fuel _ 0x30 w, ?_, fun l0 hc => ?_⟩
    · rw [erase_addr, h24]
    · rw [erase_latched dev fuel _ 0x30 l0 w _ (good_unlock5 w) hc, h24]
  · intro hr
    refine ⟨?_, fun n => ?_, fun n => ?_⟩
    · simp only [eraseChip]
      exact (waitReady_ok dev fuel hr _).imp fun _ h => h.1
    · simp only [eraseSector]
      exact (waitReady_ok dev fuel hr _).imp fun _ h => h.1
    · simp only [eraseBootSector]
      exact (waitReady_ok dev fuel hr _).imp fun _ h => h.1

/-- Witness for C12: with a device that is ready at the first poll, `eraseSector 3`
returns. -/
theorem erase_sequences_witness :
    readyWithin (fun _ => 1) 1 ∧
      ∃ w1, eraseSector (fun _ => 1) 1 3 World.initial = .ok () w1 :=
  have hr : readyWithin (fun _ => 1) 1 :=
    fun _ => ⟨0, by decide, (by decide : (1 % 256 &&& 0x01 : Nat) ≠ 0)⟩
  ⟨hr, ((erase_sequences (fun _ => 1) 1 World.initial).2.2.2 hr).2.1 3⟩

/-! ## `programByte` -/

theorem nib_data (d : Nat) : nib d 0 ||| nib d 1 <<< 4 = d % 256 := by
  rw [or_shiftLeft_eq_add _ _ 4 (nib_lt d 0)]
  simp only [nib_eq]
  omega

/-- C13 (the sequence of `programByte`). For every `addr < 2^23` and every data
byte, `programByte(addr, data)` performs exactly the write cycles `0xAA@0xAAA`,
`0x55@0x555`, `0xA0@0xAAA`, `data@addr` in that order, then one `waitReady`, and
no read cycle; afterwards the address mirror recombines to `addr`, the data
mirror to `data`, and the control mirror is `0x03`. With a device that reports
ready within the fuel it returns. -/
theorem programByte_sequence (dev : Device) (fuel addr data : Nat) (w : World)
    (ha : addr < 2 ^ 23) (hd : data < 256) :
    newCalls w (programByte dev fuel addr data w).world =
        [.write 0xAAA 0xAA, .write 0x555 0x55, .write 0xAAA 0xA0, .write addr data, .wait] ∧
      (programByte dev fuel addr data w).world.mirror.addr = addr ∧
      (programByte dev fuel addr data w).world.mirror.lastData_0 |||
        (programByte dev fuel addr data w).world.mirror.lastData_1 <<< 4 = data ∧
      (programByte dev fuel addr data w).world.mirror.lastCtrl = 0x03 ∧
      (readyWithin dev fuel → ∃ w1, programByte dev fuel addr data w = .ok () w1) := by
  simp only [programByte]
  refine ⟨newCalls_of_calls (by simp [waitReady_calls]), ?_, ?_, ?_, fun hr => ?_⟩
  · rw [erase_addr, Nat.mod_eq_of_lt (by omega)]
  · rw [waitReady_mirror, writeData_mirror]
    show nib data 0 ||| nib data 1 <<< 4 = data
    rw [nib_data, Nat.mod_eq_of_lt hd]
  · rw [waitReady_mirror, writeData_mirror]
  · exact (waitReady_ok dev fuel hr _).imp fun _ h => h.1

/-- Witness for C13: `programByte(0x1234, 0x5A)` on the initial world with a
device that is ready at the first poll. -/
theorem programByte_sequence_witness :
    ((0x1234 : Nat) < 2 ^ 23 ∧ (0x5A : Nat) < 256) ∧
      (programByte (fun _ => 1) 1 0x1234 0x5A World.initial).world.mirror.addr = 0x1234 :=
  ⟨⟨by decide, by decide⟩,
    (programByte_sequence (fun _ => 1) 1 0x1234 0x5A World.initial (by decide)
      (by decide)).2.1⟩

/-! ## The control mirror in a session; the latch pulse of `writeData` -/

theorem setAddr_sent_bytes (a : Nat) (w : World) :
    (setAddr a w).sent = w.sent ++ addrBytes a w.mirror :=
  setAddr_sent a w

theorem setData_sent_bytes (d : Nat) (w : World) :
    (setData d w).sent = w.sent ++ dataBytes d w.mirror :=
  setData_sent d w

theorem addrBytes_selector (a : Nat) (m : Mirror) : ∀ b ∈ addrBytes a m, selector b < 6 := by
  intro b hb
  simp only [addrBytes, List.mem_append] at hb
  rcases hb with ((((h | h) | h) | h) | h) | h
  · rw [mem_ite_single h, wire_selector_nib 0 a 0 (by decide)]; decide
  · rw [mem_ite_single h, wire_selector_nib 1 a 1 (by decide)]; decide
  · rw [mem_ite_single h, wire_selector_nib 2 a 2 (by decide)]; decide
  · rw [mem_ite_single h, wire_selector_nib 3 a 3 (by decide)]; decide
  · rw [mem_ite_single h, wire_selector_nib 4 a 4 (by decide)]; decide
  · rw [mem_ite_single h, wire_selector_nib 5 a 5 (by decide)]; decide

theorem dataBytes_selector (d : Nat) (m : Mirror) :
    ∀ b ∈ dataBytes d m, selector b = 6 ∨ selector b = 7 := by
  intro b hb
  simp only [dataBytes, List.mem_append] at hb
  rcases hb with h | h
  · rw [mem_ite_single h, wire_selector_nib 6 d 0 (by decide)]; exact Or.inl rfl
  · rw [mem_ite_single h, wire_selector_nib 7 d 1 (by decide)]; exact Or.inr rfl

theorem dataBytes_length (d : Nat) (m : Mirror) : (dataBytes d m).length ≤ 2 := by
  unfold dataBytes
  split_ifs <;> simp

theorem setAddr_ctrl (a : Nat) (w : World) :
    (setAddr a w).mirror.lastCtrl = w.mirror.lastCtrl := by
  rw [setAddr_mirror]

theorem setData_ctrl (d : Nat) (w : World) :
    (setData d w).mirror.lastCtrl = w.mirror.lastCtrl := by
  rw [setData_mirror]

theorem writeData_sent (a d : Nat) (w : World) (h : w.mirror.lastCtrl = 0x03) :
    (writeData a d w).sent =
      w.sent ++ (addrBytes a w.mirror ++ dataBytes d (setAddr a w).mirror ++ [0x85, 0x83]) := by
  show (setCtrl 0x03 (setCtrl 0x05 (setData d (setAddr a (logCall (.write a d) w))))).sent = _
  have h5 : (setData d (setAddr a (logCall (.write a d) w))).mirror.field 8 ≠ nib 0x05 0 := by
    show (setData d (setAddr a (logCall (.write a d) w))).mirror.lastCtrl ≠ nib 0x05 0
    rw [setData_ctrl, setAddr_ctrl]
    show w.mirror.lastCtrl ≠ _
    rw [h]; decide
  have h3 : (setCtrl 0x05 (setData d (setAddr a (logCall (.write a d) w)))).mirror.field 8 ≠
      nib 0x03 0 := by
    show (setCtrl 0x05 (setData d (setAddr a (logCall (.write a d) w)))).mirror.lastCtrl ≠ _
    rw [setCtrl_mirror]
    show nib 0x05 0 ≠ nib 0x03 0
    decide
  rw [setCtrl_sent, if_pos h3, setCtrl_sent, if_pos h5, setData_sent_bytes, setAddr_sent_bytes]
  have hm : (setAddr a (logCall (.write a d) w)).mirror = (setAddr a w).mirror := by
    rw [setAddr_mirror, setAddr_mirror]; rfl
  rw [hm]
  simp only [List.append_assoc]
  rfl

theorem reset_ctrl (w : World) : (reset w).mirror.lastCtrl = 0x03 := by
  show (setCtrl 0x03 (setCtrl 0x0E w)).mirror.lastCtrl = 0x03
  rw [setCtrl_mirror]
  rfl

@[simp] theorem getData_mirror (dev : Device) (w : World) :
    (getData dev w).2.mirror = w.mirror := by
  simp [getData, recvByte]

theorem readData_mirror (dev : Device) (a : Nat) (w : World) :
    (readData dev a w).2.mirror =
      { w.mirror with
        lastAddr_0 := nib a 0, lastAddr_1 := nib a 1, lastAddr_2 := nib a 2,
        lastAddr_3 := nib a 3, lastAddr_4 := nib a 4, lastAddr_5 := nib a 5,
        lastCtrl := 0x03 } := by
  show (getData dev (setCtrl 0x03 (setAddr a (logCall (.read a) w)))).2.mirror = _
  rw [getData_mirror, setCtrl_mirror, setAddr_mirror]
  rfl

theorem cycle_ctrl (dev : Device) (fuel : Nat) (c : BusCall) (w : World)
    (h : w.mirror.lastCtrl = 0x03) : (c.run dev fuel w).world.mirror.lastCtrl = 0x03 := by
  cases c with
  | write a d => simp only [BusCall.run, Res.world]; rw [writeData_mirror]
  | read a => simp only [BusCall.run, Res.world]; rw [readData_mirror]
  | wait => simp only [BusCall.run]; rw [waitReady_mirror]; exact h

theorem runCycles_ctrl (dev : Device) (fuel : Nat) : ∀ (cs : List BusCall) (w : World),
    w.mirror.lastCtrl = 0x03 → (runCycles dev fuel cs w).world.mirror.lastCtrl = 0x03 := by
  intro cs
  induction cs with
  | nil => intro w h; exact h
  | cons c cs ih =>
    intro w h
    have hc := cycle_ctrl dev fuel c w h
    simp only [runCycles]
    cases hr : c.run dev fuel w with
    | ok u w1 => rw [hr] at hc; exact ih w1 hc
    | fatal e w1 => rw [hr] at hc; exact hc
    | spin w1 => rw [hr] at hc; exact hc

/-- C14 (the latch pulse of a write cycle is never suppressed). In every state
reached by `initBoard`, then `reset`, then any sequence of `readData`,
`writeData` and `waitReady` calls, the control mirror is `0x03`; so a `writeData`
called there emits its address and data bytes (selectors below 8) and then, as
the last two bytes of its trace, the control bytes `0x85` and `0x83`. -/
theorem write_pulse (dev : Device) (fuel : Nat) (w0 : World) (cs : List BusCall) :
    (runCycles dev fuel cs (reset (initBoard w0))).world.mirror.lastCtrl = 0x03 ∧
      ∀ a d, ∃ pre,
        emitted (runCycles dev fuel cs (reset (initBoard w0))).world
          (writeData a d (runCycles dev fuel cs (reset (initBoard w0))).world) =
            pre ++ [0x85, 0x83] ∧
        ∀ b ∈ pre, selector b < 8 := by
  have h := runCycles_ctrl dev fuel cs (reset (initBoard w0)) (reset_ctrl _)
  refine ⟨h, fun a d => ⟨_, emitted_of_sent (writeData_sent a d _ h), ?_⟩⟩
  intro b hb
  rcases List.mem_append.mp hb with hb | hb
  · exact Nat.lt_trans (addrBytes_selector a _ b hb) (by decide)
  · rcases dataBytes_selector d _ b hb with e | e <;> rw [e] <;> decide

/-! ## Polling until ready -/

@[simp] theorem getReady_rcvd (dev : Device) (w : World) :
    (getReady dev w).2.rcvd = w.rcvd ++ [dev (w.sent ++ [GET_READY]) % 256] := by
  simp [getReady, recvByte, GET_READY]

@[simp] theorem getReady_outFile (dev : Device) (w : World) :
    (getReady dev w).2.outFile = w.outFile := by
  simp [getReady, recvByte]

theorem readyReply_next (dev : Device) (w : World) (j : Nat) :
    readyReply dev (getReady dev w).2 j = readyReply dev w (j + 1) := by
  simp only [readyReply, getReady_sent, List.append_assoc]
  rfl

theorem pollReady_exact (dev : Device) : ∀ (k fuel : Nat) (w : World), k < fuel →
    readyReply dev w k &&& 0x01 ≠ 0 → (∀ j, j < k → readyReply dev w j &&& 0x01 = 0) →
    ∃ w1, pollReady dev fuel w = .ok () w1 ∧
      w1.sent = w.sent ++ List.replicate (k + 1) GET_READY ∧
      w1.rcvd = w.rcvd ++ (List.range (k + 1)).map (readyReply dev w) ∧
      w1.mirror = w.mirror ∧ w1.calls = w.calls ∧ w1.outFile = w.outFile := by
  intro k
  induction k with
  | zero =>
    intro fuel w hk hr _
    obtain ⟨n, rfl⟩ : ∃ n, fuel = n + 1 := ⟨fuel - 1, by omega⟩
    have hv : (getReady dev w).1 &&& 0x01 ≠ 0 := by
      rw [getReady_val]; exact hr
    simp only [pollReady]
    rw [if_neg hv]
    exact ⟨_, rfl, by simp, by rw [getReady_rcvd]; rfl, by simp, by simp, by simp⟩
  | succ k ih =>
    intro fuel w hk hr hmin
    obtain ⟨n, rfl⟩ : ∃ n, fuel = n + 1 := ⟨fuel - 1, by omega⟩
    have hv : (getReady dev w).1 &&& 0x01 = 0 := by
      rw [getReady_val]; exact hmin 0 (by omega)
    simp only [pollReady]
    rw [if_pos hv]
    obtain ⟨w1, e, hs, hrc, hm, hc, ho⟩ := ih n (getReady dev w).2 (by omega)
      (by rw [readyReply_next]; exact hr)
      (fun j hj => by rw [readyReply_next]; exact hmin (j + 1) (by omega))
    refine ⟨w1, e, ?_, ?_, by rw [hm]; simp, by rw [hc]; simp, by rw [ho]; simp⟩
    · rw [hs, getReady_sent, List.append_assoc]
      rfl
    · rw [hrc, getReady_rcvd, List.append_assoc, List.range_succ_eq_map (k + 1)]
      simp only [List.map_cons, List.map_map, List.singleton_append]
      congr 2
      · apply List.map_congr_left
        intro j _
        exact readyReply_next dev w j

/-- C15 (ready polling). Let `r_0, r_1, ...` be the replies of the device to
ready requests sent in a row from the world `w`, and `k` the least index with bit
0 of `r_k` set. With more than `k` polls of fuel, `waitReady` returns, having
emitted exactly `k + 1` bytes, all `0xA0`, and received exactly `r_0 .. r_k`; the
mirror is unchanged. Bits 1..7 of the replies play no part: a device whose
replies have the same bit 0 gives the same bytes and mirror. -/
theorem waitReady_polling (dev : Device) (fuel k : Nat) (w : World) (hf : k < fuel)
    (hk : readyReply dev w k &&& 0x01 ≠ 0)
    (hmin : ∀ j, j < k → readyReply dev w j &&& 0x01 = 0) :
    (∃ w1, waitReady dev fuel w = .ok () w1 ∧
        emitted w w1 = List.replicate (k + 1) 0xA0 ∧
        w1.rcvd = w.rcvd ++ (List.range (k + 1)).map (readyReply dev w) ∧
        w1.mirror = w.mirror) ∧
      ∀ dev2 : Device,
        (∀ j, j ≤ k → readyReply dev2 w j &&& 0x01 = readyReply dev w j &&& 0x01) →
        ∃ w2, waitReady dev2 fuel w = .ok () w2 ∧
          emitted w w2 = List.replicate (k + 1) 0xA0 ∧ w2.mirror = w.mirror := by
  constructor
  · obtain ⟨w1, e, hs, hr, hm, -, -⟩ := pollReady_exact dev k fuel (logCall .wait w) hf hk hmin
    exact ⟨w1, e, emitted_of_sent hs, hr, hm⟩
  · intro dev2 h2
    obtain ⟨w2, e, hs, -, hm, -, -⟩ := pollReady_exact dev2 k fuel (logCall .wait w) hf
      (by
        have h : readyReply dev2 w k &&& 0x01 ≠ 0 := by rw [h2 k (Nat.le_refl k)]; exact hk
        exact h)
      (fun j hj => by
        have h : readyReply dev2 w j &&& 0x01 = 0 := by
          rw [h2 j (Nat.le_of_lt hj)]; exact hmin j hj
        exact h)
    exact ⟨w2, e, emitted_of_sent hs, hm⟩

/-- Witness for C15: a device that answers its third ready request in a row with
`0x81` and the ones before with `0xFE`; three polls, three replies. -/
theorem waitReady_polling_witness :
    ((2 : Nat) < 3 ∧
        readyReply (fun tr => if tr.length = 3 then 0x81 else 0xFE) World.initial 2 &&& 0x01 ≠ 0 ∧
        ∀ j, j < 2 →
          readyReply (fun tr => if tr.length = 3 then 0x81 else 0xFE) World.initial j
            &&& 0x01 = 0) ∧
      ∃ w1, waitReady (fun tr => if tr.length = 3 then 0x81 else 0xFE) 3 World.initial =
          .ok () w1 ∧
        emitted World.initial w1 = [0xA0, 0xA0, 0xA0] ∧
        w1.rcvd = [0xFE, 0xFE, 0x81] :=
  ⟨⟨by decide, by decide, by decide⟩,
    (waitReady_polling (fun tr => if tr.length = 3 then 0x81 else 0xFE) 3 2 World.initial
      (by decide) (by decide) (by decide)).1.imp fun _ h => ⟨h.1, h.2.1, h.2.2.1⟩⟩

/-! ## The mirror at program start and after `initBoard` -/

/-- C17 as stated fails: the initialiser of `lastCtrl` is `0x0F`, not `0x0`. -/
theorem initial_ctrl_counterexample : ¬ (Mirror.initial.lastCtrl = 0x0) := by
  decide

/-- C17, amended. Before `initBoard` is called the mirror holds zero in all six
address fields and both data fields, and the control field holds `0x0F`, the
standby code; so a `standby()` at that point (as `error` would issue) sends
nothing and leaves the world as it is. -/
theorem initial_mirror :
    Mirror.initial.lastAddr_0 = 0 ∧ Mirror.initial.lastAddr_1 = 0 ∧
      Mirror.initial.lastAddr_2 = 0 ∧ Mirror.initial.lastAddr_3 = 0 ∧
      Mirror.initial.lastAddr_4 = 0 ∧ Mirror.initial.lastAddr_5 = 0 ∧
      Mirror.initial.lastData_0 = 0 ∧ Mirror.initial.lastData_1 = 0 ∧
      Mirror.initial.lastCtrl = 0x0F ∧
      World.initial.mirror = Mirror.initial ∧
      standby World.initial = World.initial := by
  refine ⟨rfl, rfl, rfl, rfl, rfl, rfl, rfl, rfl, rfl, rfl, by decide⟩

theorem reset_sent (w : World) (h : w.mirror.lastCtrl = 0x0F) :
    (reset w).sent = w.sent ++ [0x8E, 0x83] := by
  show (setCtrl 0x03 (setCtrl 0x0E w)).sent = _
  have hE : w.mirror.field 8 ≠ nib 0x0E 0 := by
    show w.mirror.lastCtrl ≠ _
    rw [h]; decide
  have h3 : (setCtrl 0x0E w).mirror.field 8 ≠ nib 0x03 0 := by
    show (setCtrl 0x0E w).mirror.lastCtrl ≠ _
    rw [setCtrl_mirror]
    show nib 0x0E 0 ≠ nib 0x03 0
    decide
  rw [setCtrl_sent, if_pos h3, setCtrl_sent, if_pos hE, List.append_assoc]
  rfl

/-- C18 (board initialisation forces every latch). For every prior world,
whatever its mirror holds, `initBoard` emits exactly the nine bytes `0x00`,
`0x10`, `0x20`, `0x30`, `0x40`, `0x50`, `0x60`, `0x70`, `0x8F` in that order and
leaves the mirror with all address and data fields `0` and control `0x0F`; a
`reset` right after it emits exactly `0x8E` and then `0x83`. -/
theorem initBoard_forces (w : World) :
    emitted w (initBoard w) = [0x00, 0x10, 0x20, 0x30, 0x40, 0x50, 0x60, 0x70, 0x8F] ∧
      (initBoard w).mirror =
        { lastAddr_0 := 0, lastAddr_1 := 0, lastAddr_2 := 0, lastAddr_3 := 0,
          lastAddr_4 := 0, lastAddr_5 := 0, lastData_0 := 0, lastData_1 := 0,
          lastCtrl := 0x0F } ∧
      emitted (initBoard w) (reset (initBoard w)) = [0x8E, 0x83] := by
  refine ⟨emitted_of_sent (initBoard_sent w), initBoard_mirror w, ?_⟩
  exact emitted_of_sent (reset_sent _ (by rw [initBoard_mirror]; rfl))

/-! ## The boot sectors tile sector 0 -/

theorem error_bind {α β : Type} (e : Failure) (w : World) (k : α → World → Res β) :
    (error e w : Res α).bind k = error e w := rfl

theorem checkLoop_split (dev : Device) (shift sector m : Nat) : ∀ (n i : Nat) (w : World),
    checkLoop dev shift sector (n + m) i w =
      (checkLoop dev shift sector n i w).bind fun _ w1 =>
        checkLoop dev shift sector m (i + n) w1 := by
  intro n
  induction n with
  | zero => intro i w; simp [checkLoop, Res.bind]
  | succ n ih =>
    intro i w
    rw [show n + 1 + m = (n + m) + 1 by omega]
    simp only [checkLoop]
    split_ifs
    · rfl
    · rw [ih, show i + 1 + n = i + (n + 1) by omega]

theorem checkLoop_boot (dev : Device) (k : Nat) (hk : k ≤ 7) : ∀ (n i : Nat) (w : World),
    checkLoop dev 13 k n i w = checkLoop dev 16 0 n (k * 8192 + i) w := by
  intro n
  induction n with
  | zero => intro i w; rfl
  | succ n ih =>
    intro i w
    have ha : u32 (u32 (k <<< 13) + i) = u32 (u32 (0 <<< 16) + (k * 8192 + i)) := by
      rw [shift_boot k hk, show u32 (0 <<< 16) = 0 from rfl, Nat.zero_add]
    simp only [checkLoop]
    rw [ha, ih (i + 1), show k * 8192 + (i + 1) = k * 8192 + i + 1 by omega]

theorem checkBoot_tiles (dev : Device) (fuel : Nat) : ∀ (m k : Nat) (w : World), k + m ≤ 8 →
    runOps dev fuel ((List.range' k m).map Op.checkBootSector) w =
      checkLoop dev 16 0 (m * 8192) (k * 8192) w := by
  intro m
  induction m with
  | zero => intro k w _; simp [runOps, checkLoop]
  | succ m ih =>
    intro k w h
    rw [show (m + 1) * 8192 = 8192 + m * 8192 by omega, checkLoop_split,
      List.range'_succ]
    simp only [List.map_cons, runOps, Op.run, checkBootSector]
    rw [checkLoop_boot dev k (by omega), Nat.add_zero]
    congr 1
    funext _ w1
    rw [ih (k + 1) w1 (by omega), show (k + 1) * 8192 = k * 8192 + 8192 by omega]

theorem readLoop_split (dev : Device) (shift sector : Nat) (dst : OutFile) (m : Nat) :
    ∀ (n i : Nat) (w : World),
    readLoop dev shift sector dst (n + m) i w =
      (readLoop dev shift sector dst n i w).bind fun _ w1 =>
        readLoop dev shift sector dst m (i + n) w1 := by
  intro n
  induction n with
  | zero => intro i w; simp [readLoop, Res.bind]
  | succ n ih =>
    intro i w
    rw [show n + 1 + m = (n + m) + 1 by omega]
    simp only [readLoop]
    split_ifs
    · rw [ih, show i + 1 + n = i + (n + 1) by omega]
    · rfl

theorem readLoop_boot (dev : Device) (dst : OutFile) (hW : ∀ i, dst.canWrite i = true)
    (k : Nat) (hk : k ≤ 7) : ∀ (n i : Nat) (w : World),
    readLoop dev 13 k dst n i w = readLoop dev 16 0 dst n (k * 8192 + i) w := by
  intro n
  induction n with
  | zero => intro i w; rfl
  | succ n ih =>
    intro i w
    have ha : u32 (u32 (k <<< 13) + i) = u32 (u32 (0 <<< 16) + (k * 8192 + i)) := by
      rw [shift_boot k hk, show u32 (0 <<< 16) = 0 from rfl, Nat.zero_add]
    simp only [readLoop]
    rw [ha, if_pos (hW i), if_pos (hW _), ih (i + 1),
      show k * 8192 + (i + 1) = k * 8192 + i + 1 by omega]

theorem readBoot_append (dev : Device) (dst : OutFile) (hO : dst.canOpen = true) (k : Nat)
    (w : World) :
    readBootSector dev k dst true w = readLoop dev 13 k dst (8 * 1024) 0 w := by
  simp only [readBootSector]
  rw [if_pos hO]
  rfl

theorem readBoot_tiles (dev : Device) (fuel : Nat) (dst : OutFile) (hO : dst.canOpen = true)
    (hW : ∀ i, dst.canWrite i = true) : ∀ (m k : Nat) (w : World), k + m ≤ 8 →
    runOps dev fuel ((List.range' k m).map fun i => Op.readBootSector i dst true) w =
      readLoop dev 16 0 dst (m * 8192) (k * 8192) w := by
  intro m
  induction m with
  | zero => intro k w _; simp [runOps, readLoop]
  | succ m ih =>
    intro k w h
    rw [show (m + 1) * 8192 = 8192 + m * 8192 by omega, readLoop_split,
      List.range'_succ]
    simp only [List.map_cons, runOps, Op.run]
    rw [readBoot_append dev dst hO, readLoop_boot dev dst hW k (by omega), Nat.add_zero]
    congr 1
    funext _ w1
    rw [ih (k + 1) w1 (by omega), show (k + 1) * 8192 = k * 8192 + 8192 by omega]

theorem readLoop_ok (dev : Device) (dst : OutFile) (hW : ∀ i, dst.canWrite i = true) :
    ∀ (n i : Nat) (w : World), i + n ≤ 2 ^ 32 →
    ∃ w1, readLoop dev 16 0 dst n i w = .ok () w1 ∧
      w1.calls = w.calls ++ (List.range' i n).map BusCall.read ∧
      w1.outFile.length = w.outFile.length + n := by
  intro n
  induction n with
  | zero => intro i w _; exact ⟨w, rfl, by simp, rfl⟩
  | succ n ih =>
    intro i w h
    have ha : u32 (u32 (0 <<< 16) + i) = i := by
      rw [show u32 (0 <<< 16) = 0 from rfl, Nat.zero_add]
      exact Nat.mod_eq_of_lt (by omega)
    simp only [readLoop]
    rw [ha, if_pos (hW i)]
    obtain ⟨w1, e, c, o⟩ := ih (i + 1)
      { (readData dev i w).2 with
        outFile := (readData dev i w).2.outFile ++ [(readData dev i w).1] } (by omega)
    refine ⟨w1, e, ?_, ?_⟩
    · rw [c, List.range'_succ]
      simp
    · rw [o]
      simp [readData, getData, recvByte, logCall, setAddr_eq, setCtrl_eq]
      omega

theorem checkBoot_fan (dev : Device) (fuel : Nat) (w : World) :
    runOps dev fuel
      [.checkBootSector 0, .checkBootSector 1, .checkBootSector 2, .checkBootSector 3,
       .checkBootSector 4, .checkBootSector 5, .checkBootSector 6, .checkBootSector 7] w =
      checkSector dev 0 w :=
  checkBoot_tiles dev fuel 8 0 w (by decide)

theorem readBoot_fan (dev : Device) (fuel : Nat) (dst : OutFile) (hO : dst.canOpen = true)
    (hW : ∀ i, dst.canWrite i = true) (w : World) :
    runOps dev fuel
      [.readBootSector 0 dst false, .readBootSector 1 dst true, .readBootSector 2 dst true,
       .readBootSector 3 dst true, .readBootSector 4 dst true, .readBootSector 5 dst true,
       .readBootSector 6 dst true, .readBootSector 7 dst true] w =
      readSector dev 0 dst w := by
  have ht := readBoot_tiles dev fuel dst hO hW 7 1
  have h0 : readBootSector dev 0 dst false w =
      readLoop dev 16 0 dst 8192 0 { w with outFile := [] } := by
    simp only [readBootSector]
    rw [if_pos hO]
    exact readLoop_boot dev dst hW 0 (by decide) 8192 0 _
  have hs : readSector dev 0 dst w =
      readLoop dev 16 0 dst (8192 + 7 * 8192) 0 { w with outFile := [] } := by
    simp only [readSector]
    rw [if_pos hO]
  rw [hs, readLoop_split]
  show (readBootSector dev 0 dst false w).bind (fun _ w1 =>
    runOps dev fuel ((List.range' 1 7).map fun i => Op.readBootSector i dst true) w1) = _
  rw [h0]
  congr 1
  funext _ w1
  exact ht w1 (by decide)

/-- C19 (the boot sectors tile sector 0). For every device, running
`checkBootSector(0)`, ..., `checkBootSector(7)` in that order is the same
computation as `checkSector(0)`: the same read cycles in the same order and the
same outcome, so the same first offending address and value when the check
fails; on a chip memory that is empty over `0x0000 .. 0xFFFF` the addresses read
are exactly `0x0000, 0x0001, ..., 0xFFFF`. With a destination file that opens and
takes every byte, `readBootSector(0..7)` (truncating for 0, appending after) is
the same computation as `readSector(0)`: it reads exactly `0x0000 .. 0xFFFF` in
ascending order and leaves the same 65536 bytes in the file. The dispatcher's
fan-out for sector 0 is this sequence. -/
theorem boot_sectors_tile (dev : Device) (fuel : Nat) (w : World) :
    runOps dev fuel
        [.checkBootSector 0, .checkBootSector 1, .checkBootSector 2, .checkBootSector 3,
         .checkBootSector 4, .checkBootSector 5, .checkBootSector 6, .checkBootSector 7] w =
        checkSector dev 0 w ∧
      dispatch dev fuel (.cs 0) w = checkSector dev 0 w ∧
      (∀ (l0 : Mirror) (M : Nat → Nat) (rdy : List Nat → Nat), (∀ a, M a < 256) →
        consistent l0 w → (∀ a, a < 0x10000 → M a = 0xFF) →
        ∃ w1, runOps (romDevice l0 M rdy) fuel
            [.checkBootSector 0, .checkBootSector 1, .checkBootSector 2, .checkBootSector 3,
             .checkBootSector 4, .checkBootSector 5, .checkBootSector 6, .checkBootSector 7]
            w = .ok () w1 ∧
          newCalls w w1 = (List.range 0x10000).map BusCall.read) ∧
      ∀ dst : OutFile, dst.canOpen = true → (∀ i, dst.canWrite i = true) →
        runOps dev fuel
          [.readBootSector 0 dst false, .readBootSector 1 dst true,
           .readBootSector 2 dst true, .readBootSector 3 dst true,
           .readBootSector 4 dst true, .readBootSector 5 dst true,
           .readBootSector 6 dst true, .readBootSector 7 dst true] w =
          readSector dev 0 dst w ∧
        dispatch dev fuel (.rs 0 dst) w = readSector dev 0 dst w ∧
        ∃ w1, readSector dev 0 dst w = .ok () w1 ∧
          newCalls w w1 = (List.range 0x10000).map BusCall.read ∧
          w1.outFile.length = 0x10000 := by
  refine ⟨checkBoot_fan dev fuel w, ?_, ?_, ?_⟩
  · rw [← checkBoot_fan dev fuel w]
    simp only [dispatch, if_true, checkBootLoop, runOps, Op.run]
  · intro l0 M rdy hM hc hE
    rw [checkBoot_fan]
    have z : (0 : Nat) <<< 16 + 0 = 0 := by norm_num
    obtain ⟨w1, e, c⟩ := checkLoop_empty l0 M rdy 16 0 0x10000 hM (by norm_num) 0x10000 0 w hc
      (by norm_num) (fun j _ h => hE _ (by simpa using h))
    rw [z] at c
    exact ⟨w1, e, by rw [newCalls_of_calls c, List.range_eq_range']⟩
  · intro dst hO hW
    refine ⟨readBoot_fan dev fuel dst hO hW w, ?_, ?_⟩
    · rw [← readBoot_fan dev fuel dst hO hW w]
      simp only [dispatch, if_true, readBootLoop, runOps, Op.run]
      rfl
    · simp only [readSector]
      rw [if_pos hO]
      obtain ⟨w1, e, c, o⟩ := readLoop_ok dev dst hW 0x10000 0 { w with outFile := [] }
        (by norm_num)
      have c1 : w1.calls = w.calls ++ (List.range' 0 0x10000).map BusCall.read := c
      have o1 : w1.outFile.length = 0 + 0x10000 := o
      exact ⟨w1, e, by rw [newCalls_of_calls c1, List.range_eq_range'],
        by rw [o1, Nat.zero_add]⟩

/-- Witness for C19: with a destination file that opens and takes every byte, the
eight boot-sector reads are `readSector(0)`. -/
theorem boot_sectors_tile_witness :
    ((⟨true, fun _ => true⟩ : OutFile).canOpen = true ∧
        ∀ i, (⟨true, fun _ => true⟩ : OutFile).canWrite i = true) ∧
      dispatch (fun _ => 0xFF) 1 (.rs 0 ⟨true, fun _ => true⟩) World.initial =
        readSector (fun _ => 0xFF) 0 ⟨true, fun _ => true⟩ World.initial :=
  ⟨⟨rfl, fun _ => rfl⟩,
    ((boot_sectors_tile (fun _ => 0xFF) 1 World.initial).2.2.2 ⟨true, fun _ => true⟩ rfl
      (fun _ => rfl)).2.1⟩

/-! ## Failed send attempts are invisible -/

theorem acc_sendByte (b : Nat) (w : World) :
    sendByte b (acceptAll w) = acceptAll (sendByte b w) := by
  rw [sendByte_eq, sendByte_eq]
  rfl

theorem acc_putField (k v : Nat) (w : World) :
    putField k v (acceptAll w) = acceptAll (putField k v w) := by
  unfold putField
  show (if w.mirror.field k ≠ v then _ else _) = _
  split
  · rw [acc_sendByte]
    rfl
  · rfl

theorem acc_setAddr (a : Nat) (w : World) :
    setAddr a (acceptAll w) = acceptAll (setAddr a w) := by
  simp only [setAddr_eq, acc_putField]

theorem acc_setData (d : Nat) (w : World) :
    setData d (acceptAll w) = acceptAll (setData d w) := by
  simp only [setData_eq, acc_putField]

theorem acc_setCtrl (c : Nat) (w : World) :
    setCtrl c (acceptAll w) = acceptAll (setCtrl c w) := by
  simp only [setCtrl_eq, acc_putField]

theorem acc_recvByte (dev : Device) (w : World) :
    recvByte dev (acceptAll w) = ((recvByte dev w).1, acceptAll (recvByte dev w).2) :=
  rfl

theorem acc_getData (dev : Device) (w : World) :
    getData dev (acceptAll w) = ((getData dev w).1, acceptAll (getData dev w).2) := by
  simp only [getData, acc_sendByte, acc_recvByte]

theorem acc_getReady (dev : Device) (w : World) :
    getReady dev (acceptAll w) = ((getReady dev w).1, acceptAll (getReady dev w).2) := by
  simp only [getReady, acc_sendByte, acc_recvByte]

theorem acc_logCall (c : BusCall) (w : World) :
    logCall c (acceptAll w) = acceptAll (logCall c w) :=
  rfl

theorem acc_reset (w : World) : reset (acceptAll w) = acceptAll (reset w) := by
  simp only [reset, acc_setCtrl]

theorem acc_standby (w : World) : standby (acceptAll w) = acceptAll (standby w) := by
  simp only [standby, acc_setCtrl]

theorem acc_readData (dev : Device) (a : Nat) (w : World) :
    readData dev a (acceptAll w) = ((readData dev a w).1, acceptAll (readData dev a w).2) := by
  simp only [readData, acc_logCall, acc_setAddr, acc_setCtrl, acc_getData]

theorem acc_writeData (a d : Nat) (w : World) :
    writeData a d (acceptAll w) = acceptAll (writeData a d w) := by
  simp only [writeData, acc_logCall, acc_setAddr, acc_setData, acc_setCtrl]

theorem acc_error {α : Type} (e : Failure) (w : World) :
    (error e (acceptAll w) : Res α) = (error e w).mapWorld acceptAll := by
  simp only [error, acc_standby, Res.mapWorld]

theorem acc_bind {α β : Type} (r : Res α) (k : α → World → Res β)
    (h : ∀ a w, k a (acceptAll w) = (k a w).mapWorld acceptAll) :
    (r.mapWorld acceptAll).bind k = (r.bind k).mapWorld acceptAll := by
  cases r <;> simp [Res.mapWorld, Res.bind, h]

theorem acc_pollReady (dev : Device) : ∀ (fuel : Nat) (w : World),
    pollReady dev fuel (acceptAll w) = (pollReady dev fuel w).mapWorld acceptAll := by
  intro fuel
  induction fuel with
  | zero => intro w; rfl
  | succ n ih =>
    intro w
    simp only [pollReady, acc_getReady, ih]
    split_ifs <;> rfl

theorem acc_waitReady (dev : Device) (fuel : Nat) (w : World) :
    waitReady dev fuel (acceptAll w) = (waitReady dev fuel w).mapWorld acceptAll := by
  simp only [waitReady, acc_logCall, acc_pollReady]

theorem acc_showIdentifiers (dev : Device) (w : World) :
    showIdentifiers dev (acceptAll w) = (showIdentifiers dev w).mapWorld acceptAll := by
  simp only [showIdentifiers, acc_writeData, acc_readData, Res.mapWorld]

theorem acc_eraseChip (dev : Device) (fuel : Nat) (w : World) :
    eraseChip dev fuel (acceptAll w) = (eraseChip dev fuel w).mapWorld acceptAll := by
  simp only [eraseChip, acc_writeData, acc_waitReady]

theorem acc_eraseSector (dev : Device) (fuel n : Nat) (w : World) :
    eraseSector dev fuel n (acceptAll w) = (eraseSector dev fuel n w).mapWorld acceptAll := by
  simp only [eraseSector, acc_writeData, acc_waitReady]

theorem acc_eraseBootSector (dev : Device) (fuel n : Nat) (w : World) :
    eraseBootSector dev fuel n (acceptAll w) =
      (eraseBootSector dev fuel n w).mapWorld acceptAll := by
  simp only [eraseBootSector, acc_writeData, acc_waitReady]

theorem acc_programByte (dev : Device) (fuel a d : Nat) (w : World) :
    programByte dev fuel a d (acceptAll w) =
      (programByte dev fuel a d w).mapWorld acceptAll := by
  simp only [programByte, acc_writeData, acc_waitReady]

theorem acc_checkLoop (dev : Device) (shift sector : Nat) : ∀ (n i : Nat) (w : World),
    checkLoop dev shift sector n i (acceptAll w) =
      (checkLoop dev shift sector n i w).mapWorld acceptAll := by
  intro n
  induction n with
  | zero => intro i w; rfl
  | succ n ih =>
    intro i w
    simp only [checkLoop, acc_readData, ih, acc_error]
    split_ifs <;> rfl

theorem acc_readLoop (dev : Device) (shift sector : Nat) (dst : OutFile) :
    ∀ (n i : Nat) (w : World),
    readLoop dev shift sector dst n i (acceptAll w) =
      (readLoop dev shift sector dst n i w).mapWorld acceptAll := by
  intro n
  induction n with
  | zero => intro i w; rfl
  | succ n ih =>
    intro i w
    simp only [readLoop, acc_readData]
    generalize readData dev (u32 (u32 (sector <<< shift) + i)) w = r
    by_cases h : dst.canWrite i = true
    · rw [if_pos h, if_pos h]
      exact ih (i + 1) { r.2 with outFile := r.2.outFile ++ [r.1] }
    · rw [if_neg h, if_neg h]
      exact acc_error _ _

theorem acc_readSector (dev : Device) (n : Nat) (dst : OutFile) (w : World) :
    readSector dev n dst (acceptAll w) = (readSector dev n dst w).mapWorld acceptAll := by
  simp only [readSector, acc_error]
  split_ifs
  · exact acc_readLoop dev 16 n dst _ _ { w with outFile := [] }
  · rfl

theorem acc_readBootSector (dev : Device) (n : Nat) (dst : OutFile) (app : Bool)
    (w : World) :
    readBootSector dev n dst app (acceptAll w) =
      (readBootSector dev n dst app w).mapWorld acceptAll := by
  simp only [readBootSector, acc_error]
  by_cases h : dst.canOpen = true
  · rw [if_pos h, if_pos h]
    exact acc_readLoop dev 13 n dst _ _ { w with outFile := if app then w.outFile else [] }
  · rw [if_neg h, if_neg h]

theorem acc_programLoop (start : Nat) (f : InFile) : ∀ (n i addr : Nat) (w : World),
    programLoop start f n i addr (acceptAll w) =
      (programLoop start f n i addr w).mapWorld acceptAll := by
  intro n
  induction n with
  | zero => intro i addr w; rfl
  | succ n ih =>
    intro i addr w
    simp only [programLoop]
    split
    · exact acc_error _ _
    · simp only [acc_writeData, ih]

theorem acc_programFile (dev : Device) (fuel start : Nat) (file : Option InFile)
    (w : World) :
    programFile dev fuel start file (acceptAll w) =
      (programFile dev fuel start file w).mapWorld acceptAll := by
  cases file with
  | none => exact acc_error _ _
  | some f =>
    simp only [programFile]
    split_ifs
    · exact acc_error _ _
    · simp only [acc_writeData, acc_programLoop]
      refine acc_bind _ _ fun addr w1 => ?_
      simp only [acc_waitReady]
      refine acc_bind _ _ fun _ w2 => ?_
      simp only [acc_writeData, Res.mapWorld]

theorem acc_verifyLoop (dev : Device) (start : Nat) (f : InFile) :
    ∀ (n i : Nat) (w : World),
    verifyLoop dev start f n i (acceptAll w) =
      (verifyLoop dev start f n i w).mapWorld acceptAll := by
  intro n
  induction n with
  | zero => intro i w; rfl
  | succ n ih =>
    intro i w
    simp only [verifyLoop]
    split
    · exact acc_error _ _
    · simp only [acc_readData, ih, acc_error]
      split_ifs <;> rfl

theorem acc_verifyFile (dev : Device) (start : Nat) (file : Option InFile) (w : World) :
    verifyFile dev start file (acceptAll w) =
      (verifyFile dev start file w).mapWorld acceptAll := by
  cases file with
  | none => exact acc_error _ _
  | some f =>
    simp only [verifyFile]
    split_ifs
    · exact acc_error _ _
    · exact acc_verifyLoop _ _ _ _ _ _

theorem acc_op (dev : Device) (fuel : Nat) (op : Op) (w : World) :
    op.run dev fuel (acceptAll w) = (op.run dev fuel w).mapWorld acceptAll := by
  cases op with
  | setAddr a => simp only [Op.run, Res.mapWorld, acc_setAddr]
  | setData d => simp only [Op.run, Res.mapWorld, acc_setData]
  | setCtrl c => simp only [Op.run, Res.mapWorld, acc_setCtrl]
  | getData => simp only [Op.run, Res.mapWorld, acc_getData]
  | getReady => simp only [Op.run, Res.mapWorld, acc_getReady]
  | reset => simp only [Op.run, Res.mapWorld, acc_reset]
  | standby => simp only [Op.run, Res.mapWorld, acc_standby]
  | readData a => simp only [Op.run, Res.mapWorld, acc_readData]
  | writeData a d => simp only [Op.run, Res.mapWorld, acc_writeData]
  | waitReady => simp only [Op.run, acc_waitReady]
  | showIdentifiers =>
    simp only [Op.run, acc_showIdentifiers]
    exact acc_bind _ _ fun _ _ => rfl
  | eraseChip => simp only [Op.run, acc_eraseChip]
  | eraseSector n => simp only [Op.run, acc_eraseSector]
  | eraseBootSector n => simp only [Op.run, acc_eraseBootSector]
  | checkChip => simp only [Op.run, checkChip, acc_error]
  | checkSector n => simp only [Op.run, checkSector, acc_checkLoop]
  | checkBootSector n => simp only [Op.run, checkBootSector, acc_checkLoop]
  | readChip => simp only [Op.run, readChip, acc_error]
  | readSector n dst => simp only [Op.run, acc_readSector]
  | readBootSector n dst app => simp only [Op.run, acc_readBootSector]
  | programByte a d => simp only [Op.run, acc_programByte]
  | programFile start file => simp only [Op.run, acc_programFile]
  | verifyFile start file => simp only [Op.run, acc_verifyFile]

theorem acc_runOps (dev : Device) (fuel : Nat) : ∀ (ops : List Op) (w : World),
    runOps dev fuel ops (acceptAll w) = (runOps dev fuel ops w).mapWorld acceptAll := by
  intro ops
  induction ops with
  | nil => intro w; rfl
  | cons op ops ih =>
    intro w
    simp only [runOps, acc_op]
    exact acc_bind _ _ fun _ w1 => ih w1

theorem mapWorld_world {α : Type} (f : World → World) (r : Res α) :
    (r.mapWorld f).world = f r.world := by
  cases r <;> rfl

theorem field_ge (m : Mirror) (k : Nat) (hk : 9 ≤ k) : m.field k = 0 := by
  unfold Mirror.field
  split <;> omega

theorem field_changed (c : RegCall) (k : Nat) (w : World)
    (h : (c.run w).mirror.field k ≠ w.mirror.field k) :
    (16 * k ||| (c.run w).mirror.field k) % 256 ∈ emitted w (c.run w) := by
  by_cases hk : k < 9
  · cases c with
    | setAddr a =>
      simp only [RegCall.run] at h ⊢
      rw [emitted_of_sent (setAddr_sent a w)]
      rw [setAddr_mirror] at h ⊢
      interval_cases k <;> simp only [Mirror.field] at h ⊢ <;>
        first
        | exact absurd rfl h
        | simp [Mirror.field, Ne.symm h]
    | setData d =>
      simp only [RegCall.run] at h ⊢
      rw [emitted_of_sent (setData_sent d w)]
      rw [setData_mirror] at h ⊢
      interval_cases k <;> simp only [Mirror.field] at h ⊢ <;>
        first
        | exact absurd rfl h
        | simp [Mirror.field, Ne.symm h]
    | setCtrl c =>
      simp only [RegCall.run] at h ⊢
      rw [emitted_of_sent (setCtrl_sent c w)]
      rw [setCtrl_mirror] at h ⊢
      interval_cases k <;> simp only [Mirror.field] at h ⊢ <;>
        first
        | exact absurd rfl h
        | simp [Mirror.field, Ne.symm h]
  · exact absurd (by rw [field_ge _ k (Nat.not_lt.mp hk), field_ge _ k (Nat.not_lt.mp hk)]) h

/-- C16 (retry transparency). The serial line is given by the outcomes `outs` of
the coming send attempts, any finite number of failures and successes in any
order, after which every attempt succeeds; a run makes finitely many attempts,
so this covers every line on which each failure is eventually followed by a
success. For every such `outs`, every starting world and every sequence of
operations (the register setters, `getData`, `getReady`, the bus cycles and the
flash commands), the run ends the same way and reaches the same world, up to the
outcomes left over, as on a line that accepts every byte at the first attempt:
the bytes accepted and the mirror are identical. A single attempt never changes
the mirror, and appends its byte when it succeeds and nothing when it fails;
`while (!serialSnd(b)) ;` appends `b` exactly once; and when a call of `setAddr`,
`setData` or `setCtrl` changes a mirror field, the byte for that field with the
new value is among the bytes the line accepted during the call. -/
theorem retry_transparency (dev : Device) (fuel : Nat) (ops : List Op) (outs : List Bool)
    (w : World) :
    (runOps dev fuel ops { w with sndOutcomes := outs }).mapWorld acceptAll =
        runOps dev fuel ops { w with sndOutcomes := [] } ∧
      (runOps dev fuel ops { w with sndOutcomes := outs }).world.sent =
        (runOps dev fuel ops { w with sndOutcomes := [] }).world.sent ∧
      (runOps dev fuel ops { w with sndOutcomes := outs }).world.mirror =
        (runOps dev fuel ops { w with sndOutcomes := [] }).world.mirror ∧
      (∀ b, (serialSnd b { w with sndOutcomes := outs }).2.mirror = w.mirror ∧
        ((serialSnd b { w with sndOutcomes := outs }).1 = false →
          (serialSnd b { w with sndOutcomes := outs }).2.sent = w.sent) ∧
        ((serialSnd b { w with sndOutcomes := outs }).1 = true →
          (serialSnd b { w with sndOutcomes := outs }).2.sent = w.sent ++ [b % 256])) ∧
      (∀ b, (sendByte b { w with sndOutcomes := outs }).sent = w.sent ++ [b % 256] ∧
        (sendByte b { w with sndOutcomes := outs }).mirror = w.mirror) ∧
      ∀ (c : RegCall) (k : Nat),
        (c.run { w with sndOutcomes := outs }).mirror.field k ≠ w.mirror.field k →
        (16 * k ||| (c.run { w with sndOutcomes := outs }).mirror.field k) % 256 ∈
          emitted { w with sndOutcomes := outs } (c.run { w with sndOutcomes := outs }) := by
  have h := acc_runOps dev fuel ops { w with sndOutcomes := outs }
  have hw : acceptAll { w with sndOutcomes := outs } = { w with sndOutcomes := [] } := rfl
  rw [hw] at h
  refine ⟨h.symm, ?_, ?_, ?_, ?_, ?_⟩
  · rw [h, mapWorld_world]
    rfl
  · rw [h, mapWorld_world]
    rfl
  · intro b
    cases outs with
    | nil => exact ⟨rfl, fun e => by simp [serialSnd] at e, fun _ => rfl⟩
    | cons o rest =>
      cases o with
      | true => exact ⟨rfl, fun e => by simp [serialSnd] at e, fun _ => rfl⟩
      | false => exact ⟨rfl, fun _ => rfl, fun e => by simp [serialSnd] at e⟩
  · intro b
    exact ⟨sendByte_sent b _, sendByte_mirror b _⟩
  · intro c k hc
    exact field_changed c k _ hc

/-- Witness for C16: two failed attempts before the first byte and one before the
second leave the bytes and the mirror of `writeData(0x123, 0x45)` as on a line
that accepts every byte. -/
theorem retry_transparency_witness :
    (runOps (fun _ => 1) 1 [.writeData 0x123 0x45]
        { World.initial with sndOutcomes := [false, false, true, false] }).world.sent =
      (runOps (fun _ => 1) 1 [.writeData 0x123 0x45]
        { World.initial with sndOutcomes := [] }).world.sent :=
  (retry_transparency (fun _ => 1) 1 [.writeData 0x123 0x45] [false, false, true, false]
    World.initial).2.1

/-! ## The don't-care writes of `programFile` -/

theorem holds_writeData (a d : Nat) (w : World) : (writeData a d w).mirror.holds a := by
  rw [writeData_mirror]
  exact ⟨rfl, rfl, rfl, rfl, rfl, rfl, rfl⟩

theorem quiet_of_holds (a d : Nat) (w : World) (h : w.mirror.holds a) : quietWrite a d w := by
  obtain ⟨h0, h1, h2, h3, h4, h5, hc⟩ := h
  have hab : addrBytes a w.mirror = [] := by
    simp [addrBytes, Mirror.field, h0, h1, h2, h3, h4, h5]
  have hd : dataBytes d (setAddr a w).mirror = dataBytes d w.mirror := by
    unfold dataBytes
    rw [setAddr_mirror]
    rfl
  have he : emitted w (writeData a d w) = dataBytes d w.mirror ++ [0x85, 0x83] := by
    rw [emitted_of_sent (writeData_sent a d w hc), hab, hd, List.nil_append]
  refine ⟨?_, hab, he, dataBytes_length d _, dataBytes_selector d _, ?_⟩
  · unfold Mirror.addr
    rw [h0, h1, h2, h3, h4, h5]
    exact nib_recombine a
  · intro b hb
    rw [he] at hb
    rcases List.mem_append.mp hb with hb | hb
    · rcases dataBytes_selector d _ b hb with e | e <;> rw [e] <;> decide
    · simp only [List.mem_cons, List.mem_singleton, List.not_mem_nil, or_false] at hb
      rcases hb with e | e <;> rw [e] <;> decide

theorem runCycles_append (dev : Device) (fuel : Nat) (ys : List BusCall) :
    ∀ (xs : List BusCall) (w : World),
    runCycles dev fuel (xs ++ ys) w =
      (runCycles dev fuel xs w).bind fun _ w1 => runCycles dev fuel ys w1 := by
  intro xs
  induction xs with
  | nil => intro w; rfl
  | cons c cs ih =>
    intro w
    simp only [List.cons_append, runCycles]
    cases c.run dev fuel w with
    | ok u w1 => exact ih w1
    | fatal e w1 => rfl
    | spin w1 => rfl

theorem prevAddr_succ (A : Nat → Nat) (i : Nat) : prevAddr A (i + 1) = A i := by
  simp [prevAddr]

theorem pairs_run (dev : Device) (fuel start : Nat) (bs : List Nat) (A : Nat → Nat)
    (hA : ∀ j, j < bs.length → u32 (start + j) = A j) :
    ∀ (n i : Nat) (w : World), i + n ≤ bs.length → w.mirror.holds (prevAddr A i) →
    ∃ w1, runCycles dev fuel ((List.range' i n).flatMap fun j =>
          [.write (prevAddr A j) 0xA0, .write (A j) (bs.getD j 0)]) w = .ok () w1 ∧
      programLoop start (InFile.ofBytes bs) n i (prevAddr A i) w =
        .ok (prevAddr A (i + n)) w1 ∧
      w1.mirror.holds (prevAddr A (i + n)) := by
  intro n
  induction n with
  | zero => intro i w _ hh; exact ⟨w, rfl, rfl, hh⟩
  | succ n ih =>
    intro i w h _
    have hi : i < bs.length := by omega
    have hb : (InFile.ofBytes bs).byte i = some (bs.getD i 0) := by
      simp [InFile.ofBytes, List.getElem?_eq_getElem hi]
    obtain ⟨w1, e1, e2, hh1⟩ := ih (i + 1)
      (writeData (A i) (bs.getD i 0) (writeData (prevAddr A i) 0xA0 w)) (by omega)
      (by rw [prevAddr_succ]; exact holds_writeData _ _ _)
    rw [prevAddr_succ] at e2
    rw [show i + 1 + n = i + (n + 1) by omega] at e2 hh1
    refine ⟨w1, ?_, ?_, hh1⟩
    · rw [List.range'_succ, List.flatMap_cons]
      simp only [List.cons_append, List.nil_append, runCycles, BusCall.run, Res.bind]
      exact e1
    · simp only [programLoop]
      rw [hb]
      simp only []
      rw [hA i hi]
      exact e2

theorem before_run (dev : Device) (fuel start : Nat) (bs : List Nat) (A : Nat → Nat)
    (hA : ∀ j, j < bs.length → u32 (start + j) = A j) (i : Nat) (hi : i ≤ bs.length)
    (w : World) :
    ∃ W, runCycles dev fuel (cyclesBefore A bs i) w = .ok () W ∧
      programLoop start (InFile.ofBytes bs) i 0 0xAAA
        (writeData 0xAAA 0x20 (writeData 0x555 0x55 (writeData 0xAAA 0xAA w))) =
        .ok (prevAddr A i) W ∧
      W.mirror.holds (prevAddr A i) := by
  obtain ⟨W, e1, e2, hh⟩ := pairs_run dev fuel start bs A hA i 0
    (writeData 0xAAA 0x20 (writeData 0x555 0x55 (writeData 0xAAA 0xAA w))) (by omega)
    (holds_writeData _ _ _)
  rw [Nat.zero_add] at e2 hh
  refine ⟨W, ?_, e2, hh⟩
  unfold cyclesBefore
  rw [runCycles_append, List.range_eq_range']
  simp only [runCycles, BusCall.run, Res.bind]
  exact e1

theorem range_split (i : Nat) : ∀ k, List.range (i + (k + 1)) =
    List.range i ++ i :: List.range' (i + 1) k := by
  intro k
  induction k with
  | zero => simp [List.range_succ]
  | succ k ih =>
    rw [show i + (k + 1 + 1) = (i + (k + 1)) + 1 by omega, List.range_succ, ih,
      List.range'_1_concat]
    simp
    omega

theorem cycles_split (A : Nat → Nat) (bs : List Nat) (i : Nat) (hi : i < bs.length) :
    ∃ post, programCycles A bs =
      cyclesBefore A bs i ++ .write (prevAddr A i) 0xA0 :: post := by
  obtain ⟨k, hk⟩ : ∃ k, bs.length = i + (k + 1) := ⟨bs.length - i - 1, by omega⟩
  refine ⟨.write (A i) (bs.getD i 0) ::
    ((List.range' (i + 1) k).flatMap (fun j =>
      [.write (prevAddr A j) 0xA0, .write (A j) (bs.getD j 0)]) ++
    [.wait,
     .write (if 0 < bs.length then A (bs.length - 1) else 0xAAA) 0x90,
     .write (if 0 < bs.length then A (bs.length - 1) else 0xAAA) 0x00]), ?_⟩
  unfold programCycles cyclesBefore
  rw [hk, range_split]
  simp only [List.flatMap_append, List.flatMap_cons, List.append_assoc, List.cons_append,
    List.nil_append, prevAddr]

theorem cycles_tail (A : Nat → Nat) (bs : List Nat) :
    programCycles A bs = cyclesBefore A bs bs.length ++
      [.wait, .write (prevAddr A bs.length) 0x90, .write (prevAddr A bs.length) 0x00] := by
  have hp : (if 0 < bs.length then A (bs.length - 1) else 0xAAA) = prevAddr A bs.length := by
    unfold prevAddr
    by_cases h : bs.length = 0
    · simp [h]
    · simp [h, Nat.pos_of_ne_zero h]
  unfold programCycles cyclesBefore
  rw [hp]
  simp only [prevAddr]

/-- C20 (the don't-care writes of `programFile` cost no address traffic). For
every start address and every readable file, with byte `j` going to the address
`u32 (start + j)`: at the head of iteration `i` of the loop of `programFile` the
world is the one reached by the bus cycles before re-arm write `i`, the variable
`addr` is `0xAAA` (for `i = 0`) or the address of the byte written last, and the
re-arm write `writeData(addr, 0xA0)` that follows is quiet: the mirror already
holds `addr`, no byte with an address selector `0 .. 5` is sent, and the bytes
sent are at most two data-nibble bytes followed by `0x85`, `0x83`. When the file
has at most 8 MiB and the device reports ready within the fuel, `programFile`
returns, and the two trailing writes of `0x90` and `0x00` after `waitReady` are
quiet in the same way. -/
theorem dummy_writes_quiet (dev : Device) (fuel start : Nat) (bs : List Nat) (w : World) :
    (∀ i, i < bs.length → ∃ W post,
        programCycles (fun j => u32 (start + j)) bs =
          cyclesBefore (fun j => u32 (start + j)) bs i ++
            .write (prevAddr (fun j => u32 (start + j)) i) 0xA0 :: post ∧
        runCycles dev fuel (cyclesBefore (fun j => u32 (start + j)) bs i) w = .ok () W ∧
        programLoop start (InFile.ofBytes bs) i 0 0xAAA
          (writeData 0xAAA 0x20 (writeData 0x555 0x55 (writeData 0xAAA 0xAA w))) =
          .ok (prevAddr (fun j => u32 (start + j)) i) W ∧
        quietWrite (prevAddr (fun j => u32 (start + j)) i) 0xA0 W) ∧
      (bs.length ≤ 8 * 1024 * 1024 → readyWithin dev fuel → ∃ W w1,
        programCycles (fun j => u32 (start + j)) bs =
          cyclesBefore (fun j => u32 (start + j)) bs bs.length ++
            [.wait, .write (prevAddr (fun j => u32 (start + j)) bs.length) 0x90,
             .write (prevAddr (fun j => u32 (start + j)) bs.length) 0x00] ∧
        runCycles dev fuel
          (cyclesBefore (fun j => u32 (start + j)) bs bs.length ++ [.wait]) w = .ok () W ∧
        quietWrite (prevAddr (fun j => u32 (start + j)) bs.length) 0x90 W ∧
        quietWrite (prevAddr (fun j => u32 (start + j)) bs.length) 0x00
          (writeData (prevAddr (fun j => u32 (start + j)) bs.length) 0x90 W) ∧
        programFile dev fuel start (some (InFile.ofBytes bs)) w = .ok () w1 ∧
        runCycles dev fuel (programCycles (fun j => u32 (start + j)) bs) w = .ok () w1 ∧
        w1 = writeData (prevAddr (fun j => u32 (start + j)) bs.length) 0x00
          (writeData (prevAddr (fun j => u32 (start + j)) bs.length) 0x90 W)) := by
  refine ⟨?_, ?_⟩
  · intro i hi
    obtain ⟨W, e1, e2, hh⟩ := before_run dev fuel start bs (fun j => u32 (start + j))
      (fun _ _ => rfl) i (Nat.le_of_lt hi) w
    obtain ⟨post, hp⟩ := cycles_split (fun j => u32 (start + j)) bs i hi
    exact ⟨W, post, hp, e1, e2, quiet_of_holds _ _ W hh⟩
  · intro hL hready
    obtain ⟨W0, e1, e2, hh⟩ := before_run dev fuel start bs (fun j => u32 (start + j))
      (fun _ _ => rfl) bs.length (Nat.le_refl _) w
    obtain ⟨W, e3, -, hm, -⟩ := waitReady_ok dev fuel hready W0
    have hW : W.mirror.holds (prevAddr (fun j => u32 (start + j)) bs.length) := by
      unfold Mirror.holds
      rw [hm]
      exact hh
    have hu : u32 (InFile.ofBytes bs).length = bs.length :=
      Nat.mod_eq_of_lt (by simp only [InFile.ofBytes]; omega)
    have hn : ¬ u32 (InFile.ofBytes bs).length > 8 * 1024 * 1024 := by rw [hu]; omega
    have hr : runCycles dev fuel
        (cyclesBefore (fun j => u32 (start + j)) bs bs.length ++ [.wait]) w = .ok () W := by
      rw [runCycles_append, e1]
      simp only [Res.bind, runCycles, BusCall.run]
      rw [e3]
    refine ⟨W, _, cycles_tail _ bs, hr, quiet_of_holds _ _ W hW,
      quiet_of_holds _ _ _ (holds_writeData _ _ _), ?_, ?_, rfl⟩
    · rw [programFile_pass dev fuel start _ w hn, hu, e2]
      simp only [Res.bind]
      rw [e3]
    · rw [cycles_tail, show ([.wait, .write (prevAddr (fun j => u32 (start + j)) bs.length) 0x90,
          .write (prevAddr (fun j => u32 (start + j)) bs.length) 0x00] : List BusCall) =
          [.wait] ++ [.write (prevAddr (fun j => u32 (start + j)) bs.length) 0x90,
            .write (prevAddr (fun j => u32 (start + j)) bs.length) 0x00] from rfl,
        ← List.append_assoc, runCycles_append, hr]
      simp only [Res.bind, runCycles, BusCall.run]

/-- Witness for C20: the two-byte file `[0x11, 0x22]` at start address `0x1000`,
with a device that is ready at the first poll: the re-arm write before the second
byte is quiet, and `programFile` returns with two quiet trailing writes. -/
theorem dummy_writes_quiet_witness :
    ((1 : Nat) < [0x11, 0x22].length ∧ [0x11, 0x22].length ≤ 8 * 1024 * 1024 ∧
        readyWithin (fun _ => 1) 1) ∧
      (∃ W, runCycles (fun _ => 1) 1
          (cyclesBefore (fun j => u32 (0x1000 + j)) [0x11, 0x22] 1) World.initial = .ok () W ∧
        quietWrite (prevAddr (fun j => u32 (0x1000 + j)) 1) 0xA0 W) ∧
      ∃ W, quietWrite (prevAddr (fun j => u32 (0x1000 + j)) 2) 0x90 W ∧
        programFile (fun _ => 1) 1 0x1000 (some (InFile.ofBytes [0x11, 0x22]))
          World.initial =
          .ok () (writeData (prevAddr (fun j => u32 (0x1000 + j)) 2) 0x00
            (writeData (prevAddr (fun j => u32 (0x1000 + j)) 2) 0x90 W)) :=
  have hr : readyWithin (fun _ => 1) 1 :=
    fun _ => ⟨0, by decide, (by decide : (1 % 256 &&& 0x01 : Nat) ≠ 0)⟩
  have h := dummy_writes_quiet (fun _ => 1) 1 0x1000 [0x11, 0x22] World.initial
  ⟨⟨by decide, by decide, hr⟩,
    (h.1 1 (by decide)).elim fun W hW => hW.elim fun _ hp => ⟨W, hp.2.1, hp.2.2.2⟩,
    (h.2 (by decide) hr).elim fun W hW => hW.elim fun _ hp =>
      ⟨W, hp.2.2.1, hp.2.2.2.2.2.2 ▸ hp.2.2.2.2.1⟩⟩

end Flashprog
